import Mathlib

/-!
# The C-declaration import engine of `tcwrapper.cpp`

A shallow embedding of `src/src/tcwrapper.cpp`: the visitor that translates the
declarations of a parsed C translation unit (types, records, functions, enum
constants, macro constants) into the host runtime's type descriptors and
namespaces, and the synthetic liveness function that keeps the imported
functions alive through code generation.

Conventions of the embedding.

* The front end's data (types, declarations, tokens) are plain inductive
  types; what the front end *computes* (`getTypeSize`, `isUnsignedIntegerType`,
  `getAsString`, the numeric literal reader) is a field of a parameter
  structure, so that every theorem holds for every target and front end.
* A `RecordDecl *` is a number; `ASTContext.getRecordDecl` dereferences it.
  Records may therefore refer to themselves and to each other.
* The Lua values the visitor builds are symbolic terms (`Obj`): the value of a
  field of `terra.types`, the result of calling `terra.types.pointer`, a
  struct handle, and so on. A struct handle is a number (its identity); its
  fields live in `LuaState.structs`.
* The host type registry (`terra.types.getorcreatecstruct`) is a parameter.
* The mutually recursive `GetType`, `GetFuncType`, `GetRecordTypeFromDecl` and
  `GetFields` are tied together by a step budget: `GetType` recurses on the
  budget and hands `GetType budget` to the other three. A result `none` means
  that the budget ran out, never an outcome of the program.
-/

namespace TCWrapper

/-! ## The front end's types and declarations -/

/-- The kinds of `clang::BuiltinType` that `GetType` names, and a catch-all
for the ones its `default:` arm takes. -/
inductive BuiltinKind where
  | Void | Bool
  | Char_S | Char_U | SChar | UChar | Short | UShort | Int | UInt
  | Long | ULong | LongLong | ULongLong | WChar_S | WChar_U | Char16 | Char32
  | Half | Float | Double | LongDouble | NullPtr | UInt128 | Int128
  | Other (kind : Nat)
  deriving DecidableEq, Repr

/-- The type classes (`Type::getTypeClass`) a canonical type can have. -/
inductive TypeClass where
  | Builtin | Complex | Pointer | BlockPointer | LValueReference | RValueReference
  | MemberPointer | ConstantArray | IncompleteArray | VariableArray | Vector | ExtVector
  | FunctionNoProto | FunctionProto | Record | Enum
  | ObjCObject | ObjCInterface | ObjCObjectPointer | Atomic | Typedef
  | Other (typeClass : Nat)
  deriving DecidableEq, Repr

/-- A `clang::QualType`. `Typedef` is the one kind of sugar that is modelled;
every other constructor is a canonical type node. A record type carries its
`RecordDecl *`. -/
inductive QualType where
  | Builtin (kind : BuiltinKind)
  | Complex (element : QualType)
  | Pointer (pointee : QualType)
  | BlockPointer (pointee : QualType)
  | LValueReference (pointee : QualType)
  | RValueReference (pointee : QualType)
  | MemberPointer (pointee : QualType)
  | ConstantArray (element : QualType) (size : Nat)
  | IncompleteArray (element : QualType)
  | VariableArray (element : QualType)
  | Vector (element : QualType) (numElements : Nat)
  | ExtVector (element : QualType) (numElements : Nat)
  | FunctionNoProto (returnType : QualType)
  | FunctionProto (returnType : QualType) (paramTypes : List QualType) (variadic : Bool)
  | Record (decl : Nat)
  | Enum (name : String) (integerType : QualType)
  | ObjCObject
  | ObjCInterface
  | ObjCObjectPointer
  | Atomic (value : QualType)
  | Typedef (name : String) (underlying : QualType)
  | Other (typeClass : Nat)
  deriving Repr

/-- The canonical type: `Context->getCanonicalType(T)` strips the sugar at the
head of the type. -/
def QualType.getCanonicalType : QualType → QualType
  | .Typedef _ underlying => getCanonicalType underlying
  | T => T

/-- The class of a type node, `Ty->getTypeClass()`. -/
def QualType.getTypeClass : QualType → TypeClass
  | .Builtin _ => .Builtin
  | .Complex _ => .Complex
  | .Pointer _ => .Pointer
  | .BlockPointer _ => .BlockPointer
  | .LValueReference _ => .LValueReference
  | .RValueReference _ => .RValueReference
  | .MemberPointer _ => .MemberPointer
  | .ConstantArray _ _ => .ConstantArray
  | .IncompleteArray _ => .IncompleteArray
  | .VariableArray _ => .VariableArray
  | .Vector _ _ => .Vector
  | .ExtVector _ _ => .ExtVector
  | .FunctionNoProto _ => .FunctionNoProto
  | .FunctionProto _ _ _ => .FunctionProto
  | .Record _ => .Record
  | .Enum _ _ => .Enum
  | .ObjCObject => .ObjCObject
  | .ObjCInterface => .ObjCInterface
  | .ObjCObjectPointer => .ObjCObjectPointer
  | .Atomic _ => .Atomic
  | .Typedef _ _ => .Typedef
  | .Other n => .Other n

/-- The test `RT->isVoidType()`: the canonical type is the builtin `void`. -/
def QualType.isVoidType (T : QualType) : Bool :=
  match T.getCanonicalType with
  | .Builtin .Void => true
  | _ => false

/-- A function type as `GetFuncType` reads it: the return type, and the
prototype (`f->getAs<FunctionProtoType>()`), absent for a declaration
without a parameter list. -/
structure FunctionType where
  returnType : QualType
  proto : Option (List QualType × Bool)
  deriving Repr

/-- The cast `getAs<FunctionType>()`: the function type behind the sugar, if
the canonical type is one. -/
def QualType.getAsFunctionType (T : QualType) : Option FunctionType :=
  match T.getCanonicalType with
  | .FunctionNoProto ret => some ⟨ret, none⟩
  | .FunctionProto ret params variadic => some ⟨ret, some (params, variadic)⟩
  | _ => none

/-- A `FieldDecl` of a record: `name` is empty when the field has no
declaration name. -/
structure FieldDecl where
  name : String
  isBitField : Bool
  isAnonymousStructOrUnion : Bool
  type : QualType
  deriving Repr

/-- The tag kinds of a `RecordDecl`. -/
inductive TagKind where
  | Struct | Union | Class | Interface
  deriving DecidableEq, Repr

/-- A `RecordDecl`: `name` is the tag (empty for an anonymous record),
`typedefNameForAnonDecl` the name of the typedef that names an anonymous
record, and `definition` the fields of `rd->getDefinition()` when the front
end has one. The definition is a redeclaration of the same record, so it has
the tag kind of `rd`. -/
structure RecordDecl where
  tagKind : TagKind
  name : String
  typedefNameForAnonDecl : Option String
  definition : Option (List FieldDecl)
  atTranslationUnit : Bool
  deriving Repr

def RecordDecl.isStruct (rd : RecordDecl) : Bool := rd.tagKind = .Struct

def RecordDecl.isUnion (rd : RecordDecl) : Bool := rd.tagKind = .Union

/-- A `TypedefDecl`: `isCanonicalDecl` is `TD == TD->getCanonicalDecl()` and
`atTranslationUnit` is `TD->getDeclContext()->getDeclKind() ==
Decl::TranslationUnit`. -/
structure TypedefDecl where
  name : String
  underlyingType : QualType
  isCanonicalDecl : Bool
  atTranslationUnit : Bool
  deriving Repr

/-- An `EnumConstantDecl`: `initVal` is `getInitVal().getSExtValue()`. -/
structure EnumConstantDecl where
  name : String
  initVal : Int
  deriving Repr

inductive StorageClass where
  | SC_None | SC_Extern | SC_Static | SC_PrivateExtern
  deriving DecidableEq, Repr

/-- A `FunctionDecl`: `asmLabel` is the label of its `AsmLabelAttr`. -/
structure FunctionDecl where
  name : String
  type : QualType
  storageClass : StorageClass
  asmLabel : Option String
  deriving Repr

/-- What the visitor reads from the `ASTContext` and the target. -/
structure ASTContext where
  getTypeSize : QualType → Nat
  isUnsignedIntegerType : QualType → Bool
  getAsString : QualType → String
  typeClassValue : TypeClass → Nat
  getRecordDecl : Nat → RecordDecl

/-! ## Machine integers -/

/-- The conversion of an unsigned value to a 32-bit `int`. -/
def toInt32 (n : Nat) : Int :=
  if n % 2 ^ 32 < 2 ^ 31 then ((n % 2 ^ 32 : Nat) : Int) else ((n % 2 ^ 32 : Nat) : Int) - 2 ^ 32

/-- The value `getSExtValue()` of a 64-bit `APInt` holding `n` modulo `2^64`. -/
def getSExtValue64 (n : Nat) : Int :=
  if n % 2 ^ 64 < 2 ^ 63 then ((n % 2 ^ 64 : Nat) : Int) else ((n % 2 ^ 64 : Nat) : Int) - 2 ^ 64

/-! ## Lua values -/

/-- The Lua values the visitor builds, as terms. -/
inductive Obj where
  | typefield (name : String)
  | pointer (elem : Obj)
  | array (elem : Obj) (size : Int)
  | vector (elem : Obj) (size : Int)
  | functype (parameters : List Obj) (returntype : Obj) (varargs : Bool)
  | cstruct (handle : Nat)
  | externfunction (internalname : String) (typ : Obj)
  | number (value : ℚ)
  deriving Repr

/-- One entry `{type = ..., field = ...}` built by `GetFields`. -/
structure Entry where
  type : Obj
  field : String
  deriving Repr

/-- An element of a struct handle's `entries`: an entry, or (for a union) a
list of entries that overlap. -/
inductive EntryItem where
  | entry (e : Entry)
  | list (es : List Entry)
  deriving Repr

/-- The fields of a struct handle that the visitor reads and writes.
`complete` counts the calls of the handle's `complete` method. -/
structure CStruct where
  llvm_definingfunction : Option String
  llvm_argumentposition : Option Nat
  undefined : Bool
  entries : List EntryItem
  complete : Nat
  deriving Repr

/-- The state of a struct handle that no one has written to: flagged
`undefined`, without entries, without a liveness binding. -/
def CStruct.created : CStruct :=
  { llvm_definingfunction := none
    llvm_argumentposition := none
    undefined := true
    entries := []
    complete := 0 }

/-- The Lua state outside the result table: the struct handles that have
been written to, by identity, the latest write first, and the private state
of the host type registry. -/
structure LuaState (ρ : Type) where
  tables : List (Nat × CStruct)
  registry : ρ

/-- The fields of the struct handle `h`. -/
def LuaState.structs {ρ : Type} (L : LuaState ρ) (h : Nat) : CStruct :=
  match L.tables.lookup h with
  | some s => s
  | none => CStruct.created

/-- A Lua table with string keys. -/
abbrev Table (α : Type) := String → Option α

def Table.empty {α : Type} : Table α := fun _ => none

def Table.setfield {α : Type} (t : Table α) (k : String) (v : α) : Table α :=
  fun k' => if k' = k then some v else t k'

def Table.hasfield {α : Type} (t : Table α) (k : String) : Bool := (t k).isSome

/-- The expressions of the liveness function's body. -/
inductive CastKind where
  | CK_ToVoid | CK_Other
  deriving DecidableEq, Repr

inductive Expr where
  | DeclRefExpr (d : FunctionDecl)
  | CStyleCastExpr (type : QualType) (kind : CastKind) (e : Expr)
  deriving Repr

/-- The state of an `IncludeCVisitor`. -/
structure IncludeCVisitor (ρ : Type) where
  outputstmts : List Expr
  outputtypes : List QualType
  L : LuaState ρ
  error_table : Table String
  general : Table Obj
  tagged : Table Obj
  error_message : String
  livenessfunction : String

/-! ## The visitor -/

/-- The host registry's `terra.types.getorcreatecstruct(name, tagged)`: it
returns a struct handle and may change the Lua state. -/
abbrev Registry (ρ : Type) := LuaState ρ → String → Bool → Nat × LuaState ρ

/-- The result of a translation under a step budget: `none` when the budget
ran out; otherwise the descriptor (`none` when the function returned
`false`) and the visitor's state. -/
abbrev Translation (ρ : Type) := Option (Option Obj × IncludeCVisitor ρ)

/-- The recursive callee that `GetFields`, `GetFuncType` and
`GetRecordTypeFromDecl` are given for `GetType`. -/
abbrev TypeGetter (ρ : Type) := QualType → IncludeCVisitor ρ → Translation ρ

/-- The constructor: fresh tables and the name of the liveness function. -/
def IncludeCVisitor.create {ρ : Type} (L : LuaState ρ) (id : Nat) : IncludeCVisitor ρ :=
  { outputstmts := []
    outputtypes := []
    L := L
    error_table := Table.empty
    general := Table.empty
    tagged := Table.empty
    error_message := ""
    livenessfunction := "__makeeverythinginclanglive_" ++ toString id }

/-- The state after `ImportError(msg)`, which returns `false`. -/
def ImportError {ρ : Type} (msg : String) (v : IncludeCVisitor ρ) : IncludeCVisitor ρ :=
  { v with error_message := msg }

/-- The update of one struct handle's fields. -/
def LuaState.modify {ρ : Type} (L : LuaState ρ) (h : Nat) (f : CStruct → CStruct) : LuaState ρ :=
  { L with tables := (h, f (L.structs h)) :: L.tables }

/-- The test `tt->boolean("undefined")`: the field is absent from every
value that is not a struct handle. -/
def Obj.undefined {ρ : Type} (L : LuaState ρ) : Obj → Bool
  | .cstruct h => (L.structs h).undefined
  | _ => false

/-- A write to the fields of the value `tt`, which is a struct handle
wherever the visitor writes to one. -/
def Obj.setfields {ρ : Type} (tt : Obj) (f : CStruct → CStruct) (v : IncludeCVisitor ρ) :
    IncludeCVisitor ρ :=
  match tt with
  | .cstruct h => { v with L := v.L.modify h f }
  | _ => v

/-- The fields that `GetFields` gives up on without translating their type
(line 90): bit-fields, and fields without a name that are not anonymous
structs or unions. -/
def FieldDecl.skipped (it : FieldDecl) : Bool :=
  it.isBitField || (!it.isAnonymousStructOrUnion && it.name = "")

/-- The loop of `GetFields` over the fields that remain, with the locals
`opaque` (here `opaq`) and `anonname` and the entries added so far. -/
def GetFields.loop {ρ : Type} (GetType : TypeGetter ρ) :
    List FieldDecl → Bool → Nat → List Entry → IncludeCVisitor ρ →
      Option (Bool × List Entry × IncludeCVisitor ρ)
  | [], opaq, _, entries, v => some (!opaq, entries, v)
  | it :: rest, opaq, anonname, entries, v =>
    if it.skipped then GetFields.loop GetType rest true anonname entries v
    else
      let declstr := if it.isAnonymousStructOrUnion then "_" ++ toString anonname else it.name
      let anonname := if it.isAnonymousStructOrUnion then anonname + 1 else anonname
      match GetType it.type v with
      | none => none
      | some (none, v) => GetFields.loop GetType rest true anonname entries v
      | some (some fobj, v) =>
        GetFields.loop GetType rest opaq anonname (entries ++ [⟨fobj, declstr⟩]) v

/-- The function `GetFields(rd, entries)` on the fields of a definition: the
entries of the fields it understood, and whether it understood them all. -/
def GetFields {ρ : Type} (GetType : TypeGetter ρ) (fields : List FieldDecl)
    (v : IncludeCVisitor ρ) : Option (Bool × List Entry × IncludeCVisitor ρ) :=
  GetFields.loop GetType fields false 0 [] v

/-- The function `RegisterRecordType`: the defining function, the argument
position, and the state with one more parameter type. The assertion on the
number of parameters is not modelled. -/
def RegisterRecordType {ρ : Type} (T : QualType) (v : IncludeCVisitor ρ) :
    String × Nat × IncludeCVisitor ρ :=
  (v.livenessfunction, v.outputtypes.length,
    { v with outputtypes := v.outputtypes ++ [QualType.Pointer T] })

/-- The namespace a record is looked up in, as `thenamespace == &tagged`,
and the name it is looked up under (lines 126 to 134). -/
def recordNamespace (d : RecordDecl) : Bool × String :=
  if d.name = "" then
    match d.typedefNameForAnonDecl with
    | some n => (false, n)
    | none => (true, d.name)
  else (true, d.name)

/-- The table `*thenamespace`. -/
def IncludeCVisitor.thenamespace {ρ : Type} (v : IncludeCVisitor ρ) (istagged : Bool) :
    Table Obj :=
  if istagged then v.tagged else v.general

/-- The call `thenamespace->setfield(name)` with `value` on the stack. -/
def IncludeCVisitor.setnamespace {ρ : Type} (v : IncludeCVisitor ρ) (istagged : Bool)
    (name : String) (value : Obj) : IncludeCVisitor ρ :=
  if istagged then { v with tagged := v.tagged.setfield name value }
  else { v with general := v.general.setfield name value }

/-- Lines 142 to 150 of `GetRecordTypeFromDecl`: a handle that has no
`llvm_definingfunction` is registered with the liveness function. -/
def GetRecordTypeFromDecl.register {ρ : Type} (rd : Nat) (h : Nat) (v : IncludeCVisitor ρ) :
    IncludeCVisitor ρ :=
  if (v.L.structs h).llvm_definingfunction.isSome then v
  else
    let reg := RegisterRecordType (QualType.Record rd) v
    { reg.2.2 with
      L := reg.2.2.L.modify h fun s =>
        { s with llvm_definingfunction := some reg.1, llvm_argumentposition := some reg.2.1 } }

/-- Lines 137 to 154 of `GetRecordTypeFromDecl`, taken when the namespace
has no value under the name: the registry's handle is given its liveness
binding when it has none, and is stored in the namespace when the name is
not empty. -/
def GetRecordTypeFromDecl.create {ρ : Type} (getorcreatecstruct : Registry ρ) (rd : Nat)
    (istagged : Bool) (name : String) (v : IncludeCVisitor ρ) : Obj × IncludeCVisitor ρ :=
  let r := getorcreatecstruct v.L name istagged
  let v := GetRecordTypeFromDecl.register rd r.1 { v with L := r.2 }
  (Obj.cstruct r.1, if name ≠ "" then v.setnamespace istagged name (Obj.cstruct r.1) else v)

/-- Lines 126 to 155 of `GetRecordTypeFromDecl`: the handle is the value
found in the namespace or, failing that, the registry's. -/
def GetRecordTypeFromDecl.lookup {ρ : Type} (getorcreatecstruct : Registry ρ)
    (Context : ASTContext) (rd : Nat) (v : IncludeCVisitor ρ) : Obj × IncludeCVisitor ρ :=
  let d := Context.getRecordDecl rd
  match v.thenamespace (recordNamespace d).1 (recordNamespace d).2 with
  | some tt => (tt, v)
  | none =>
    GetRecordTypeFromDecl.create getorcreatecstruct rd (recordNamespace d).1 (recordNamespace d).2 v

/-- Lines 162 to 178 of `GetRecordTypeFromDecl`: when `GetFields` understood
every field, the entries are attached (as they are for a struct, as one
element added to the handle's `entries` for a union) and the handle's
`complete` is called; otherwise nothing is done. -/
def GetRecordTypeFromDecl.attach {ρ : Type} (isUnion : Bool) (tt : Obj) (ok : Bool)
    (entries : List Entry) (v : IncludeCVisitor ρ) : IncludeCVisitor ρ :=
  if ok then
    let v :=
      if !isUnion then tt.setfields (fun s => { s with entries := entries.map EntryItem.entry }) v
      else tt.setfields (fun s => { s with entries := s.entries ++ [EntryItem.list entries] }) v
    tt.setfields (fun s => { s with complete := s.complete + 1 }) v
  else v

/-- Lines 157 to 179 of `GetRecordTypeFromDecl`: a handle that is still
flagged `undefined` and whose record has a definition loses the flag and, if
`GetFields` understood every field, gets its entries and is completed. -/
def GetRecordTypeFromDecl.complete {ρ : Type} (Context : ASTContext) (GetType : TypeGetter ρ)
    (rd : Nat) (tt : Obj) (v : IncludeCVisitor ρ) : Option (IncludeCVisitor ρ) :=
  match (Context.getRecordDecl rd).definition with
  | some defn =>
    if Obj.undefined v.L tt then do
      let r ← GetFields GetType defn (tt.setfields (fun s => { s with undefined := false }) v)
      pure (GetRecordTypeFromDecl.attach (Context.getRecordDecl rd).isUnion tt r.1 r.2.1 r.2.2)
    else some v
  | none => some v

/-- The function `GetRecordTypeFromDecl`. -/
def GetRecordTypeFromDecl {ρ : Type} (getorcreatecstruct : Registry ρ) (Context : ASTContext)
    (GetType : TypeGetter ρ) (rd : Nat) (v : IncludeCVisitor ρ) :
    Option (Option Obj × IncludeCVisitor ρ) :=
  if (Context.getRecordDecl rd).isStruct || (Context.getRecordDecl rd).isUnion then do
    let r := GetRecordTypeFromDecl.lookup getorcreatecstruct Context rd v
    let v ← GetRecordTypeFromDecl.complete Context GetType rd r.1 r.2
    pure (some r.1, v)
  else
    some (none, ImportError "non-struct record types are not supported" v)

/-- The loop of `GetFuncType` over the parameter types that remain. -/
def GetFuncType.loop {ρ : Type} (GetType : TypeGetter ρ) :
    List QualType → Bool → List Obj → IncludeCVisitor ρ →
      Option (Bool × List Obj × IncludeCVisitor ρ)
  | [], valid, parameters, v => some (valid, parameters, v)
  | PT :: rest, valid, parameters, v =>
    match GetType PT v with
    | none => none
    | some (none, v) => GetFuncType.loop GetType rest false parameters v
    | some (some pt, v) =>
      GetFuncType.loop GetType rest valid (if valid then parameters ++ [pt] else parameters) v

/-- The parameter types the loop of `GetFuncType` runs over: those of the
prototype, none when `proto` is null. -/
def FunctionType.paramTypes (f : FunctionType) : List QualType :=
  match f.proto with
  | some (paramTypes, _) => paramTypes
  | none => []

/-- The flag `proto ? proto->isVariadic() : false`. -/
def FunctionType.isVariadic (f : FunctionType) : Bool :=
  match f.proto with
  | some (_, variadic) => variadic
  | none => false

/-- Lines 386 to 392 of `GetFuncType`: the return type, `unit` for `void`. -/
def GetFuncType.returntype {ρ : Type} (GetType : TypeGetter ρ) (f : FunctionType)
    (v : IncludeCVisitor ρ) : Option (Option Obj × IncludeCVisitor ρ) :=
  if f.returnType.isVoidType then some (some (Obj.typefield "unit"), v)
  else GetType f.returnType v

/-- Lines 416 to 425 of `GetFuncType`: the function type, when `valid`. -/
def GetFuncType.result (f : FunctionType) (valid : Bool) (parameters : List Obj)
    (returntype : Option Obj) : Option Obj :=
  match valid, returntype with
  | true, some returntype => some (Obj.functype parameters returntype f.isVariadic)
  | _, _ => none

/-- The function `GetFuncType`. -/
def GetFuncType {ρ : Type} (GetType : TypeGetter ρ) (f : FunctionType)
    (v : IncludeCVisitor ρ) : Option (Option Obj × IncludeCVisitor ρ) := do
  let rt ← GetFuncType.returntype GetType f v
  let ps ← GetFuncType.loop GetType f.paramTypes rt.1.isSome [] rt.2
  pure (GetFuncType.result f ps.1 ps.2.1 rt.1, ps.2.2)

/-- The descriptor name of an integer builtin: `"u"` when unsigned, `"int"`,
and the size as the `int` it is read into. -/
def integerTypeName (isUnsigned : Bool) (sz : Int) : String :=
  (if isUnsigned then "u" else "") ++ "int" ++ toString sz

/-- The end of `GetType`: the error "type not understood". -/
def GetType.notUnderstood {ρ : Type} (Context : ASTContext) (T : QualType)
    (v : IncludeCVisitor ρ) : Option (Option Obj × IncludeCVisitor ρ) :=
  some (none, ImportError ("type not understood: " ++ Context.getAsString T ++ " " ++
    toString (Context.typeClassValue T.getTypeClass)) v)

/-- A type built from the translation of its element, when there is one. -/
def GetType.wrap {ρ : Type} (make : Obj → Obj) (r : Option (Option Obj × IncludeCVisitor ρ)) :
    Option (Option Obj × IncludeCVisitor ρ) :=
  r.map fun r => (r.1.map make, r.2)

/-- What the `switch` of `GetType` does with a canonical type: it hands a
record to `GetRecordTypeFromDecl`, returns the field `name` of `terra.types`
(`InitType`), translates an element type and builds a type from it, hands a
function type to `GetFuncType`, or breaks out to the error. -/
inductive GetType.Action where
  | record (rd : Nat)
  | initType (name : String)
  | element (ETy : QualType) (make : Obj → Obj)
  | funcType (FT : FunctionType)
  | notUnderstood

/-- The `switch` of `GetType` on the canonical type `T`. -/
def GetType.switch (Context : ASTContext) (T : QualType) : GetType.Action :=
  match T with
  | .Record rd => .record rd
  | .Builtin .Void => .initType "opaque"
  | .Builtin .Bool => .initType "bool"
  | .Builtin .Char_S | .Builtin .Char_U | .Builtin .SChar | .Builtin .UChar
  | .Builtin .Short | .Builtin .UShort | .Builtin .Int | .Builtin .UInt
  | .Builtin .Long | .Builtin .ULong | .Builtin .LongLong | .Builtin .ULongLong
  | .Builtin .WChar_S | .Builtin .WChar_U | .Builtin .Char16 | .Builtin .Char32 =>
    .initType (integerTypeName (Context.isUnsignedIntegerType T) (toInt32 (Context.getTypeSize T)))
  | .Builtin .Half => .notUnderstood
  | .Builtin .Float => .initType "float"
  | .Builtin .Double => .initType "double"
  | .Builtin _ => .notUnderstood
  | .Complex _ | .LValueReference _ | .RValueReference _ => .notUnderstood
  | .Pointer ETy => .element ETy Obj.pointer
  | .VariableArray _ | .IncompleteArray _ => .notUnderstood
  | .ConstantArray elementType size => .element elementType fun at_ => Obj.array at_ (toInt32 size)
  | .ExtVector elementType numElements | .Vector elementType numElements =>
    .element elementType fun at_ => Obj.vector at_ (toInt32 numElements)
  | .FunctionNoProto _ => .notUnderstood
  | .FunctionProto returnType paramTypes variadic =>
    .funcType ⟨returnType, some (paramTypes, variadic)⟩
  | .ObjCObject | .ObjCInterface | .ObjCObjectPointer | .Enum _ _ => .initType "uint32"
  | .BlockPointer _ | .MemberPointer _ | .Atomic _ => .notUnderstood
  | _ => .notUnderstood

/-- The body of `GetType`, with `GetType` itself, as the callee of its
recursive calls, a parameter. -/
def GetType.body {ρ : Type} (getorcreatecstruct : Registry ρ) (Context : ASTContext)
    (GetType : TypeGetter ρ) (T : QualType) (v : IncludeCVisitor ρ) :
    Option (Option Obj × IncludeCVisitor ρ) :=
  match TCWrapper.GetType.switch Context T.getCanonicalType with
  | .record rd => GetRecordTypeFromDecl getorcreatecstruct Context GetType rd v
  | .initType name => some (some (Obj.typefield name), v)
  | .element ETy make => TCWrapper.GetType.wrap make (GetType ETy v)
  | .funcType FT => GetFuncType GetType FT v
  | .notUnderstood => TCWrapper.GetType.notUnderstood Context T.getCanonicalType v

/-- The function `GetType`, on a step budget: with no step left there is no
result, and with one more step the body runs with the recursive calls on the
steps that remain. -/
def GetType {ρ : Type} (getorcreatecstruct : Registry ρ) (Context : ASTContext) :
    Nat → QualType → IncludeCVisitor ρ → Option (Option Obj × IncludeCVisitor ρ)
  | 0 => fun _ _ => none
  | fuel + 1 =>
    GetType.body getorcreatecstruct Context (GetType getorcreatecstruct Context fuel)

/-- The function `SetErrorReport(field)`: the last import error message is
stored under `field` in the table of errors. -/
def SetErrorReport {ρ : Type} (field : String) (v : IncludeCVisitor ρ) : IncludeCVisitor ρ :=
  { v with error_table := v.error_table.setfield field v.error_message }

/-- The function `GetFunctionReference`. -/
def GetFunctionReference (df : FunctionDecl) : Expr := Expr.DeclRefExpr df

/-- The function `CreateCast`. -/
def CreateCast (Ty : QualType) (Kind : CastKind) (E : Expr) : Expr :=
  Expr.CStyleCastExpr Ty Kind E

/-- The function `KeepFunctionLive`: one more statement, the reference to
`df` cast to `void`. -/
def KeepFunctionLive {ρ : Type} (df : FunctionDecl) (v : IncludeCVisitor ρ) :
    IncludeCVisitor ρ :=
  { v with outputstmts := v.outputstmts ++
      [CreateCast (QualType.Builtin .Void) CastKind.CK_ToVoid (GetFunctionReference df)] }

/-- The function `VisitTypedefDecl`: the value returned and the state. -/
def VisitTypedefDecl {ρ : Type} (getorcreatecstruct : Registry ρ) (Context : ASTContext)
    (fuel : Nat) (TD : TypedefDecl) (v : IncludeCVisitor ρ) :
    Option (Bool × IncludeCVisitor ρ) :=
  if TD.isCanonicalDecl && TD.atTranslationUnit then
    match GetType getorcreatecstruct Context fuel TD.underlyingType.getCanonicalType v with
    | none => none
    | some (some typ, v) => some (true, { v with general := v.general.setfield TD.name typ })
    | some (none, v) => some (true, SetErrorReport TD.name v)
  else some (true, v)

/-- The function `TraverseRecordDecl`. -/
def TraverseRecordDecl {ρ : Type} (getorcreatecstruct : Registry ρ) (Context : ASTContext)
    (fuel : Nat) (rd : Nat) (v : IncludeCVisitor ρ) : Option (Bool × IncludeCVisitor ρ) :=
  if (Context.getRecordDecl rd).atTranslationUnit then
    match GetRecordTypeFromDecl getorcreatecstruct Context
        (GetType getorcreatecstruct Context fuel) rd v with
    | none => none
    | some (_, v) => some (true, v)
  else some (true, v)

/-! ### Double precision

A `double` is modelled by the rational number it holds. The two conversions
the code performs, from a 64-bit integer to `double` and back, are exact
functions on integers. -/

/-- The number of low bits of `a` that a significand of 53 bits cannot hold:
the least `e` with `a < 2 ^ (53 + e)`, searched for below `bound`. -/
def excessBits (a : Nat) : Nat → Nat
  | 0 => 0
  | e + 1 => if a < 2 ^ (53 + e) then excessBits a e else e + 1

/-- The integer that `(double)i` holds, for a 64-bit signed integer `i`: `i`
rounded to 53 significant bits, to the nearest, ties to even. -/
def nearestDouble (i : Int) : Int :=
  let a := i.natAbs
  let e := excessBits a 11
  let q := a / 2 ^ e
  let r := a % 2 ^ e
  let q := if 2 ^ e < 2 * r ∨ (2 * r = 2 ^ e ∧ q % 2 = 1) then q + 1 else q
  i.sign * ((q * 2 ^ e : Nat) : Int)

/-- The conversion `(double)i` of a 64-bit signed integer. -/
def castInt64ToDouble (i : Int) : ℚ := ((nearestDouble i : Int) : ℚ)

/-- The conversion `(int64_t)d`: `d` truncated toward zero; a value outside
the range of `int64_t` gives the least `int64_t`, as the conversion
instruction of x86-64 does (the C++ standard leaves it undefined). -/
def castDoubleToInt64 (d : ℚ) : Int :=
  let t := Int.tdiv d.num d.den
  if -2 ^ 63 ≤ t ∧ t < 2 ^ 63 then t else -2 ^ 63

/-- The function `VisitEnumConstantDecl`. -/
def VisitEnumConstantDecl {ρ : Type} (E : EnumConstantDecl) (v : IncludeCVisitor ρ) :
    Bool × IncludeCVisitor ρ :=
  (true, { v with general := v.general.setfield E.name (Obj.number (castInt64ToDouble E.initVal)) })

/-- The function `CreateFunction`. -/
def CreateFunction {ρ : Type} (name internalname : String) (typ : Obj)
    (v : IncludeCVisitor ρ) : IncludeCVisitor ρ :=
  if !v.general.hasfield name then
    { v with general := v.general.setfield name (Obj.externfunction internalname typ) }
  else v

/-- Lines 447 to 455 of `TraverseFunctionDecl`: the name the symbol is linked
under, the declared name or the assembler label. `isLinux` says whether
`__linux__` is defined. -/
def TraverseFunctionDecl.InternalName (isLinux : Bool) (f : FunctionDecl) : String :=
  match f.asmLabel with
  | some label => if isLinux then label else "\x01" ++ label
  | none => f.name

/-- The function `TraverseFunctionDecl`: the value returned and the state. -/
def TraverseFunctionDecl {ρ : Type} (getorcreatecstruct : Registry ρ) (Context : ASTContext)
    (isLinux : Bool) (fuel : Nat) (f : FunctionDecl) (v : IncludeCVisitor ρ) :
    Option (Bool × IncludeCVisitor ρ) :=
  match f.type.getAsFunctionType with
  | none => some (true, v)
  | some fntyp =>
    if f.storageClass = StorageClass.SC_Static then
      some (true, SetErrorReport f.name (ImportError "cannot import static functions." v))
    else
      match GetFuncType (GetType getorcreatecstruct Context fuel) fntyp v with
      | none => none
      | some (none, v) => some (true, SetErrorReport f.name v)
      | some (some typ, v) =>
        some (true, KeepFunctionLive f
          (CreateFunction f.name (TraverseFunctionDecl.InternalName isLinux f) typ v))

/-- The declaration that `GetLivenessFunction` builds. -/
structure LivenessFunction where
  name : String
  returnType : QualType
  paramTypes : List QualType
  storageClass : StorageClass
  body : List Expr
  deriving Repr

/-- The function `GetLivenessFunction`. -/
def GetLivenessFunction {ρ : Type} (v : IncludeCVisitor ρ) : LivenessFunction :=
  { name := v.livenessfunction
    returnType := QualType.Builtin .Void
    paramTypes := v.outputtypes
    storageClass := StorageClass.SC_Extern
    body := v.outputstmts }

/-- A top-level declaration, as far as the visitor tells them apart. -/
inductive Decl where
  | TypedefDecl (TD : TypedefDecl)
  | RecordDecl (rd : Nat)
  | EnumDecl (constants : List EnumConstantDecl)
  | FunctionDecl (f : FunctionDecl)
  | Other
  deriving Repr

/-- The dispatch `Visitor.TraverseDecl(d)` of `RecursiveASTVisitor` on a
top-level declaration: a typedef is visited, a record and a function are
traversed by the visitor's own overrides (which do not descend), and the
constants of an enumeration are visited in order. -/
def TraverseDecl {ρ : Type} (getorcreatecstruct : Registry ρ) (Context : ASTContext)
    (isLinux : Bool) (fuel : Nat) (d : Decl) (v : IncludeCVisitor ρ) :
    Option (IncludeCVisitor ρ) :=
  match d with
  | .TypedefDecl TD => (VisitTypedefDecl getorcreatecstruct Context fuel TD v).map Prod.snd
  | .RecordDecl rd => (TraverseRecordDecl getorcreatecstruct Context fuel rd v).map Prod.snd
  | .EnumDecl constants => some (constants.foldl (fun v E => (VisitEnumConstantDecl E v).2) v)
  | .FunctionDecl f =>
    (TraverseFunctionDecl getorcreatecstruct Context isLinux fuel f v).map Prod.snd
  | .Other => some v

/-- The method `CodeGenProxy::HandleTopLevelDecl` on the visitor, over the
declarations of the translation unit in source order. -/
def HandleTopLevelDecl {ρ : Type} (getorcreatecstruct : Registry ρ) (Context : ASTContext)
    (isLinux : Bool) (fuel : Nat) : List Decl → IncludeCVisitor ρ → Option (IncludeCVisitor ρ)
  | [], v => some v
  | d :: D, v =>
    match TraverseDecl getorcreatecstruct Context isLinux fuel d v with
    | none => none
    | some v => HandleTopLevelDecl getorcreatecstruct Context isLinux fuel D v

/-! ## Macro constants -/

inductive TokenKind where
  | minus | numeric_constant | identifier | other (kind : Nat)
  deriving DecidableEq, Repr

structure Token where
  kind : TokenKind
  spelling : String
  deriving DecidableEq, Repr

/-- What `AddMacro` reads of a `MacroInfo`: the replacement tokens. -/
structure MacroInfo where
  isFunctionLike : Bool
  replacementTokens : List Token
  deriving Repr

structure IdentifierInfo where
  name : String
  hasMacroDefinition : Bool
  deriving Repr

/-- What `AddMacro` reads of a `NumericLiteralParser`: `integerValue` is the
value of an integer literal, of which `GetIntegerValue` puts the low 64 bits
into its 64-bit result. -/
structure NumericLiteralParser where
  hadError : Bool
  isFloatingLiteral : Bool
  floatValue : ℚ
  integerValue : Nat
  deriving Repr

/-- The preprocessor: the spelling of a token and the reading of a numeric
literal from its spelling. -/
structure Preprocessor where
  getSpelling : Token → String
  numericLiteral : String → NumericLiteralParser

/-- Lines 638 to 651 of `AddMacro`: the number `V` read from the literal, or
nothing where the function returns because the integer does not survive the
conversion to `double` and back. -/
def AddMacro.value (Literal : NumericLiteralParser) : Option ℚ :=
  if Literal.isFloatingLiteral then some Literal.floatValue
  else
    let i := getSExtValue64 Literal.integerValue
    if castDoubleToInt64 (castInt64ToDouble i) ≠ i then none
    else some (castInt64ToDouble i)

/-- The function `AddMacro`: the table `macros` after it. -/
def AddMacro (PP : Preprocessor) (II : IdentifierInfo) (MI : MacroInfo)
    (table : Table ℚ) : Table ℚ :=
  if !II.hasMacroDefinition then table
  else if MI.isFunctionLike then table
  else
    let sel : Option (Bool × Token) :=
      match MI.replacementTokens with
      | [t0, t1] => if t0.kind = TokenKind.minus then some (true, t1) else none
      | [t0] => some (false, t0)
      | _ => none
    match sel with
    | none => table
    | some (negate, Tok) =>
      if Tok.kind ≠ TokenKind.numeric_constant then table
      else
        let Literal := PP.numericLiteral (PP.getSpelling Tok)
        if Literal.hadError then table
        else
          match AddMacro.value Literal with
          | none => table
          | some V => table.setfield II.name (if negate then -V else V)

/-- The four tables an import returns, the declaration of the liveness
function handed to the code generator, and the Lua state and the counter of
identifiers it leaves behind. -/
structure ImportResult (ρ : Type) where
  general : Table Obj
  tagged : Table Obj
  errors : Table String
  macros : Table ℚ
  livenessDecl : LivenessFunction
  L : LuaState ρ
  next_unused_id : Nat

/-- The function `dofile`, from the parsed declarations and the macro table
to the result: the visitor is created with the next unused identifier, the
declarations are traversed, the liveness function is built, and the macros
are added. Code generation and linking are outside the model. -/
def dofile {ρ : Type} (getorcreatecstruct : Registry ρ) (Context : ASTContext)
    (PP : Preprocessor) (isLinux : Bool) (fuel : Nat) (decls : List Decl)
    (macroTable : List (IdentifierInfo × MacroInfo)) (L : LuaState ρ) (next_unused_id : Nat) :
    Option (ImportResult ρ) :=
  match HandleTopLevelDecl getorcreatecstruct Context isLinux fuel decls
      (IncludeCVisitor.create L next_unused_id) with
  | none => none
  | some v =>
    some
      { general := v.general
        tagged := v.tagged
        errors := v.error_table
        macros := macroTable.foldl (fun table m => AddMacro PP m.1 m.2 table) Table.empty
        livenessDecl := GetLivenessFunction v
        L := v.L
        next_unused_id := next_unused_id + 1 }

/-! ## Sample front ends, targets and registries

Concrete parameters, used to run the model on the declarations the
specification quotes. -/

/-- The spelling of a type, for the sample target. -/
def sampleSpelling : QualType → String
  | .Builtin .Void => "void"
  | .Builtin .Bool => "_Bool"
  | .Builtin .Char_S => "char"
  | .Builtin .Int => "int"
  | .Builtin .UInt => "unsigned int"
  | .Builtin .Long => "long"
  | .Builtin .ULong => "unsigned long"
  | .Builtin .Float => "float"
  | .Builtin .Double => "double"
  | .Builtin .LongDouble => "long double"
  | .Builtin .Int128 => "__int128"
  | .Builtin .UInt128 => "unsigned __int128"
  | .Builtin .Half => "__fp16"
  | .Complex element => "_Complex " ++ sampleSpelling element
  | .Pointer pointee => sampleSpelling pointee ++ " *"
  | .Typedef name _ => name
  | _ => "?"

/-- A 64-bit target on which `char` is signed and `long` has 64 bits, over
the record declarations `records`. -/
def sampleTarget (records : Nat → RecordDecl) : ASTContext where
  getTypeSize := fun T =>
    match T with
    | .Builtin .Bool | .Builtin .Char_S | .Builtin .Char_U | .Builtin .SChar
    | .Builtin .UChar => 8
    | .Builtin .Short | .Builtin .UShort | .Builtin .Char16 | .Builtin .Half => 16
    | .Builtin .Int | .Builtin .UInt | .Builtin .WChar_S | .Builtin .WChar_U
    | .Builtin .Char32 | .Builtin .Float => 32
    | .Builtin .Long | .Builtin .ULong | .Builtin .LongLong | .Builtin .ULongLong
    | .Builtin .Double | .Pointer _ => 64
    | .Builtin .LongDouble | .Builtin .Int128 | .Builtin .UInt128 => 128
    | _ => 0
  isUnsignedIntegerType := fun T =>
    match T with
    | .Builtin .Bool | .Builtin .Char_U | .Builtin .UChar | .Builtin .UShort | .Builtin .UInt
    | .Builtin .ULong | .Builtin .ULongLong | .Builtin .WChar_U | .Builtin .Char16
    | .Builtin .Char32 | .Builtin .UInt128 => true
    | _ => false
  getAsString := sampleSpelling
  typeClassValue := fun c =>
    match c with
    | .Builtin => 0 | .Complex => 1 | .Pointer => 2 | .BlockPointer => 3
    | .LValueReference => 4 | .RValueReference => 5 | .MemberPointer => 6
    | .ConstantArray => 7 | .IncompleteArray => 8 | .VariableArray => 9
    | .Vector => 12 | .ExtVector => 13 | .FunctionProto => 14 | .FunctionNoProto => 15
    | .Record => 26 | .Enum => 25 | .Typedef => 17 | .Atomic => 43
    | .ObjCObject => 40 | .ObjCInterface => 41 | .ObjCObjectPointer => 42
    | .Other n => n
  getRecordDecl := records

/-- Modelled from the spec: the host type registry behind
`get_or_create_named_aggregate(name, is_tagged)`, whose code is outside
`tcwrapper.cpp`. A tagged name resolves to one handle for the life of the
registry; every other call creates a handle. `named` lists the handles
created for the names that are not tags. -/
structure HostRegistry where
  tagged : List (String × Nat)
  named : List Nat
  next : Nat
  deriving Repr

/-- An identity that no struct handle written to so far has, and none that
the registry has given out: one above `next`, above the handles under the
tags and those of the other names, and above the handles written to. -/
def HostRegistry.unused (L : LuaState HostRegistry) : Nat :=
  L.tables.foldl (fun m p => max m (p.1 + 1))
    (L.registry.named.foldl (fun m h => max m (h + 1))
      (L.registry.tagged.foldl (fun m p => max m (p.2 + 1)) L.registry.next))

/-- Modelled from the spec: `getorcreatecstruct` of the sample registry. A
handle it creates has an unused identity, so it is flagged `undefined` and
has no entries. -/
def HostRegistry.getorcreatecstruct : Registry HostRegistry := fun L name tagged =>
  match (if tagged && name ≠ "" then L.registry.tagged.lookup name else none) with
  | some h => (h, L)
  | none =>
    (HostRegistry.unused L,
      { L with
        registry :=
          { tagged := if tagged && name ≠ "" then (name, HostRegistry.unused L) :: L.registry.tagged
                      else L.registry.tagged
            named := if !tagged && name ≠ "" then HostRegistry.unused L :: L.registry.named
                     else L.registry.named
            next := HostRegistry.unused L + 1 } })

/-- The Lua state of a session in which no struct has been created. -/
def HostRegistry.freshState : LuaState HostRegistry :=
  { tables := []
    registry := { tagged := [], named := [], next := 0 } }

/-- Reads a string of decimal digits. -/
def decimalValue (s : List Char) : Nat := s.foldl (fun n c => 10 * n + (c.toNat - 48)) 0

/-- A front end that reads unsuffixed decimal integer literals. -/
def decimalPP : Preprocessor where
  getSpelling := fun Tok => Tok.spelling
  numericLiteral := fun s =>
    { hadError := s.data.isEmpty || !s.data.all Char.isDigit
      isFloatingLiteral := false
      floatValue := 0
      integerValue := decimalValue s.data }

/-! ## Predicates of the specification -/

/-- The sixteen integer kinds that share one arm of `GetType`. -/
def integerKinds : List BuiltinKind :=
  [.Char_S, .Char_U, .SChar, .UChar, .Short, .UShort, .Int, .UInt, .Long, .ULong,
   .LongLong, .ULongLong, .WChar_S, .WChar_U, .Char16, .Char32]

/-- The replacement lists that `AddMacro` accepts: one numeric constant
`Tok` (`negate = false`), or a minus and one numeric constant `Tok`
(`negate = true`), where the literal reads without error. -/
def AcceptedBody (PP : Preprocessor) (MI : MacroInfo) (negate : Bool) (Tok : Token) : Prop :=
  ((negate = false ∧ MI.replacementTokens = [Tok]) ∨
    (negate = true ∧ ∃ m : Token, m.kind = TokenKind.minus ∧ MI.replacementTokens = [m, Tok])) ∧
  Tok.kind = TokenKind.numeric_constant ∧
  (PP.numericLiteral (PP.getSpelling Tok)).hadError = false

/-- A table of record declarations with no definition anywhere. -/
def noRecords : Nat → RecordDecl := fun _ =>
  { tagKind := TagKind.Struct
    name := ""
    typedefNameForAnonDecl := none
    definition := none
    atTranslationUnit := false }

/-- The declaration `static int f(void);`. -/
def staticIntF : FunctionDecl :=
  { name := "f"
    type := QualType.FunctionProto (QualType.Builtin .Int) [] false
    storageClass := StorageClass.SC_Static
    asmLabel := none }

/-- The macro `#define N 100`. -/
def defineN100 : IdentifierInfo × MacroInfo :=
  (⟨"N", true⟩, ⟨false, [⟨TokenKind.numeric_constant, "100"⟩]⟩)

/-- The macro `#define N -100`. -/
def defineNMinus100 : IdentifierInfo × MacroInfo :=
  (⟨"N", true⟩, ⟨false, [⟨TokenKind.minus, "-"⟩, ⟨TokenKind.numeric_constant, "100"⟩]⟩)

/-- The macro `#define BIG 123456789012345678`. -/
def defineBIG : IdentifierInfo × MacroInfo :=
  (⟨"BIG", true⟩, ⟨false, [⟨TokenKind.numeric_constant, "123456789012345678"⟩]⟩)

/-- The macro `#define ALLBITS 18446744073709551615`, whose value is
`2^64 - 1`. -/
def defineALLBITS : IdentifierInfo × MacroInfo :=
  (⟨"ALLBITS", true⟩, ⟨false, [⟨TokenKind.numeric_constant, "18446744073709551615"⟩]⟩)

/-- The record declarations `l`, the `i`-th of them behind the pointer `i`;
every other pointer is to a declaration without name or definition. -/
def recordsOf (l : List RecordDecl) (rd : Nat) : RecordDecl := l.getD rd (noRecords 0)

/-- The declaration `struct S { int x; };`. -/
def structS : RecordDecl :=
  { tagKind := TagKind.Struct
    name := "S"
    typedefNameForAnonDecl := none
    definition := some [⟨"x", false, false, QualType.Builtin .Int⟩]
    atTranslationUnit := true }

/-- The declaration `struct S { int a : 3; int b; };`. -/
def structBitField : RecordDecl :=
  { tagKind := TagKind.Struct
    name := "S"
    typedefNameForAnonDecl := none
    definition := some [⟨"a", true, false, QualType.Builtin .Int⟩,
      ⟨"b", false, false, QualType.Builtin .Int⟩]
    atTranslationUnit := true }

/-- The declaration `int g(void);`. -/
def externIntG : FunctionDecl :=
  { name := "g"
    type := QualType.FunctionProto (QualType.Builtin .Int) [] false
    storageClass := StorageClass.SC_None
    asmLabel := none }

/-- The declaration `int use(struct S *p);`, with `struct S` the record
behind the pointer 0. -/
def externUseS : FunctionDecl :=
  { name := "use"
    type := QualType.FunctionProto (QualType.Builtin .Int) [QualType.Pointer (QualType.Record 0)]
      false
    storageClass := StorageClass.SC_None
    asmLabel := none }

/-- The declaration `int f(long double a, struct S *p, __int128 b);`, with
`struct S` the record behind the pointer 0. -/
def threeParamsF : FunctionDecl :=
  { name := "f"
    type := QualType.FunctionProto (QualType.Builtin .Int)
      [QualType.Builtin .LongDouble, QualType.Pointer (QualType.Record 0),
        QualType.Builtin .Int128] false
    storageClass := StorageClass.SC_None
    asmLabel := none }

/-- The canonical type is a builtin type. -/
def QualType.isBuiltinType (T : QualType) : Bool :=
  match T.getCanonicalType with
  | .Builtin _ => true
  | _ => false

/-- The declaration `struct P { int x; struct { int a; }; long y; union {
int b; }; };`: the records of its two anonymous members are behind the
pointers 1 and 2. -/
def structP : RecordDecl :=
  { tagKind := TagKind.Struct
    name := "P"
    typedefNameForAnonDecl := none
    definition := some [⟨"x", false, false, QualType.Builtin .Int⟩,
      ⟨"", false, true, QualType.Record 1⟩,
      ⟨"y", false, false, QualType.Builtin .Long⟩,
      ⟨"", false, true, QualType.Record 2⟩]
    atTranslationUnit := true }

/-- The record of the anonymous member `struct { int a; };`. -/
def anonStructA : RecordDecl :=
  { tagKind := TagKind.Struct
    name := ""
    typedefNameForAnonDecl := none
    definition := some [⟨"a", false, false, QualType.Builtin .Int⟩]
    atTranslationUnit := false }

/-- The record of the anonymous member `union { int b; };`. -/
def anonUnionB : RecordDecl :=
  { tagKind := TagKind.Union
    name := ""
    typedefNameForAnonDecl := none
    definition := some [⟨"b", false, false, QualType.Builtin .Int⟩]
    atTranslationUnit := false }

/-- The declaration `union U { int i; float f; };`. -/
def unionU : RecordDecl :=
  { tagKind := TagKind.Union
    name := "U"
    typedefNameForAnonDecl := none
    definition := some [⟨"i", false, false, QualType.Builtin .Int⟩,
      ⟨"f", false, false, QualType.Builtin .Float⟩]
    atTranslationUnit := true }

/-- The declaration `struct N { struct N *next; int v; };`, the record
behind the pointer 0. -/
def structN : RecordDecl :=
  { tagKind := TagKind.Struct
    name := "N"
    typedefNameForAnonDecl := none
    definition := some [⟨"next", false, false, QualType.Pointer (QualType.Record 0)⟩,
      ⟨"v", false, false, QualType.Builtin .Int⟩]
    atTranslationUnit := true }

/-- The declaration `struct X { struct Y *y; };`, with `struct Y` the record
behind the pointer 1. -/
def structX : RecordDecl :=
  { tagKind := TagKind.Struct
    name := "X"
    typedefNameForAnonDecl := none
    definition := some [⟨"y", false, false, QualType.Pointer (QualType.Record 1)⟩]
    atTranslationUnit := true }

/-- The declaration `struct Y { struct X *x; };`, with `struct X` the record
behind the pointer 0. -/
def structY : RecordDecl :=
  { tagKind := TagKind.Struct
    name := "Y"
    typedefNameForAnonDecl := none
    definition := some [⟨"x", false, false, QualType.Pointer (QualType.Record 0)⟩]
    atTranslationUnit := true }

/-- The declaration `struct S { __int128 x; };`. -/
def structInt128 : RecordDecl :=
  { tagKind := TagKind.Struct
    name := "S"
    typedefNameForAnonDecl := none
    definition := some [⟨"x", false, false, QualType.Builtin .Int128⟩]
    atTranslationUnit := false }

/-- The declaration `int f(long double a, struct S { __int128 x; } *p);`,
with `struct S` the record behind the pointer 0. -/
def mixedParamsF : FunctionDecl :=
  { name := "f"
    type := QualType.FunctionProto (QualType.Builtin .Int)
      [QualType.Builtin .LongDouble, QualType.Pointer (QualType.Record 0)] false
    storageClass := StorageClass.SC_None
    asmLabel := none }

/-! ## Predicates on getters, states and registries -/

/-- The getter `g'` returns whatever `g` returns. -/
def TypeGetter.le {ρ : Type} (g g' : TypeGetter ρ) : Prop :=
  ∀ T v x, g T v = some x → g' T v = some x

/-- A relation between the state before and the state after that every step
of a translation keeps: it is reflexive and transitive, and it holds across
an import error, across the lookup or creation of a record's handle, across
the clearing of the flag `undefined` of a handle that has it, and, for a
handle that had the flag at the start, across a write to the handle that
leaves the flag alone. -/
structure Invariant {ρ : Type} (getorcreatecstruct : Registry ρ) (Context : ASTContext)
    (R : IncludeCVisitor ρ → IncludeCVisitor ρ → Prop) : Prop where
  refl : ∀ v, R v v
  trans : ∀ {a b c}, R a b → R b c → R a c
  importError : ∀ v msg, R v (ImportError msg v)
  lookup : ∀ rd v, R v (GetRecordTypeFromDecl.lookup getorcreatecstruct Context rd v).2
  clear : ∀ v tt, Obj.undefined v.L tt = true →
    R v (tt.setfields (fun s => { s with undefined := false }) v)
  attach : ∀ v0 tt v f, Obj.undefined v0.L tt = true → R v0 v →
    (∀ s, (f s).undefined = s.undefined) → R v0 (tt.setfields f v)

/-- Every result of the getter `g` satisfies `R`. -/
def TypeGetter.Keeps {ρ : Type} (g : TypeGetter ρ)
    (R : IncludeCVisitor ρ → IncludeCVisitor ρ → Prop) : Prop :=
  ∀ T v r v', g T v = some (r, v') → R v v'

/-- The registry leaves alone every handle that is not flagged `undefined`:
it sets the flag, and gives a handle its first contents, only when it creates
the handle. -/
def Registry.KeepsDefined {ρ : Type} (getorcreatecstruct : Registry ρ) : Prop :=
  ∀ L name tagged h, (L.structs h).undefined = false →
    (getorcreatecstruct L name tagged).2.structs h = L.structs h

/-- What a translation leaves alone outside the Lua state: the statements,
the table of errors and the name of the liveness function are the same,
parameter types are only added, and the two namespaces keep every value they
hold and gain only struct handles. -/
structure Frame {ρ : Type} (v v' : IncludeCVisitor ρ) : Prop where
  outputstmts : v'.outputstmts = v.outputstmts
  error_table : v'.error_table = v.error_table
  livenessfunction : v'.livenessfunction = v.livenessfunction
  outputtypes : ∃ added, v'.outputtypes = v.outputtypes ++ added
  kept : ∀ b name o, v.thenamespace b name = some o → v'.thenamespace b name = some o
  gained : ∀ b name, v.thenamespace b name = none →
    v'.thenamespace b name = none ∨ ∃ h, v'.thenamespace b name = some (Obj.cstruct h)

/-- What a translation leaves alone in the Lua state: a handle that is not
flagged `undefined` keeps that, its entries, and its count of calls of
`complete`. -/
def Settles {ρ : Type} (v v' : IncludeCVisitor ρ) : Prop :=
  ∀ h, (v.L.structs h).undefined = false →
    (v'.L.structs h).undefined = false ∧
    (v'.L.structs h).entries = (v.L.structs h).entries ∧
    (v'.L.structs h).complete = (v.L.structs h).complete

/-- The types on which `GetType` returns `true`, read off its `switch`: a
struct or union, a type with a field of `terra.types`, a pointer, array or
vector of a type that translates, and a function type whose return type is
`void` or translates and whose parameter types all translate. -/
inductive Translates (Context : ASTContext) : QualType → Prop where
  | record {T : QualType} {rd : Nat} :
      GetType.switch Context T.getCanonicalType = GetType.Action.record rd →
      ((Context.getRecordDecl rd).isStruct || (Context.getRecordDecl rd).isUnion) = true →
      Translates Context T
  | initType {T : QualType} {name : String} :
      GetType.switch Context T.getCanonicalType = GetType.Action.initType name →
      Translates Context T
  | element {T ETy : QualType} {make : Obj → Obj} :
      GetType.switch Context T.getCanonicalType = GetType.Action.element ETy make →
      Translates Context ETy → Translates Context T
  | funcTypeVoid {T : QualType} {FT : FunctionType} :
      GetType.switch Context T.getCanonicalType = GetType.Action.funcType FT →
      FT.returnType.isVoidType = true →
      (∀ PT ∈ FT.paramTypes, Translates Context PT) → Translates Context T
  | funcType {T : QualType} {FT : FunctionType} :
      GetType.switch Context T.getCanonicalType = GetType.Action.funcType FT →
      Translates Context FT.returnType →
      (∀ PT ∈ FT.paramTypes, Translates Context PT) → Translates Context T

/-- The function types on which `GetFuncType` returns `true`. -/
def TranslatesFunc (Context : ASTContext) (FT : FunctionType) : Prop :=
  (FT.returnType.isVoidType = true ∨ Translates Context FT.returnType) ∧
    ∀ PT ∈ FT.paramTypes, Translates Context PT

/-- The fields that make `GetFields` return `false`: the skipped ones and
those whose type does not translate. -/
def FieldDecl.Unsupported (Context : ASTContext) (it : FieldDecl) : Prop :=
  it.skipped = true ∨ ¬ Translates Context it.type

/-- Every result of the getter `g` is a success exactly on the types that
translate. -/
def TypeGetter.Decides {ρ : Type} (g : TypeGetter ρ) (Context : ASTContext) : Prop :=
  ∀ T v r v', g T v = some (r, v') → (r.isSome = true ↔ Translates Context T)

/-- The records that `GetType` resolves on the way through a type, before it
looks into the fields of any record: `Mentions Context T rd`. -/
inductive Mentions (Context : ASTContext) : QualType → Nat → Prop where
  | record {T : QualType} {rd : Nat} :
      GetType.switch Context T.getCanonicalType = GetType.Action.record rd →
      Mentions Context T rd
  | element {T ETy : QualType} {make : Obj → Obj} {rd : Nat} :
      GetType.switch Context T.getCanonicalType = GetType.Action.element ETy make →
      Mentions Context ETy rd → Mentions Context T rd
  | returnType {T : QualType} {FT : FunctionType} {rd : Nat} :
      GetType.switch Context T.getCanonicalType = GetType.Action.funcType FT →
      Mentions Context FT.returnType rd → Mentions Context T rd
  | paramType {T PT : QualType} {FT : FunctionType} {rd : Nat} :
      GetType.switch Context T.getCanonicalType = GetType.Action.funcType FT →
      PT ∈ FT.paramTypes → Mentions Context PT rd → Mentions Context T rd

/-- The declarations of a translation unit are finite, and a record that has
neither a tag nor a typedef name cannot refer to itself: the records have
finitely many names between them, and the records without a name are ranked
so that the types of the fields of one mention only records of lower rank. -/
structure ASTContext.WellFormed (Context : ASTContext) : Prop where
  names : ∃ keys : List (Bool × String), ∀ rd,
    (recordNamespace (Context.getRecordDecl rd)).2 ≠ "" →
      recordNamespace (Context.getRecordDecl rd) ∈ keys
  ranks : ∃ (rank : Nat → Nat) (bound : Nat), (∀ rd, rank rd ≤ bound) ∧
    ∀ rd defn it rd', (recordNamespace (Context.getRecordDecl rd)).2 = "" →
      (Context.getRecordDecl rd).definition = some defn → it ∈ defn → it.skipped = false →
      Mentions Context it.type rd' → rank rd' < rank rd

/-- The name `k` of a namespace holds a value that is not flagged
`undefined`: a record of that name is not looked into again. -/
def IncludeCVisitor.settled {ρ : Type} (v : IncludeCVisitor ρ) (k : Bool × String) : Bool :=
  match v.thenamespace k.1 k.2 with
  | some o => !Obj.undefined v.L o
  | none => false

/-- The number of the names `keys` that are not settled. -/
def IncludeCVisitor.unsettled {ρ : Type} (v : IncludeCVisitor ρ) (keys : List (Bool × String)) :
    Nat :=
  keys.countP fun k => !v.settled k

/-- The statement that `KeepFunctionLive` adds for the declaration `f`: the
reference to `f`, cast to `void`. -/
def livenessStmt (f : FunctionDecl) : Expr :=
  CreateCast (QualType.Builtin .Void) CastKind.CK_ToVoid (GetFunctionReference f)

/-- The function declarations that `TraverseFunctionDecl` accepts: not
static, of a function type that translates. -/
def FunctionDecl.Accepted (Context : ASTContext) (f : FunctionDecl) : Prop :=
  f.storageClass ≠ StorageClass.SC_Static ∧
    ∃ FT, f.type.getAsFunctionType = some FT ∧ TranslatesFunc Context FT

/-- The state `b` is later than the state `a`: each namespace holds in `b`
every value it holds in `a`, and a handle that is not flagged `undefined` in
`a` is not flagged in `b`. -/
def Later {ρ : Type} (a b : IncludeCVisitor ρ) : Prop :=
  (∀ ns name o, a.thenamespace ns name = some o → b.thenamespace ns name = some o) ∧
    ∀ h, (a.L.structs h).undefined = false → (b.L.structs h).undefined = false

/-- The handle the registry returns for the empty name, that of a record
without a name, is flagged `undefined`: it is one the registry has just
created. -/
def Registry.CreatesUndefined {ρ : Type} (getorcreatecstruct : Registry ρ) : Prop :=
  ∀ L tagged, ((getorcreatecstruct L "" tagged).2.structs
    (getorcreatecstruct L "" tagged).1).undefined = true

/-- Once the getter `g1` has translated a type, the getter `g2` translates
it again, from any later state, without a change to the two namespaces. -/
def TypeGetter.Repeats {ρ : Type} (g1 g2 : TypeGetter ρ) : Prop :=
  ∀ T v r w v2 r2 w2, g1 T v = some (r, w) → Later w v2 → g2 T v2 = some (r2, w2) →
    w2.general = v2.general ∧ w2.tagged = v2.tagged

/-- Every value that `tagged` holds in `a` it holds in `b`. -/
def TaggedKept {ρ : Type} (a b : IncludeCVisitor ρ) : Prop :=
  ∀ name o, a.tagged name = some o → b.tagged name = some o

/-- The values `ps` are the translations that the getter `g` gives of the
types `params`, one after the other and in order, from the state `v` to the
state `v'`, every one of them a success. -/
def TranslatedInOrder {ρ : Type} (g : TypeGetter ρ) :
    List QualType → IncludeCVisitor ρ → List Obj → IncludeCVisitor ρ → Prop
  | [], v, ps, v' => ps = [] ∧ v' = v
  | PT :: rest, v, ps, v' =>
    ∃ pt v1 ps1, g PT v = some (some pt, v1) ∧ TranslatedInOrder g rest v1 ps1 v' ∧
      ps = pt :: ps1

/-- A relation between the state before and the state after that every step
of a translation keeps, the steps that `GetRecordTypeFromDecl` makes on a
handle taken together: it is reflexive and transitive, it holds across
an import error and across the lookup or creation of a record's handle, and,
for a handle flagged `undefined`, if it holds from the clearing of the flag to
the end of `GetFields`, it holds from before the clearing to after the
attachment of the entries. -/
structure StepInvariant {ρ : Type} (getorcreatecstruct : Registry ρ) (Context : ASTContext)
    (R : IncludeCVisitor ρ → IncludeCVisitor ρ → Prop) : Prop where
  refl : ∀ v, R v v
  trans : ∀ {a b c}, R a b → R b c → R a c
  importError : ∀ v msg, R v (ImportError msg v)
  lookup : ∀ rd v, R v (GetRecordTypeFromDecl.lookup getorcreatecstruct Context rd v).2
  completed : ∀ v tt isUnion ok entries vf, Obj.undefined v.L tt = true →
    R (tt.setfields (fun s => { s with undefined := false }) v) vf →
    R v (GetRecordTypeFromDecl.attach isUnion tt ok entries vf)

/-- The registry never calls `complete` on a handle: it leaves every count
of calls as it is. -/
def Registry.NeverCompletes {ρ : Type} (getorcreatecstruct : Registry ρ) : Prop :=
  ∀ L name tagged h,
    ((getorcreatecstruct L name tagged).2.structs h).complete = (L.structs h).complete

/-- The entries of a handle right after a field list has been attached to
it (lines 164 to 174): the list itself for a struct, the list as the last
element for a union. -/
def Attached (entries : List EntryItem) : Prop :=
  ∃ es : List Entry, entries = es.map EntryItem.entry ∨
    ∃ before, entries = before ++ [EntryItem.list es]

/-- Between the state `a` and the state `b`, `complete` was called at most
once on each handle: a handle that is not flagged `undefined` in `a` has the
same flag, entries and count of calls in `b`; and the count of a handle is
either the same in `b`, or one more, and then the handle was flagged in `a`,
is not flagged in `b`, and has in `b` the entries of an attached field
list. -/
def CompletedOnce {ρ : Type} (a b : IncludeCVisitor ρ) : Prop :=
  Settles a b ∧
    ∀ h, (b.L.structs h).complete = (a.L.structs h).complete ∨
      ((b.L.structs h).complete = (a.L.structs h).complete + 1 ∧
        (a.L.structs h).undefined = true ∧ (b.L.structs h).undefined = false ∧
        Attached (b.L.structs h).entries)

/-- The state `b` is reached from the state `a` by a sequence of calls of
`GetRecordTypeFromDecl`, on any records and any step budgets. -/
inductive ResolvedBy {ρ : Type} (getorcreatecstruct : Registry ρ) (Context : ASTContext) :
    IncludeCVisitor ρ → IncludeCVisitor ρ → Prop where
  | done (v : IncludeCVisitor ρ) : ResolvedBy getorcreatecstruct Context v v
  | call {v w b : IncludeCVisitor ρ} (fuel rd : Nat) (r : Option Obj) :
      GetRecordTypeFromDecl getorcreatecstruct Context
        (GetType getorcreatecstruct Context fuel) rd v = some (r, w) →
      ResolvedBy getorcreatecstruct Context w b → ResolvedBy getorcreatecstruct Context v b

/-- The statements that the declarations `D` leave in the liveness function:
one for each function declaration that is accepted, in order and as often as
it is declared, and none for any other declaration. -/
inductive StatementsOf (Context : ASTContext) : List Decl → List Expr → Prop where
  | nil : StatementsOf Context [] []
  | accepted {f : FunctionDecl} {D : List Decl} {s : List Expr} :
      f.Accepted Context → StatementsOf Context D s →
      StatementsOf Context (Decl.FunctionDecl f :: D) (livenessStmt f :: s)
  | other {d : Decl} {D : List Decl} {s : List Expr} :
      (∀ f, d = Decl.FunctionDecl f → ¬ f.Accepted Context) → StatementsOf Context D s →
      StatementsOf Context (d :: D) s

/-- The entries `es` are those of the fields `fields`, one for each field and
in order, from the state `v` to the state `v'`: the type of an entry is the
translation that the getter `g` gives of the field's type, and its name is
the field's, or `_k` for an anonymous struct or union, `k` counting the
anonymous ones from `anonname` on. -/
def TranslatedFields {ρ : Type} (g : TypeGetter ρ) :
    List FieldDecl → Nat → IncludeCVisitor ρ → List Entry → IncludeCVisitor ρ → Prop
  | [], _, v, es, v' => es = [] ∧ v' = v
  | it :: rest, anonname, v, es, v' =>
    ∃ t v1 es1, g it.type v = some (some t, v1) ∧
      TranslatedFields g rest (if it.isAnonymousStructOrUnion then anonname + 1 else anonname)
        v1 es1 v' ∧
      es = ⟨t, if it.isAnonymousStructOrUnion then "_" ++ toString anonname else it.name⟩ :: es1

/-- The registry leaves the native binding of every handle as it is: it
neither gives a handle a binding nor changes one. -/
def Registry.KeepsBindings {ρ : Type} (getorcreatecstruct : Registry ρ) : Prop :=
  ∀ L name tagged h,
    ((getorcreatecstruct L name tagged).2.structs h).llvm_definingfunction =
        (L.structs h).llvm_definingfunction ∧
      ((getorcreatecstruct L name tagged).2.structs h).llvm_argumentposition =
        (L.structs h).llvm_argumentposition

/-- The bindings of the session are in order: a handle whose
`llvm_definingfunction` is the session's liveness function has a position at
which the parameter types of the liveness function hold the pointer to a
record type; no two such handles have the same position; and every position
is that of such a handle. -/
def Bound {ρ : Type} (v : IncludeCVisitor ρ) : Prop :=
  (∀ h, (v.L.structs h).llvm_definingfunction = some v.livenessfunction →
    ∃ p rd, (v.L.structs h).llvm_argumentposition = some p ∧
      v.outputtypes[p]? = some (QualType.Pointer (QualType.Record rd))) ∧
  (∀ h1 h2 p, (v.L.structs h1).llvm_definingfunction = some v.livenessfunction →
    (v.L.structs h1).llvm_argumentposition = some p →
    (v.L.structs h2).llvm_definingfunction = some v.livenessfunction →
    (v.L.structs h2).llvm_argumentposition = some p → h1 = h2) ∧
  ∀ p, p < v.outputtypes.length →
    ∃ h, (v.L.structs h).llvm_definingfunction = some v.livenessfunction ∧
      (v.L.structs h).llvm_argumentposition = some p

/-- From the state `a` to the state `b` the liveness function keeps its name
and its parameter types, with types added at the end only; a handle that has
a binding in `a` has the same binding in `b`; and if the bindings of the
session are in order in `a`, they are in `b`. -/
def Binds {ρ : Type} (a b : IncludeCVisitor ρ) : Prop :=
  b.livenessfunction = a.livenessfunction ∧
  (∃ added, b.outputtypes = a.outputtypes ++ added) ∧
  (∀ h, (a.L.structs h).llvm_definingfunction.isSome = true →
    (b.L.structs h).llvm_definingfunction = (a.L.structs h).llvm_definingfunction ∧
    (b.L.structs h).llvm_argumentposition = (a.L.structs h).llvm_argumentposition) ∧
  (Bound a → Bound b)

/-- The binding of the handle `h` to the position `p` was made, between the
states `a` and `b`, by the lookup of the record `rd`: at a state `u` reached
from `a` whose namespace held no value under the record's name, the lookup of
`rd` (lines 126 to 155) returned `h`, which had no binding, gave it the name
of the liveness function and the position `p`, the number of parameter types
in `u`, and added the pointer to the type of `rd` as the parameter type of
that position; and `b` is reached from the state the lookup left. -/
def AssignedBy {ρ : Type} (getorcreatecstruct : Registry ρ) (Context : ASTContext)
    (a b : IncludeCVisitor ρ) (h p rd : Nat) : Prop :=
  ∃ u : IncludeCVisitor ρ, Binds a u ∧
    Binds (GetRecordTypeFromDecl.lookup getorcreatecstruct Context rd u).2 b ∧
    u.thenamespace (recordNamespace (Context.getRecordDecl rd)).1
      (recordNamespace (Context.getRecordDecl rd)).2 = none ∧
    (GetRecordTypeFromDecl.lookup getorcreatecstruct Context rd u).1 = Obj.cstruct h ∧
    (u.L.structs h).llvm_definingfunction = none ∧
    u.outputtypes.length = p ∧
    (GetRecordTypeFromDecl.lookup getorcreatecstruct Context rd u).2.outputtypes =
      u.outputtypes ++ [QualType.Pointer (QualType.Record rd)] ∧
    ((GetRecordTypeFromDecl.lookup getorcreatecstruct Context rd u).2.L.structs
      h).llvm_definingfunction = some u.livenessfunction ∧
    ((GetRecordTypeFromDecl.lookup getorcreatecstruct Context rd u).2.L.structs
      h).llvm_argumentposition = some p

/-- From the state `a` to the state `b` the bindings are kept (`Binds`), and
every handle that has no binding in `a` and has one in `b` is bound to the
liveness function, at a position that holds the pointer to the type of the
record whose lookup returned the handle and made the binding. -/
def BindsRecords {ρ : Type} (getorcreatecstruct : Registry ρ) (Context : ASTContext)
    (a b : IncludeCVisitor ρ) : Prop :=
  Binds a b ∧
  ∀ h, (a.L.structs h).llvm_definingfunction = none →
    (b.L.structs h).llvm_definingfunction.isSome = true →
    (b.L.structs h).llvm_definingfunction = some b.livenessfunction ∧
    ∃ p rd, (b.L.structs h).llvm_argumentposition = some p ∧
      b.outputtypes[p]? = some (QualType.Pointer (QualType.Record rd)) ∧
      AssignedBy getorcreatecstruct Context a b h p rd

theorem toInt32_of_lt {n : Nat} (h : n < 2 ^ 31) : toInt32 n = (n : Int) := by
  unfold toInt32
  have h1 : n % 2 ^ 32 = n := Nat.mod_eq_of_lt (by omega)
  rw [h1, if_pos h]

theorem toString_natCast (n : Nat) : toString ((n : Nat) : Int) = toString n := rfl

theorem getSExtValue64_range (n : Nat) :
    -2 ^ 63 ≤ getSExtValue64 n ∧ getSExtValue64 n < 2 ^ 63 := by
  unfold getSExtValue64
  have h : n % 2 ^ 64 < 2 ^ 64 := Nat.mod_lt _ (by norm_num)
  split <;> constructor <;> omega

theorem castDoubleToInt64_intCast (t : Int) :
    castDoubleToInt64 (t : ℚ) = if -2 ^ 63 ≤ t ∧ t < 2 ^ 63 then t else -2 ^ 63 := by
  simp [castDoubleToInt64]

/-- A 64-bit integer survives the conversion to `double` and back exactly
when the `double` nearest to it is the integer itself. -/
theorem roundtrip_iff (i : Int) (hlo : -2 ^ 63 ≤ i) (hhi : i < 2 ^ 63) :
    castDoubleToInt64 (castInt64ToDouble i) = i ↔ nearestDouble i = i := by
  unfold castInt64ToDouble
  rw [castDoubleToInt64_intCast]
  constructor
  · intro h
    split at h
    · exact h
    · rename_i hr
      exfalso
      apply hr
      rw [← h]
      decide
  · intro h
    rw [h, if_pos ⟨hlo, hhi⟩]

/-! ## Macro constants -/

theorem AddMacro_eq_of_accepted (PP : Preprocessor) (II : IdentifierInfo) (MI : MacroInfo)
    (table : Table ℚ) (negate : Bool) (Tok : Token)
    (hdef : II.hasMacroDefinition = true) (hobj : MI.isFunctionLike = false)
    (hbody : AcceptedBody PP MI negate Tok) :
    AddMacro PP II MI table =
      (AddMacro.value (PP.numericLiteral (PP.getSpelling Tok))).elim table
        (fun V => table.setfield II.name (if negate then -V else V)) := by
  obtain ⟨hshape, hnum, herr⟩ := hbody
  rcases hshape with ⟨hn, htok⟩ | ⟨hn, m, hm, htok⟩
  · subst hn
    cases hv : AddMacro.value (PP.numericLiteral (PP.getSpelling Tok)) <;>
      simp [AddMacro, hdef, hobj, htok, hnum, herr, hv]
  · subst hn
    cases hv : AddMacro.value (PP.numericLiteral (PP.getSpelling Tok)) <;>
      simp [AddMacro, hdef, hobj, htok, hnum, herr, hm, hv]

theorem AddMacro_cases (PP : Preprocessor) (II : IdentifierInfo) (MI : MacroInfo)
    (table : Table ℚ) :
    AddMacro PP II MI table = table ∨
      (II.hasMacroDefinition = true ∧ MI.isFunctionLike = false ∧
        ∃ negate Tok V, AcceptedBody PP MI negate Tok ∧
          AddMacro PP II MI table = table.setfield II.name V) := by
  by_cases hdef : II.hasMacroDefinition = true
  swap
  · left; simp [AddMacro, hdef]
  by_cases hobj : MI.isFunctionLike = false
  swap
  · left; simp [AddMacro, hdef, hobj]
  have key : ∀ negate Tok, AcceptedBody PP MI negate Tok →
      AddMacro PP II MI table = table ∨
      (II.hasMacroDefinition = true ∧ MI.isFunctionLike = false ∧
        ∃ negate Tok V, AcceptedBody PP MI negate Tok ∧
          AddMacro PP II MI table = table.setfield II.name V) := by
    intro negate Tok hacc
    have h := AddMacro_eq_of_accepted PP II MI table negate Tok hdef hobj hacc
    cases hv : AddMacro.value (PP.numericLiteral (PP.getSpelling Tok)) with
    | none => left; rw [h, hv]; rfl
    | some V => right; exact ⟨hdef, hobj, negate, Tok, _, hacc, by rw [h, hv]; rfl⟩
  rcases hts : MI.replacementTokens with _ | ⟨t0, _ | ⟨t1, _ | ⟨t2, rest⟩⟩⟩
  · left; simp [AddMacro, hdef, hobj, hts]
  · by_cases hnum : t0.kind = TokenKind.numeric_constant
    swap
    · left; simp [AddMacro, hdef, hobj, hts, hnum]
    by_cases herr : (PP.numericLiteral (PP.getSpelling t0)).hadError = false
    swap
    · left; simp [AddMacro, hdef, hobj, hts, hnum, herr]
    exact key false t0 ⟨Or.inl ⟨rfl, hts⟩, hnum, herr⟩
  · by_cases hm : t0.kind = TokenKind.minus
    swap
    · left; simp [AddMacro, hdef, hobj, hts, hm]
    by_cases hnum : t1.kind = TokenKind.numeric_constant
    swap
    · left; simp [AddMacro, hdef, hobj, hts, hnum, hm]
    by_cases herr : (PP.numericLiteral (PP.getSpelling t1)).hadError = false
    swap
    · left; simp [AddMacro, hdef, hobj, hts, hnum, herr, hm]
    exact key true t1 ⟨Or.inr ⟨rfl, t0, hm, hts⟩, hnum, herr⟩
  · left; simp [AddMacro, hdef, hobj, hts]

/-! ## Results of the translation functions, case by case -/

theorem GetRecordTypeFromDecl.complete_eq_some {ρ : Type} (Context : ASTContext)
    (g : TypeGetter ρ) (rd : Nat) (tt : Obj) (v v' : IncludeCVisitor ρ) :
    GetRecordTypeFromDecl.complete Context g rd tt v = some v' ↔
      (∃ defn, (Context.getRecordDecl rd).definition = some defn ∧
          Obj.undefined v.L tt = true ∧
          ∃ ok entries v2,
            GetFields g defn (tt.setfields (fun s => { s with undefined := false }) v) =
              some (ok, entries, v2) ∧
            v' = GetRecordTypeFromDecl.attach (Context.getRecordDecl rd).isUnion tt ok entries v2) ∨
      (((Context.getRecordDecl rd).definition = none ∨ Obj.undefined v.L tt = false) ∧ v' = v) := by
  unfold GetRecordTypeFromDecl.complete
  cases hdef : (Context.getRecordDecl rd).definition with
  | none =>
    constructor
    · intro h
      right
      exact ⟨Or.inl rfl, (Option.some.inj h).symm⟩
    · rintro (⟨defn, hd, _⟩ | ⟨_, h⟩)
      · cases hd
      · rw [h]
  | some defn =>
    cases hu : Obj.undefined v.L tt with
    | false =>
      constructor
      · intro h
        right
        exact ⟨Or.inr rfl, (Option.some.inj h).symm⟩
      · rintro (⟨_, _, hd, _⟩ | ⟨_, h⟩)
        · cases hd
        · simp [h]
    | true =>
      simp only [if_true]
      constructor
      · intro h
        left
        cases hf : GetFields g defn (tt.setfields (fun s => { s with undefined := false }) v) with
        | none => rw [hf] at h; cases h
        | some r =>
          rw [hf] at h
          obtain ⟨ok, entries, v2⟩ := r
          exact ⟨defn, rfl, by simp, ok, entries, v2, hf, (Option.some.inj h).symm⟩
      · rintro (⟨defn', hd, _, ok, entries, v2, hf, h⟩ | ⟨h, _⟩)
        · cases hd
          rw [hf, h]
          rfl
        · rcases h with h | h <;> cases h

theorem GetRecordTypeFromDecl_eq_some {ρ : Type} (reg : Registry ρ) (Context : ASTContext)
    (g : TypeGetter ρ) (rd : Nat) (v : IncludeCVisitor ρ) (x : Option Obj × IncludeCVisitor ρ) :
    GetRecordTypeFromDecl reg Context g rd v = some x ↔
      (((Context.getRecordDecl rd).isStruct || (Context.getRecordDecl rd).isUnion) = true ∧
        ∃ v', GetRecordTypeFromDecl.complete Context g rd
            (GetRecordTypeFromDecl.lookup reg Context rd v).1
            (GetRecordTypeFromDecl.lookup reg Context rd v).2 = some v' ∧
          x = (some (GetRecordTypeFromDecl.lookup reg Context rd v).1, v')) ∨
      (((Context.getRecordDecl rd).isStruct || (Context.getRecordDecl rd).isUnion) = false ∧
        x = (none, ImportError "non-struct record types are not supported" v)) := by
  unfold GetRecordTypeFromDecl
  cases hk : ((Context.getRecordDecl rd).isStruct || (Context.getRecordDecl rd).isUnion) with
  | false =>
    constructor
    · intro h
      right
      exact ⟨rfl, (Option.some.inj h).symm⟩
    · rintro (⟨h, _⟩ | ⟨_, h⟩)
      · cases h
      · simp [h]
  | true =>
    simp only [if_true]
    constructor
    · intro h
      left
      cases hc : GetRecordTypeFromDecl.complete Context g rd
          (GetRecordTypeFromDecl.lookup reg Context rd v).1
          (GetRecordTypeFromDecl.lookup reg Context rd v).2 with
      | none => rw [hc] at h; cases h
      | some v' =>
        rw [hc] at h
        exact ⟨by simp, v', rfl, (Option.some.inj h).symm⟩
    · rintro (⟨_, v', hc, h⟩ | ⟨h, _⟩)
      · rw [hc, h]
        rfl
      · cases h

theorem GetFuncType_eq_some {ρ : Type} (g : TypeGetter ρ) (f : FunctionType)
    (v : IncludeCVisitor ρ) (x : Option Obj × IncludeCVisitor ρ) :
    GetFuncType g f v = some x ↔
      ∃ returntype v1 valid parameters v2,
        GetFuncType.returntype g f v = some (returntype, v1) ∧
        GetFuncType.loop g f.paramTypes returntype.isSome [] v1 = some (valid, parameters, v2) ∧
        x = (GetFuncType.result f valid parameters returntype, v2) := by
  unfold GetFuncType
  constructor
  · intro h
    cases h1 : GetFuncType.returntype g f v with
    | none => rw [h1] at h; cases h
    | some rt =>
      rw [h1] at h
      obtain ⟨returntype, v1⟩ := rt
      cases h2 : GetFuncType.loop g f.paramTypes returntype.isSome [] v1 with
      | none =>
        simp only [Option.bind_eq_bind, Option.some_bind, h2, Option.none_bind] at h
        cases h
      | some ps =>
        simp only [Option.bind_eq_bind, Option.some_bind, h2] at h
        obtain ⟨valid, parameters, v2⟩ := ps
        exact ⟨returntype, v1, valid, parameters, v2, rfl, h2, (Option.some.inj h).symm⟩
  · rintro ⟨returntype, v1, valid, parameters, v2, h1, h2, h⟩
    rw [h1]
    simp only [Option.bind_eq_bind, Option.some_bind, h2, h]
    rfl

theorem GetType.wrap_eq_some {ρ : Type} (make : Obj → Obj)
    (r : Option (Option Obj × IncludeCVisitor ρ)) (x : Option Obj × IncludeCVisitor ρ) :
    GetType.wrap make r = some x ↔ ∃ t v', r = some (t, v') ∧ x = (t.map make, v') := by
  unfold GetType.wrap
  cases r with
  | none => simp
  | some y =>
    rcases y with ⟨t, v'⟩
    constructor
    · intro h
      exact ⟨t, v', rfl, (Option.some.inj h).symm⟩
    · rintro ⟨t1, v1, h1, h2⟩
      cases h1
      rw [h2]
      rfl

theorem GetFuncType.returntype_eq_some {ρ : Type} (g : TypeGetter ρ) (f : FunctionType)
    (v : IncludeCVisitor ρ) (x : Option Obj × IncludeCVisitor ρ) :
    GetFuncType.returntype g f v = some x ↔
      (f.returnType.isVoidType = true ∧ x = (some (Obj.typefield "unit"), v)) ∨
      (f.returnType.isVoidType = false ∧ g f.returnType v = some x) := by
  unfold GetFuncType.returntype
  cases hv : f.returnType.isVoidType with
  | true => simp [eq_comm]
  | false => simp

/-! ## A larger step budget changes no result -/

theorem GetFields_loop_mono {ρ : Type} {g g' : TypeGetter ρ} (hg : TypeGetter.le g g') :
    ∀ (fields : List FieldDecl) (opaq : Bool) (anonname : Nat) (entries : List Entry)
      (v : IncludeCVisitor ρ) x,
      GetFields.loop g fields opaq anonname entries v = some x →
      GetFields.loop g' fields opaq anonname entries v = some x := by
  intro fields
  induction fields with
  | nil => intro opaq anonname entries v x h; simpa [GetFields.loop] using h
  | cons it rest ih =>
    intro opaq anonname entries v x h
    simp only [GetFields.loop] at h ⊢
    split at h
    · rename_i hc
      rw [if_pos hc]
      exact ih _ _ _ _ _ h
    · rename_i hc
      rw [if_neg hc]
      cases hgt : g it.type v with
      | none => simp [hgt] at h
      | some y =>
        rw [hg _ _ _ hgt]
        rw [hgt] at h
        rcases y with ⟨_ | fobj, v1⟩
        · exact ih _ _ _ _ _ h
        · exact ih _ _ _ _ _ h

theorem GetFuncType_loop_mono {ρ : Type} {g g' : TypeGetter ρ} (hg : TypeGetter.le g g') :
    ∀ (params : List QualType) (valid : Bool) (parameters : List Obj)
      (v : IncludeCVisitor ρ) x,
      GetFuncType.loop g params valid parameters v = some x →
      GetFuncType.loop g' params valid parameters v = some x := by
  intro params
  induction params with
  | nil => intro valid parameters v x h; simpa [GetFuncType.loop] using h
  | cons PT rest ih =>
    intro valid parameters v x h
    simp only [GetFuncType.loop] at h ⊢
    cases hgt : g PT v with
    | none => simp [hgt] at h
    | some y =>
      rw [hg _ _ _ hgt]
      rw [hgt] at h
      rcases y with ⟨_ | pt, v1⟩
      · exact ih _ _ _ _ h
      · exact ih _ _ _ _ h

theorem GetFuncType_mono {ρ : Type} {g g' : TypeGetter ρ} (hg : TypeGetter.le g g')
    (f : FunctionType) (v : IncludeCVisitor ρ) (x : Option Obj × IncludeCVisitor ρ)
    (h : GetFuncType g f v = some x) : GetFuncType g' f v = some x := by
  rw [GetFuncType_eq_some] at h ⊢
  obtain ⟨returntype, v1, valid, parameters, v2, h1, h2, h3⟩ := h
  refine ⟨returntype, v1, valid, parameters, v2, ?_, GetFuncType_loop_mono hg _ _ _ _ _ h2, h3⟩
  rw [GetFuncType.returntype_eq_some] at h1 ⊢
  rcases h1 with h1 | ⟨h1, h1'⟩
  · exact Or.inl h1
  · exact Or.inr ⟨h1, hg _ _ _ h1'⟩

theorem GetRecordTypeFromDecl_mono {ρ : Type} (reg : Registry ρ) (Context : ASTContext)
    {g g' : TypeGetter ρ} (hg : TypeGetter.le g g') (rd : Nat) (v : IncludeCVisitor ρ)
    (x : Option Obj × IncludeCVisitor ρ)
    (h : GetRecordTypeFromDecl reg Context g rd v = some x) :
    GetRecordTypeFromDecl reg Context g' rd v = some x := by
  rw [GetRecordTypeFromDecl_eq_some] at h ⊢
  rcases h with ⟨hk, v', hc, hx⟩ | h
  · refine Or.inl ⟨hk, v', ?_, hx⟩
    rw [GetRecordTypeFromDecl.complete_eq_some] at hc ⊢
    rcases hc with ⟨defn, hd, hu, ok, entries, v2, hf, hv⟩ | hc
    · exact Or.inl ⟨defn, hd, hu, ok, entries, v2, GetFields_loop_mono hg _ _ _ _ _ _ hf, hv⟩
    · exact Or.inr hc
  · exact Or.inr h

theorem GetType.body_mono {ρ : Type} (reg : Registry ρ) (Context : ASTContext)
    {g g' : TypeGetter ρ} (hg : TypeGetter.le g g') :
    TypeGetter.le (GetType.body reg Context g) (GetType.body reg Context g') := by
  intro T v x h
  unfold GetType.body at h ⊢
  cases hs : GetType.switch Context T.getCanonicalType with
  | record rd =>
    rw [hs] at h
    exact GetRecordTypeFromDecl_mono reg Context hg rd v x h
  | initType name => rw [hs] at h; exact h
  | element ETy make =>
    rw [hs] at h
    simp only [GetType.wrap_eq_some] at h ⊢
    obtain ⟨t, v', h1, h2⟩ := h
    exact ⟨t, v', hg _ _ _ h1, h2⟩
  | funcType FT =>
    rw [hs] at h
    exact GetFuncType_mono hg FT v x h
  | notUnderstood => rw [hs] at h; exact h

theorem GetType_mono_succ {ρ : Type} (reg : Registry ρ) (Context : ASTContext) (n : Nat) :
    TypeGetter.le (GetType reg Context n) (GetType reg Context (n + 1)) := by
  induction n with
  | zero => intro T v x h; simp [GetType] at h
  | succ n ih => exact GetType.body_mono reg Context ih

/-- A result of `GetType` is its result on every larger step budget. -/
theorem GetType_mono {ρ : Type} (reg : Registry ρ) (Context : ASTContext) {n m : Nat}
    (hnm : n ≤ m) : TypeGetter.le (GetType reg Context n) (GetType reg Context m) := by
  induction hnm with
  | refl => intro T v x h; exact h
  | step _ ih => intro T v x h; exact GetType_mono_succ reg Context _ T v x (ih T v x h)

/-! ## Relations that every translation keeps -/

theorem GetFields_loop_keeps {ρ : Type} {reg : Registry ρ} {Context : ASTContext}
    {R : IncludeCVisitor ρ → IncludeCVisitor ρ → Prop} (hR : Invariant reg Context R)
    {g : TypeGetter ρ} (hg : g.Keeps R) :
    ∀ (fields : List FieldDecl) (opaq : Bool) (anonname : Nat) (entries : List Entry)
      (v : IncludeCVisitor ρ) ok es v',
      GetFields.loop g fields opaq anonname entries v = some (ok, es, v') → R v v' := by
  intro fields
  induction fields with
  | nil =>
    intro opaq anonname entries v ok es v' h
    simp only [GetFields.loop, Option.some.injEq, Prod.mk.injEq] at h
    rw [← h.2.2]
    exact hR.refl v
  | cons it rest ih =>
    intro opaq anonname entries v ok es v' h
    simp only [GetFields.loop] at h
    split at h
    · exact ih _ _ _ _ _ _ _ h
    · cases hgt : g it.type v with
      | none => simp [hgt] at h
      | some y =>
        rw [hgt] at h
        rcases y with ⟨_ | fobj, v1⟩
        · exact hR.trans (hg _ _ _ _ hgt) (ih _ _ _ _ _ _ _ h)
        · exact hR.trans (hg _ _ _ _ hgt) (ih _ _ _ _ _ _ _ h)

theorem GetFuncType_loop_keeps {ρ : Type} {reg : Registry ρ} {Context : ASTContext}
    {R : IncludeCVisitor ρ → IncludeCVisitor ρ → Prop} (hR : Invariant reg Context R)
    {g : TypeGetter ρ} (hg : g.Keeps R) :
    ∀ (params : List QualType) (valid : Bool) (parameters : List Obj)
      (v : IncludeCVisitor ρ) ok ps v',
      GetFuncType.loop g params valid parameters v = some (ok, ps, v') → R v v' := by
  intro params
  induction params with
  | nil =>
    intro valid parameters v ok ps v' h
    simp only [GetFuncType.loop, Option.some.injEq, Prod.mk.injEq] at h
    rw [← h.2.2]
    exact hR.refl v
  | cons PT rest ih =>
    intro valid parameters v ok ps v' h
    simp only [GetFuncType.loop] at h
    cases hgt : g PT v with
    | none => simp [hgt] at h
    | some y =>
      rw [hgt] at h
      rcases y with ⟨_ | pt, v1⟩
      · exact hR.trans (hg _ _ _ _ hgt) (ih _ _ _ _ _ _ h)
      · exact hR.trans (hg _ _ _ _ hgt) (ih _ _ _ _ _ _ h)

theorem GetFuncType_keeps {ρ : Type} {reg : Registry ρ} {Context : ASTContext}
    {R : IncludeCVisitor ρ → IncludeCVisitor ρ → Prop} (hR : Invariant reg Context R)
    {g : TypeGetter ρ} (hg : g.Keeps R) (f : FunctionType) (v : IncludeCVisitor ρ)
    (r : Option Obj) (v' : IncludeCVisitor ρ) (h : GetFuncType g f v = some (r, v')) :
    R v v' := by
  rw [GetFuncType_eq_some] at h
  obtain ⟨returntype, v1, valid, parameters, v2, h1, h2, h3⟩ := h
  have h12 := GetFuncType_loop_keeps hR hg _ _ _ _ _ _ _ h2
  rw [GetFuncType.returntype_eq_some] at h1
  cases h3
  rcases h1 with ⟨_, h1⟩ | ⟨_, h1⟩
  · cases h1
    exact h12
  · exact hR.trans (hg _ _ _ _ h1) h12

theorem GetRecordTypeFromDecl.attach_keeps {ρ : Type} {reg : Registry ρ} {Context : ASTContext}
    {R : IncludeCVisitor ρ → IncludeCVisitor ρ → Prop} (hR : Invariant reg Context R)
    (isUnion : Bool) (tt : Obj) (ok : Bool) (entries : List Entry) (v0 v : IncludeCVisitor ρ)
    (hu : Obj.undefined v0.L tt = true) (h : R v0 v) :
    R v0 (GetRecordTypeFromDecl.attach isUnion tt ok entries v) := by
  unfold GetRecordTypeFromDecl.attach
  cases ok with
  | false => exact h
  | true =>
    simp only [if_true]
    refine hR.attach _ _ _ _ hu ?_ (fun s => rfl)
    cases isUnion with
    | false => exact hR.attach _ _ _ _ hu h (fun s => rfl)
    | true => exact hR.attach _ _ _ _ hu h (fun s => rfl)

theorem GetRecordTypeFromDecl.complete_keeps {ρ : Type} {reg : Registry ρ}
    {Context : ASTContext} {R : IncludeCVisitor ρ → IncludeCVisitor ρ → Prop}
    (hR : Invariant reg Context R) {g : TypeGetter ρ} (hg : g.Keeps R) (rd : Nat) (tt : Obj)
    (v v' : IncludeCVisitor ρ)
    (h : GetRecordTypeFromDecl.complete Context g rd tt v = some v') : R v v' := by
  rw [GetRecordTypeFromDecl.complete_eq_some] at h
  rcases h with ⟨defn, _, hu, ok, entries, v2, hf, hv⟩ | ⟨_, hv⟩
  · rw [hv]
    apply GetRecordTypeFromDecl.attach_keeps hR _ _ _ _ _ _ hu
    exact hR.trans (hR.clear v tt hu) (GetFields_loop_keeps hR hg _ _ _ _ _ _ _ _ hf)
  · rw [hv]
    exact hR.refl v

theorem GetRecordTypeFromDecl_keeps {ρ : Type} {reg : Registry ρ} {Context : ASTContext}
    {R : IncludeCVisitor ρ → IncludeCVisitor ρ → Prop} (hR : Invariant reg Context R)
    {g : TypeGetter ρ} (hg : g.Keeps R) (rd : Nat) (v : IncludeCVisitor ρ)
    (r : Option Obj) (v' : IncludeCVisitor ρ)
    (h : GetRecordTypeFromDecl reg Context g rd v = some (r, v')) : R v v' := by
  rw [GetRecordTypeFromDecl_eq_some] at h
  rcases h with ⟨_, v1, hc, hx⟩ | ⟨_, hx⟩
  · cases hx
    exact hR.trans (hR.lookup rd v) (GetRecordTypeFromDecl.complete_keeps hR hg _ _ _ _ hc)
  · cases hx
    exact hR.importError _ _

theorem GetType.body_keeps {ρ : Type} {reg : Registry ρ} {Context : ASTContext}
    {R : IncludeCVisitor ρ → IncludeCVisitor ρ → Prop} (hR : Invariant reg Context R)
    {g : TypeGetter ρ} (hg : g.Keeps R) : TypeGetter.Keeps (GetType.body reg Context g) R := by
  intro T v r v' h
  unfold GetType.body at h
  cases hs : GetType.switch Context T.getCanonicalType with
  | record rd =>
    rw [hs] at h
    exact GetRecordTypeFromDecl_keeps hR hg rd v r v' h
  | initType name =>
    rw [hs] at h
    cases h
    exact hR.refl v
  | element ETy make =>
    rw [hs] at h
    simp only [GetType.wrap_eq_some] at h
    obtain ⟨t, v1, h1, h2⟩ := h
    cases h2
    exact hg _ _ _ _ h1
  | funcType FT =>
    rw [hs] at h
    exact GetFuncType_keeps hR hg FT v r v' h
  | notUnderstood =>
    rw [hs] at h
    simp only [GetType.notUnderstood, Option.some.injEq, Prod.mk.injEq] at h
    rw [← h.2]
    exact hR.importError _ _

/-- A relation that every step keeps holds between the state before and the
state after `GetType`. -/
theorem GetType_keeps {ρ : Type} {reg : Registry ρ} {Context : ASTContext}
    {R : IncludeCVisitor ρ → IncludeCVisitor ρ → Prop} (hR : Invariant reg Context R)
    (n : Nat) : TypeGetter.Keeps (GetType reg Context n) R := by
  induction n with
  | zero => intro T v r v' h; simp [GetType] at h
  | succ n ih => exact GetType.body_keeps hR ih

/-! ## What a translation leaves alone -/

theorem Frame_refl {ρ : Type} (v : IncludeCVisitor ρ) : Frame v v :=
  ⟨Eq.refl _, Eq.refl _, Eq.refl _, ⟨[], by simp⟩, fun _ _ _ h => h, fun _ _ h => Or.inl h⟩

theorem Frame_trans {ρ : Type} {a b c : IncludeCVisitor ρ} (h1 : Frame a b) (h2 : Frame b c) :
    Frame a c := by
  refine ⟨h2.outputstmts.trans h1.outputstmts, h2.error_table.trans h1.error_table,
    h2.livenessfunction.trans h1.livenessfunction, ?_, ?_, ?_⟩
  · obtain ⟨l1, e1⟩ := h1.outputtypes
    obtain ⟨l2, e2⟩ := h2.outputtypes
    exact ⟨l1 ++ l2, by rw [e2, e1, List.append_assoc]⟩
  · intro b' name o h
    exact h2.kept _ _ _ (h1.kept _ _ _ h)
  · intro b' name h
    rcases h1.gained _ _ h with h' | ⟨hd, h'⟩
    · exact h2.gained _ _ h'
    · exact Or.inr ⟨hd, h2.kept _ _ _ h'⟩

/-- A change of the Lua state and of the import error message alone is
within the frame. -/
theorem Frame_of_eq {ρ : Type} {v v' : IncludeCVisitor ρ}
    (h1 : v'.outputstmts = v.outputstmts) (h2 : v'.error_table = v.error_table)
    (h3 : v'.livenessfunction = v.livenessfunction) (h4 : v'.outputtypes = v.outputtypes)
    (h5 : v'.general = v.general) (h6 : v'.tagged = v.tagged) : Frame v v' := by
  refine ⟨h1, h2, h3, ⟨[], by simp [h4]⟩, ?_, ?_⟩
  · intro b name o h
    cases b <;> simpa [IncludeCVisitor.thenamespace, h5, h6] using h
  · intro b name h
    left
    cases b <;> simpa [IncludeCVisitor.thenamespace, h5, h6] using h

theorem Obj.setfields_frame {ρ : Type} (tt : Obj) (f : CStruct → CStruct)
    (v : IncludeCVisitor ρ) : Frame v (tt.setfields f v) := by
  cases tt <;> exact Frame_of_eq rfl rfl rfl rfl rfl rfl

theorem thenamespace_setnamespace {ρ : Type} (v : IncludeCVisitor ρ) (b b' : Bool)
    (name name' : String) (o : Obj) :
    (v.setnamespace b name o).thenamespace b' name' =
      if b' = b ∧ name' = name then some o else v.thenamespace b' name' := by
  cases b <;> cases b' <;>
    simp [IncludeCVisitor.setnamespace, IncludeCVisitor.thenamespace, Table.setfield]

theorem setnamespace_frame {ρ : Type} (v : IncludeCVisitor ρ) (b : Bool) (name : String)
    (h : Nat) (hnone : v.thenamespace b name = none) :
    Frame v (v.setnamespace b name (Obj.cstruct h)) := by
  refine ⟨?_, ?_, ?_, ⟨[], ?_⟩, ?_, ?_⟩
  · cases b <;> simp [IncludeCVisitor.setnamespace]
  · cases b <;> simp [IncludeCVisitor.setnamespace]
  · cases b <;> simp [IncludeCVisitor.setnamespace]
  · cases b <;> simp [IncludeCVisitor.setnamespace]
  · intro b' name' o ho
    rw [thenamespace_setnamespace]
    split
    · rename_i hc
      rw [hc.1, hc.2, hnone] at ho
      cases ho
    · exact ho
  · intro b' name' ho
    rw [thenamespace_setnamespace]
    split
    · exact Or.inr ⟨h, rfl⟩
    · exact Or.inl ho

theorem GetRecordTypeFromDecl.register_frame {ρ : Type} (rd h : Nat) (v : IncludeCVisitor ρ) :
    Frame v (GetRecordTypeFromDecl.register rd h v) := by
  unfold GetRecordTypeFromDecl.register
  split
  · exact Frame_refl v
  · refine ⟨rfl, rfl, rfl, ⟨[QualType.Pointer (QualType.Record rd)], rfl⟩, ?_, ?_⟩
    · intro b name o ho
      cases b <;> exact ho
    · intro b name ho
      left
      cases b <;> exact ho

theorem GetRecordTypeFromDecl.create_frame {ρ : Type} (reg : Registry ρ) (rd : Nat)
    (b : Bool) (name : String) (v : IncludeCVisitor ρ) (hnone : v.thenamespace b name = none) :
    Frame v (GetRecordTypeFromDecl.create reg rd b name v).2 := by
  unfold GetRecordTypeFromDecl.create
  have h1 : Frame v { v with L := (reg v.L name b).2 } := Frame_of_eq rfl rfl rfl rfl rfl rfl
  have h2 := Frame_trans h1 (GetRecordTypeFromDecl.register_frame rd (reg v.L name b).1 _)
  simp only
  split
  · refine Frame_trans h2 (setnamespace_frame _ _ _ _ ?_)
    rcases h2.gained b name hnone with h | ⟨h', h⟩
    · exact h
    · exfalso
      revert h
      unfold GetRecordTypeFromDecl.register
      split
      · cases b <;> simp [IncludeCVisitor.thenamespace] at hnone ⊢ <;> simp [hnone]
      · cases b <;> simp [IncludeCVisitor.thenamespace, RegisterRecordType] at hnone ⊢ <;>
          simp [hnone]
  · exact h2

theorem GetRecordTypeFromDecl.lookup_frame {ρ : Type} (reg : Registry ρ) (Context : ASTContext)
    (rd : Nat) (v : IncludeCVisitor ρ) :
    Frame v (GetRecordTypeFromDecl.lookup reg Context rd v).2 := by
  unfold GetRecordTypeFromDecl.lookup
  simp only
  split
  · exact Frame_refl v
  · rename_i hnone
    exact GetRecordTypeFromDecl.create_frame reg rd _ _ v hnone

theorem Frame_invariant {ρ : Type} (reg : Registry ρ) (Context : ASTContext) :
    Invariant reg Context (Frame (ρ := ρ)) where
  refl := Frame_refl
  trans := Frame_trans
  importError := fun _ _ => Frame_of_eq rfl rfl rfl rfl rfl rfl
  lookup := GetRecordTypeFromDecl.lookup_frame reg Context
  clear := fun v tt _ => Obj.setfields_frame tt _ v
  attach := fun _ tt v f _ h _ => Frame_trans h (Obj.setfields_frame tt f v)

theorem Settles_refl {ρ : Type} (v : IncludeCVisitor ρ) : Settles v v :=
  fun _ h => ⟨h, Eq.refl _, Eq.refl _⟩

theorem Settles_trans {ρ : Type} {a b c : IncludeCVisitor ρ} (h1 : Settles a b)
    (h2 : Settles b c) : Settles a c := by
  intro h hu
  obtain ⟨hb, he, hc⟩ := h1 h hu
  obtain ⟨hb', he', hc'⟩ := h2 h hb
  exact ⟨hb', he'.trans he, hc'.trans hc⟩

theorem Settles_of_eq {ρ : Type} {v v' : IncludeCVisitor ρ} (h : v'.L = v.L) : Settles v v' := by
  intro h' hu
  rw [h]
  exact ⟨hu, rfl, rfl⟩

theorem structs_modify {ρ : Type} (L : LuaState ρ) (h h' : Nat) (f : CStruct → CStruct) :
    (L.modify h f).structs h' = if h' = h then f (L.structs h) else L.structs h' := by
  by_cases hh : h' = h
  · subst hh
    simp [LuaState.modify, LuaState.structs, List.lookup]
  · have hb : (h' == h) = false := by simpa using hh
    simp only [LuaState.modify, LuaState.structs, List.lookup, hb, if_neg hh]

/-- A write to a handle that leaves its flag, entries and count alone. -/
theorem Settles_modify {ρ : Type} (v : IncludeCVisitor ρ) (h : Nat) (f : CStruct → CStruct)
    (hf : ∀ s, (f s).undefined = s.undefined ∧ (f s).entries = s.entries ∧
      (f s).complete = s.complete) :
    Settles v { v with L := v.L.modify h f } := by
  intro h' hu
  simp only [structs_modify]
  split
  · rename_i heq
    subst heq
    obtain ⟨h1, h2, h3⟩ := hf (v.L.structs h')
    exact ⟨h1.trans hu, h2, h3⟩
  · exact ⟨hu, rfl, rfl⟩

/-- A write to a handle that is flagged `undefined` and does not set the flag
on another. -/
theorem Settles_setfields_undefined {ρ : Type} (v0 v : IncludeCVisitor ρ) (tt : Obj)
    (f : CStruct → CStruct) (hu : Obj.undefined v0.L tt = true) (h : Settles v0 v) :
    Settles v0 (tt.setfields f v) := by
  cases tt with
  | cstruct h0 =>
    intro h' hu'
    have hne : h' ≠ h0 := by
      intro heq
      subst heq
      simp only [Obj.undefined] at hu
      rw [hu] at hu'
      cases hu'
    simp only [Obj.setfields, structs_modify, if_neg hne]
    exact h h' hu'
  | _ => simp [Obj.undefined] at hu

theorem GetRecordTypeFromDecl.register_settles {ρ : Type} (rd h : Nat) (v : IncludeCVisitor ρ) :
    Settles v (GetRecordTypeFromDecl.register rd h v) := by
  unfold GetRecordTypeFromDecl.register
  split
  · exact Settles_refl v
  · exact Settles_modify { v with outputtypes := _ } h _ (fun s => ⟨rfl, rfl, rfl⟩)

theorem setnamespace_L {ρ : Type} (v : IncludeCVisitor ρ) (b : Bool) (name : String) (o : Obj) :
    (v.setnamespace b name o).L = v.L := by
  cases b <;> rfl

theorem GetRecordTypeFromDecl.lookup_settles {ρ : Type} {reg : Registry ρ}
    (hreg : reg.KeepsDefined) (Context : ASTContext) (rd : Nat) (v : IncludeCVisitor ρ) :
    Settles v (GetRecordTypeFromDecl.lookup reg Context rd v).2 := by
  unfold GetRecordTypeFromDecl.lookup
  simp only
  split
  · exact Settles_refl v
  · unfold GetRecordTypeFromDecl.create
    simp only
    have h1 : Settles v { v with L := (reg v.L (recordNamespace (Context.getRecordDecl rd)).2
        (recordNamespace (Context.getRecordDecl rd)).1).2 } := by
      intro h hu
      simp only
      rw [hreg _ _ _ h hu]
      exact ⟨hu, rfl, rfl⟩
    have h2 := Settles_trans h1 (GetRecordTypeFromDecl.register_settles rd
      (reg v.L (recordNamespace (Context.getRecordDecl rd)).2
        (recordNamespace (Context.getRecordDecl rd)).1).1 _)
    split
    · exact Settles_trans h2 (Settles_of_eq (setnamespace_L _ _ _ _))
    · exact h2

theorem Settles_invariant {ρ : Type} {reg : Registry ρ} (hreg : reg.KeepsDefined)
    (Context : ASTContext) : Invariant reg Context (Settles (ρ := ρ)) where
  refl := Settles_refl
  trans := Settles_trans
  importError := fun _ _ => Settles_of_eq (Eq.refl _)
  lookup := GetRecordTypeFromDecl.lookup_settles hreg Context
  clear := fun v tt hu => Settles_setfields_undefined v v tt _ hu (Settles_refl v)
  attach := fun v0 tt v f hu h _ => Settles_setfields_undefined v0 v tt f hu h

/-- The frame and the settled handles together. -/
theorem GetType_extends {ρ : Type} {reg : Registry ρ} (hreg : reg.KeepsDefined)
    (Context : ASTContext) (n : Nat) (T : QualType) (v : IncludeCVisitor ρ) (r : Option Obj)
    (v' : IncludeCVisitor ρ) (h : GetType reg Context n T v = some (r, v')) :
    Frame v v' ∧ Settles v v' :=
  ⟨GetType_keeps (Frame_invariant reg Context) n T v r v' h,
    GetType_keeps (Settles_invariant hreg Context) n T v r v' h⟩

/-! ## Success depends on the type alone -/

/-- The types that translate, by the case of the `switch`. -/
theorem Translates_iff (Context : ASTContext) (T : QualType) :
    Translates Context T ↔
      match GetType.switch Context T.getCanonicalType with
      | .record rd =>
        ((Context.getRecordDecl rd).isStruct || (Context.getRecordDecl rd).isUnion) = true
      | .initType _ => True
      | .element ETy _ => Translates Context ETy
      | .funcType FT => TranslatesFunc Context FT
      | .notUnderstood => False := by
  constructor
  · intro h
    cases h with
    | record hs hk => rw [hs]; exact hk
    | initType hs => rw [hs]; trivial
    | element hs he => rw [hs]; exact he
    | funcTypeVoid hs hv hp => rw [hs]; exact ⟨Or.inl hv, hp⟩
    | funcType hs hr hp => rw [hs]; exact ⟨Or.inr hr, hp⟩
  · intro h
    cases hs : GetType.switch Context T.getCanonicalType with
    | record rd => rw [hs] at h; exact Translates.record hs h
    | initType name => exact Translates.initType hs
    | element ETy make => rw [hs] at h; exact Translates.element hs h
    | funcType FT =>
      rw [hs] at h
      rcases h with ⟨hv | hr, hp⟩
      · exact Translates.funcTypeVoid hs hv hp
      · exact Translates.funcType hs hr hp
    | notUnderstood => rw [hs] at h; exact h.elim

theorem GetFuncType_loop_decides {ρ : Type} {Context : ASTContext} {g : TypeGetter ρ}
    (hg : g.Decides Context) :
    ∀ (params : List QualType) (valid : Bool) (parameters : List Obj)
      (v : IncludeCVisitor ρ) ok ps v',
      GetFuncType.loop g params valid parameters v = some (ok, ps, v') →
      (ok = true ↔ valid = true ∧ ∀ PT ∈ params, Translates Context PT) := by
  intro params
  induction params with
  | nil =>
    intro valid parameters v ok ps v' h
    simp only [GetFuncType.loop, Option.some.injEq, Prod.mk.injEq] at h
    simp [h.1]
  | cons PT rest ih =>
    intro valid parameters v ok ps v' h
    simp only [GetFuncType.loop] at h
    cases hgt : g PT v with
    | none => simp [hgt] at h
    | some y =>
      rw [hgt] at h
      rcases y with ⟨_ | pt, v1⟩
      · have hn := hg _ _ _ _ hgt
        have := ih _ _ _ _ _ _ h
        simp only [Option.isSome_none, Bool.false_eq_true, false_iff] at hn
        simp [this, hn]
      · have hn := hg _ _ _ _ hgt
        have := ih _ _ _ _ _ _ h
        simp only [Option.isSome_some, true_iff] at hn
        simp [this, hn]

theorem GetFuncType_decides {ρ : Type} {Context : ASTContext} {g : TypeGetter ρ}
    (hg : g.Decides Context) (f : FunctionType) (v : IncludeCVisitor ρ) (r : Option Obj)
    (v' : IncludeCVisitor ρ) (h : GetFuncType g f v = some (r, v')) :
    r.isSome = true ↔ TranslatesFunc Context f := by
  rw [GetFuncType_eq_some] at h
  obtain ⟨returntype, v1, valid, parameters, v2, h1, h2, h3⟩ := h
  have hl := GetFuncType_loop_decides hg _ _ _ _ _ _ _ h2
  have hr : returntype.isSome = true ↔
      (f.returnType.isVoidType = true ∨ Translates Context f.returnType) := by
    rw [GetFuncType.returntype_eq_some] at h1
    rcases h1 with ⟨hv, h1⟩ | ⟨hv, h1⟩
    · cases h1
      simp [hv]
    · rw [hg _ _ _ _ h1]
      simp [hv]
  have hres : r = GetFuncType.result f valid parameters returntype := (Prod.mk.inj h3).1
  have : r.isSome = true ↔ valid = true ∧ returntype.isSome = true := by
    rw [hres]
    unfold GetFuncType.result
    cases valid <;> cases returntype <;> simp
  rw [this, hl, hr]
  unfold TranslatesFunc
  constructor
  · rintro ⟨⟨h1, h2⟩, _⟩
    exact ⟨h1, h2⟩
  · rintro ⟨h1, h2⟩
    exact ⟨⟨h1, h2⟩, h1⟩

theorem GetType.body_decides {ρ : Type} (reg : Registry ρ) {Context : ASTContext}
    {g : TypeGetter ρ} (hg : g.Decides Context) :
    TypeGetter.Decides (GetType.body reg Context g) Context := by
  intro T v r v' h
  rw [Translates_iff]
  unfold GetType.body at h
  cases hs : GetType.switch Context T.getCanonicalType with
  | record rd =>
    rw [hs] at h
    simp only
    rw [GetRecordTypeFromDecl_eq_some] at h
    rcases h with ⟨hk, v1, _, hx⟩ | ⟨hk, hx⟩
    · cases hx
      simp [hk]
    · cases hx
      simp [hk]
  | initType name =>
    rw [hs] at h
    cases h
    simp
  | element ETy make =>
    rw [hs] at h
    simp only [GetType.wrap_eq_some] at h
    obtain ⟨t, v1, h1, h2⟩ := h
    cases h2
    simp only [Option.isSome_map']
    exact hg _ _ _ _ h1
  | funcType FT =>
    rw [hs] at h
    exact GetFuncType_decides hg FT v r v' h
  | notUnderstood =>
    rw [hs] at h
    simp only [GetType.notUnderstood, Option.some.injEq, Prod.mk.injEq] at h
    simp [← h.1]

/-- Whatever the state, `GetType` returns `true` exactly on the types that
translate. -/
theorem GetType_decides {ρ : Type} (reg : Registry ρ) (Context : ASTContext) (n : Nat) :
    TypeGetter.Decides (GetType reg Context n) Context := by
  induction n with
  | zero => intro T v r v' h; simp [GetType] at h
  | succ n ih => exact GetType.body_decides reg ih

theorem GetFields_loop_decides {ρ : Type} {Context : ASTContext} {g : TypeGetter ρ}
    (hg : g.Decides Context) :
    ∀ (fields : List FieldDecl) (opaq : Bool) (anonname : Nat) (entries : List Entry)
      (v : IncludeCVisitor ρ) ok es v',
      GetFields.loop g fields opaq anonname entries v = some (ok, es, v') →
      (ok = true ↔ opaq = false ∧ ∀ it ∈ fields, ¬ it.Unsupported Context) := by
  intro fields
  induction fields with
  | nil =>
    intro opaq anonname entries v ok es v' h
    simp only [GetFields.loop, Option.some.injEq, Prod.mk.injEq] at h
    simp [← h.1]
  | cons it rest ih =>
    intro opaq anonname entries v ok es v' h
    simp only [GetFields.loop] at h
    split at h
    · rename_i hsk
      have := ih _ _ _ _ _ _ _ h
      simp [this, FieldDecl.Unsupported, hsk]
    · rename_i hsk
      cases hgt : g it.type v with
      | none => simp [hgt] at h
      | some y =>
        rw [hgt] at h
        rcases y with ⟨_ | fobj, v1⟩
        · have hn := hg _ _ _ _ hgt
          have := ih _ _ _ _ _ _ _ h
          simp only [Option.isSome_none, Bool.false_eq_true, false_iff] at hn
          simp [this, FieldDecl.Unsupported, hn]
        · have hn := hg _ _ _ _ hgt
          have := ih _ _ _ _ _ _ _ h
          simp only [Option.isSome_some, true_iff] at hn
          simp [this, FieldDecl.Unsupported, hn, hsk]

/-! ## Termination -/

theorem sizeOf_getCanonicalType (T : QualType) : sizeOf T.getCanonicalType ≤ sizeOf T := by
  cases T with
  | Typedef name u =>
    have := sizeOf_getCanonicalType u
    rw [QualType.getCanonicalType]
    simp only [QualType.Typedef.sizeOf_spec]
    omega
  | _ => simp [QualType.getCanonicalType]
termination_by sizeOf T
decreasing_by simp_wf

theorem sizeOf_switch_element {Context : ASTContext} {T ETy : QualType} {make : Obj → Obj}
    (h : GetType.switch Context T = GetType.Action.element ETy make) :
    sizeOf ETy < sizeOf T := by
  unfold GetType.switch at h
  split at h <;> simp at h
  all_goals (obtain ⟨h1, _⟩ := h; subst h1; simp; try omega)

theorem sizeOf_switch_funcType {Context : ASTContext} {T : QualType} {FT : FunctionType}
    (h : GetType.switch Context T = GetType.Action.funcType FT) :
    sizeOf FT.returnType < sizeOf T ∧ ∀ PT ∈ FT.paramTypes, sizeOf PT < sizeOf T := by
  unfold GetType.switch at h
  split at h <;> simp at h
  subst h
  constructor
  · simp
    omega
  · intro PT hPT
    simp only [FunctionType.paramTypes] at hPT
    have := List.sizeOf_lt_of_mem hPT
    simp
    omega

theorem Obj.undefined_eq_true {ρ : Type} {L : LuaState ρ} {tt : Obj}
    (h : Obj.undefined L tt = true) : ∃ h0, tt = Obj.cstruct h0 ∧ (L.structs h0).undefined = true := by
  cases tt with
  | cstruct h0 => exact ⟨h0, rfl, h⟩
  | _ => simp [Obj.undefined] at h

theorem settled_mono {ρ : Type} {v v' : IncludeCVisitor ρ} (hF : Frame v v') (hS : Settles v v')
    (k : Bool × String) (h : v.settled k = true) : v'.settled k = true := by
  unfold IncludeCVisitor.settled at h ⊢
  cases ho : v.thenamespace k.1 k.2 with
  | none => simp [ho] at h
  | some o =>
    rw [ho] at h
    rw [hF.kept _ _ _ ho]
    cases o with
    | cstruct h0 =>
      simp only [Obj.undefined, Bool.not_eq_true'] at h ⊢
      exact (hS h0 h).1
    | _ => simp [Obj.undefined]

theorem countP_le_of_imp {α : Type} (p q : α → Bool) (l : List α)
    (h : ∀ x ∈ l, p x = true → q x = true) : l.countP p ≤ l.countP q := by
  induction l with
  | nil => simp
  | cons a l ih =>
    have ih' := ih (fun x hx => h x (List.mem_cons_of_mem _ hx))
    have ha := h a (List.mem_cons_self _ _)
    simp only [List.countP_cons]
    cases hp : p a with
    | false => simp; omega
    | true => simp [ha hp]; omega

theorem countP_lt_of_imp {α : Type} (p q : α → Bool) (l : List α)
    (h : ∀ x ∈ l, p x = true → q x = true) (a : α) (ha : a ∈ l) (hq : q a = true)
    (hp : p a = false) : l.countP p < l.countP q := by
  induction l with
  | nil => cases ha
  | cons b l ih =>
    have himp := fun x hx => h x (List.mem_cons_of_mem _ hx)
    simp only [List.countP_cons]
    rcases List.mem_cons.mp ha with hab | hal
    · subst hab
      have := countP_le_of_imp p q l himp
      simp [hq, hp]
      omega
    · have := ih himp hal
      have hb := h b (List.mem_cons_self _ _)
      cases hpb : p b with
      | false => simp; omega
      | true => simp [hb hpb]; omega

theorem unsettled_le {ρ : Type} {v v' : IncludeCVisitor ρ} (hF : Frame v v')
    (hS : Settles v v') (keys : List (Bool × String)) : v'.unsettled keys ≤ v.unsettled keys := by
  apply countP_le_of_imp
  intro k _ hk
  simp only [Bool.not_eq_true'] at hk ⊢
  cases h : v.settled k with
  | false => rfl
  | true => rw [settled_mono hF hS k h] at hk; cases hk

theorem unsettled_lt {ρ : Type} {v v' : IncludeCVisitor ρ} (hF : Frame v v')
    (hS : Settles v v') (keys : List (Bool × String)) (k : Bool × String) (hk : k ∈ keys)
    (h1 : v.settled k = false) (h2 : v'.settled k = true) :
    v'.unsettled keys < v.unsettled keys := by
  apply countP_lt_of_imp _ _ keys _ k hk
  · simp [h1]
  · simp [h2]
  · intro k' _ hk'
    simp only [Bool.not_eq_true'] at hk' ⊢
    cases h : v.settled k' with
    | false => rfl
    | true => rw [settled_mono hF hS k' h] at hk'; cases hk'

/-- If the type of every field is translated within some budget from every
state of a set that translations do not leave, so are the fields. -/
theorem GetFields_loop_terminates {ρ : Type} (reg : Registry ρ) (Context : ASTContext)
    (G : IncludeCVisitor ρ → Prop)
    (hG : ∀ n T v r v', G v → GetType reg Context n T v = some (r, v') → G v') :
    ∀ (fields : List FieldDecl),
      (∀ it ∈ fields, it.skipped = false → ∀ v, G v →
        ∃ n r v', GetType reg Context n it.type v = some (r, v')) →
      ∀ (opaq : Bool) (anonname : Nat) (entries : List Entry) (v : IncludeCVisitor ρ), G v →
        ∃ n x, GetFields.loop (GetType reg Context n) fields opaq anonname entries v = some x := by
  intro fields
  induction fields with
  | nil => intro _ opaq anonname entries v _; exact ⟨0, _, rfl⟩
  | cons it rest ih =>
    intro hT opaq anonname entries v hv
    have ih' := ih (fun it' h' => hT it' (List.mem_cons_of_mem _ h'))
    cases hsk : it.skipped with
    | true =>
      obtain ⟨n, x, hx⟩ := ih' true anonname entries v hv
      exact ⟨n, x, by simp only [GetFields.loop, hsk, if_true]; exact hx⟩
    | false =>
      obtain ⟨n1, r, v1, h1⟩ := hT it (List.mem_cons_self _ _) hsk v hv
      have hv1 := hG _ _ _ _ _ hv h1
      cases r with
      | none =>
        obtain ⟨n2, x, hx⟩ := ih' true (if it.isAnonymousStructOrUnion then anonname + 1
          else anonname) entries v1 hv1
        refine ⟨max n1 n2, x, ?_⟩
        simp only [GetFields.loop, hsk, Bool.false_eq_true, if_false,
          GetType_mono reg Context (le_max_left n1 n2) _ _ _ h1]
        exact GetFields_loop_mono (GetType_mono reg Context (le_max_right n1 n2)) _ _ _ _ _ _ hx
      | some fobj =>
        obtain ⟨n2, x, hx⟩ := ih' opaq (if it.isAnonymousStructOrUnion then anonname + 1
          else anonname) (entries ++ [⟨fobj, if it.isAnonymousStructOrUnion then
            "_" ++ toString anonname else it.name⟩]) v1 hv1
        refine ⟨max n1 n2, x, ?_⟩
        simp only [GetFields.loop, hsk, Bool.false_eq_true, if_false,
          GetType_mono reg Context (le_max_left n1 n2) _ _ _ h1]
        exact GetFields_loop_mono (GetType_mono reg Context (le_max_right n1 n2)) _ _ _ _ _ _ hx

theorem GetFuncType_loop_terminates {ρ : Type} (reg : Registry ρ) (Context : ASTContext)
    (G : IncludeCVisitor ρ → Prop)
    (hG : ∀ n T v r v', G v → GetType reg Context n T v = some (r, v') → G v') :
    ∀ (params : List QualType),
      (∀ PT ∈ params, ∀ v, G v → ∃ n r v', GetType reg Context n PT v = some (r, v')) →
      ∀ (valid : Bool) (parameters : List Obj) (v : IncludeCVisitor ρ), G v →
        ∃ n x, GetFuncType.loop (GetType reg Context n) params valid parameters v = some x := by
  intro params
  induction params with
  | nil => intro _ valid parameters v _; exact ⟨0, _, rfl⟩
  | cons PT rest ih =>
    intro hT valid parameters v hv
    have ih' := ih (fun PT' h' => hT PT' (List.mem_cons_of_mem _ h'))
    obtain ⟨n1, r, v1, h1⟩ := hT PT (List.mem_cons_self _ _) v hv
    have hv1 := hG _ _ _ _ _ hv h1
    cases r with
    | none =>
      obtain ⟨n2, x, hx⟩ := ih' false parameters v1 hv1
      refine ⟨max n1 n2, x, ?_⟩
      simp only [GetFuncType.loop, GetType_mono reg Context (le_max_left n1 n2) _ _ _ h1]
      exact GetFuncType_loop_mono (GetType_mono reg Context (le_max_right n1 n2)) _ _ _ _ _ hx
    | some pt =>
      obtain ⟨n2, x, hx⟩ := ih' valid (if valid then parameters ++ [pt] else parameters) v1 hv1
      refine ⟨max n1 n2, x, ?_⟩
      simp only [GetFuncType.loop, GetType_mono reg Context (le_max_left n1 n2) _ _ _ h1]
      exact GetFuncType_loop_mono (GetType_mono reg Context (le_max_right n1 n2)) _ _ _ _ _ hx

theorem GetFuncType_terminates {ρ : Type} (reg : Registry ρ) (Context : ASTContext)
    (G : IncludeCVisitor ρ → Prop)
    (hG : ∀ n T v r v', G v → GetType reg Context n T v = some (r, v') → G v')
    (FT : FunctionType)
    (hret : ∀ v, G v → ∃ n r v', GetType reg Context n FT.returnType v = some (r, v'))
    (hparams : ∀ PT ∈ FT.paramTypes, ∀ v, G v →
      ∃ n r v', GetType reg Context n PT v = some (r, v'))
    (v : IncludeCVisitor ρ) (hv : G v) :
    ∃ n x, GetFuncType (GetType reg Context n) FT v = some x := by
  cases hvoid : FT.returnType.isVoidType with
  | true =>
    obtain ⟨n, x, hx⟩ := GetFuncType_loop_terminates reg Context G hG FT.paramTypes hparams
      (some (Obj.typefield "unit")).isSome [] v hv
    obtain ⟨valid, parameters, v2⟩ := x
    refine ⟨n, _, (GetFuncType_eq_some _ _ _ _).mpr
      ⟨some (Obj.typefield "unit"), v, valid, parameters, v2, ?_, hx, rfl⟩⟩
    exact (GetFuncType.returntype_eq_some _ _ _ _).mpr (Or.inl ⟨hvoid, rfl⟩)
  | false =>
    obtain ⟨n1, r, v1, h1⟩ := hret v hv
    have hv1 := hG _ _ _ _ _ hv h1
    obtain ⟨n2, x, hx⟩ := GetFuncType_loop_terminates reg Context G hG FT.paramTypes hparams
      r.isSome [] v1 hv1
    obtain ⟨valid, parameters, v2⟩ := x
    refine ⟨max n1 n2, _, (GetFuncType_eq_some _ _ _ _).mpr
      ⟨r, v1, valid, parameters, v2, ?_, ?_, rfl⟩⟩
    · exact (GetFuncType.returntype_eq_some _ _ _ _).mpr
        (Or.inr ⟨hvoid, GetType_mono reg Context (le_max_left n1 n2) _ _ _ h1⟩)
    · exact GetFuncType_loop_mono (GetType_mono reg Context (le_max_right n1 n2)) _ _ _ _ _ hx

/-- The lookup leaves a record that has a name under that name. -/
theorem GetRecordTypeFromDecl.lookup_registered {ρ : Type} (reg : Registry ρ)
    (Context : ASTContext) (rd : Nat) (v : IncludeCVisitor ρ)
    (hname : (recordNamespace (Context.getRecordDecl rd)).2 ≠ "") :
    (GetRecordTypeFromDecl.lookup reg Context rd v).2.thenamespace
        (recordNamespace (Context.getRecordDecl rd)).1
        (recordNamespace (Context.getRecordDecl rd)).2 =
      some (GetRecordTypeFromDecl.lookup reg Context rd v).1 := by
  unfold GetRecordTypeFromDecl.lookup
  simp only
  split
  · rename_i tt htt
    exact htt
  · unfold GetRecordTypeFromDecl.create
    simp only [if_pos hname, thenamespace_setnamespace, and_self, if_true]

/-- A value found settled in its namespace is what the lookup returns, and
the lookup changes nothing. -/
theorem GetRecordTypeFromDecl.lookup_of_some {ρ : Type} (reg : Registry ρ)
    (Context : ASTContext) (rd : Nat) (v : IncludeCVisitor ρ) (o : Obj)
    (h : v.thenamespace (recordNamespace (Context.getRecordDecl rd)).1
      (recordNamespace (Context.getRecordDecl rd)).2 = some o) :
    GetRecordTypeFromDecl.lookup reg Context rd v = (o, v) := by
  unfold GetRecordTypeFromDecl.lookup
  simp only [h]

theorem Obj.undefined_setfields_clear {ρ : Type} (tt : Obj) (v : IncludeCVisitor ρ) :
    Obj.undefined (tt.setfields (fun s => { s with undefined := false }) v).L tt = false := by
  cases tt <;> simp [Obj.undefined, Obj.setfields, structs_modify]

theorem GetType_one_of_record_done {ρ : Type} (reg : Registry ρ) (Context : ASTContext)
    (T : QualType) (rd : Nat) (v : IncludeCVisitor ρ)
    (hsw : GetType.switch Context T.getCanonicalType = GetType.Action.record rd)
    (h : ((Context.getRecordDecl rd).isStruct || (Context.getRecordDecl rd).isUnion) = false ∨
      (Context.getRecordDecl rd).definition = none ∨
      Obj.undefined (GetRecordTypeFromDecl.lookup reg Context rd v).2.L
        (GetRecordTypeFromDecl.lookup reg Context rd v).1 = false) :
    ∃ n r v', GetType reg Context n T v = some (r, v') := by
  cases hk : ((Context.getRecordDecl rd).isStruct || (Context.getRecordDecl rd).isUnion) with
  | false =>
    refine ⟨1, none, ImportError "non-struct record types are not supported" v, ?_⟩
    simp only [GetType, GetType.body, hsw]
    exact (GetRecordTypeFromDecl_eq_some _ _ _ _ _ _).mpr (Or.inr ⟨hk, rfl⟩)
  | true =>
    rw [hk] at h
    simp only [Bool.true_eq_false, false_or] at h
    refine ⟨1, some (GetRecordTypeFromDecl.lookup reg Context rd v).1,
      (GetRecordTypeFromDecl.lookup reg Context rd v).2, ?_⟩
    simp only [GetType, GetType.body, hsw]
    exact (GetRecordTypeFromDecl_eq_some _ _ _ _ _ _).mpr (Or.inl ⟨hk, _,
      (GetRecordTypeFromDecl.complete_eq_some _ _ _ _ _ _).mpr (Or.inr ⟨h, rfl⟩), rfl⟩)

theorem GetType_terminates_aux {ρ : Type} {reg : Registry ρ} (hreg : reg.KeepsDefined)
    (Context : ASTContext) (keys : List (Bool × String))
    (hkeys : ∀ rd, (recordNamespace (Context.getRecordDecl rd)).2 ≠ "" →
      recordNamespace (Context.getRecordDecl rd) ∈ keys)
    (rank : Nat → Nat) (bound : Nat) (hbound : ∀ rd, rank rd ≤ bound)
    (hrank : ∀ rd defn it rd', (recordNamespace (Context.getRecordDecl rd)).2 = "" →
      (Context.getRecordDecl rd).definition = some defn → it ∈ defn → it.skipped = false →
      Mentions Context it.type rd' → rank rd' < rank rd) :
    ∀ (u rk s : Nat) (T : QualType) (v : IncludeCVisitor ρ), v.unsettled keys ≤ u →
      (∀ rd, Mentions Context T rd → (recordNamespace (Context.getRecordDecl rd)).2 = "" →
        rank rd < rk) →
      sizeOf T ≤ s → ∃ n r v', GetType reg Context n T v = some (r, v') := by
  have hG : ∀ u' : Nat, ∀ n T (v : IncludeCVisitor ρ) r v', v.unsettled keys ≤ u' →
      GetType reg Context n T v = some (r, v') → v'.unsettled keys ≤ u' := by
    intro u' n T v r v' hv h
    have he := GetType_extends hreg Context n T v r v' h
    exact le_trans (unsettled_le he.1 he.2 keys) hv
  intro u
  induction u using Nat.strong_induction_on with
  | _ u ihu =>
  intro rk
  induction rk using Nat.strong_induction_on with
  | _ rk ihrk =>
  intro s
  induction s using Nat.strong_induction_on with
  | _ s ihs =>
  intro T v hu hM hs
  have hcan := sizeOf_getCanonicalType T
  cases hsw : GetType.switch Context T.getCanonicalType with
  | initType name =>
    exact ⟨1, some (Obj.typefield name), v, by simp only [GetType, GetType.body, hsw]⟩
  | notUnderstood =>
    exact ⟨1, none, _, by simp only [GetType, GetType.body, hsw, GetType.notUnderstood]; rfl⟩
  | element ETy make =>
    have hsz := sizeOf_switch_element hsw
    obtain ⟨n, r, v', h⟩ := ihs (sizeOf ETy) (by omega) ETy v hu
      (fun rd hm => hM rd (Mentions.element hsw hm)) le_rfl
    exact ⟨n + 1, r.map make, v', by simp only [GetType, GetType.body, hsw, GetType.wrap, h,
      Option.map_some']⟩
  | funcType FT =>
    obtain ⟨hsr, hsp⟩ := sizeOf_switch_funcType hsw
    obtain ⟨n, x, hx⟩ := GetFuncType_terminates reg Context (fun v => v.unsettled keys ≤ u)
      (fun n T v r v' => hG u n T v r v') FT
      (fun v hv => ihs (sizeOf FT.returnType) (by omega) FT.returnType v hv
        (fun rd hm => hM rd (Mentions.returnType hsw hm)) le_rfl)
      (fun PT hPT v hv => ihs (sizeOf PT) (by have := hsp PT hPT; omega) PT v hv
        (fun rd hm => hM rd (Mentions.paramType hsw hPT hm)) le_rfl) v hu
    exact ⟨n + 1, x.1, x.2, by simp only [GetType, GetType.body, hsw, hx]⟩
  | record rd =>
    cases hk : ((Context.getRecordDecl rd).isStruct || (Context.getRecordDecl rd).isUnion) with
    | false => exact GetType_one_of_record_done reg Context T rd v hsw (Or.inl hk)
    | true =>
    cases hdef : (Context.getRecordDecl rd).definition with
    | none => exact GetType_one_of_record_done reg Context T rd v hsw (Or.inr (Or.inl hdef))
    | some defn =>
    cases hund : Obj.undefined (GetRecordTypeFromDecl.lookup reg Context rd v).2.L
        (GetRecordTypeFromDecl.lookup reg Context rd v).1 with
    | false => exact GetType_one_of_record_done reg Context T rd v hsw (Or.inr (Or.inr hund))
    | true =>
    have hF1 := GetRecordTypeFromDecl.lookup_frame reg Context rd v
    have hS1 := GetRecordTypeFromDecl.lookup_settles hreg Context rd v
    have hF2 := Frame_trans hF1 (Obj.setfields_frame
      (GetRecordTypeFromDecl.lookup reg Context rd v).1 (fun s => { s with undefined := false })
      (GetRecordTypeFromDecl.lookup reg Context rd v).2)
    have hS2 := Settles_trans hS1 (Settles_setfields_undefined _ _
      (GetRecordTypeFromDecl.lookup reg Context rd v).1 (fun s => { s with undefined := false })
      hund (Settles_refl _))
    have key : ∃ n x, GetFields.loop (GetType reg Context n) defn false 0 []
        ((GetRecordTypeFromDecl.lookup reg Context rd v).1.setfields
          (fun s => { s with undefined := false })
          (GetRecordTypeFromDecl.lookup reg Context rd v).2) = some x := by
      by_cases hname : (recordNamespace (Context.getRecordDecl rd)).2 = ""
      · have hrk : rank rd < rk := hM rd (Mentions.record hsw) hname
        apply GetFields_loop_terminates reg Context (fun v => v.unsettled keys ≤ u)
          (fun n T v r v' => hG u n T v r v') defn
        · intro it hit hsk v' hv'
          exact ihrk (rank rd) hrk (sizeOf it.type) it.type v' hv'
            (fun rd' hm _ => hrank rd defn it rd' hname hdef hit hsk hm) le_rfl
        · exact le_trans (unsettled_le hF2 hS2 keys) hu
      · have hkey := hkeys rd hname
        have h1 : v.settled (recordNamespace (Context.getRecordDecl rd)) = false := by
          cases hs : v.settled (recordNamespace (Context.getRecordDecl rd)) with
          | false => rfl
          | true =>
            exfalso
            unfold IncludeCVisitor.settled at hs
            cases ho : v.thenamespace (recordNamespace (Context.getRecordDecl rd)).1
                (recordNamespace (Context.getRecordDecl rd)).2 with
            | none => simp [ho] at hs
            | some o =>
              rw [ho] at hs
              rw [GetRecordTypeFromDecl.lookup_of_some reg Context rd v o ho] at hund
              simp only at hund
              simp [hund] at hs
        have h2 : IncludeCVisitor.settled
            ((GetRecordTypeFromDecl.lookup reg Context rd v).1.setfields
              (fun s => { s with undefined := false })
              (GetRecordTypeFromDecl.lookup reg Context rd v).2)
            (recordNamespace (Context.getRecordDecl rd)) = true := by
          unfold IncludeCVisitor.settled
          have hreg' := GetRecordTypeFromDecl.lookup_registered reg Context rd v hname
          rw [(Obj.setfields_frame _ _ _).kept _ _ _ hreg']
          simp only [Obj.undefined_setfields_clear, Bool.not_false]
        have hlt := unsettled_lt hF2 hS2 keys _ hkey h1 h2
        apply GetFields_loop_terminates reg Context (fun v => v.unsettled keys ≤ u - 1)
          (fun n T v r v' => hG (u - 1) n T v r v') defn
        · intro it hit hsk v' hv'
          exact ihu (u - 1) (by omega) (bound + 1) (sizeOf it.type) it.type v' hv'
            (fun rd' _ _ => Nat.lt_succ_of_le (hbound rd')) le_rfl
        · show _ ≤ u - 1
          omega
    obtain ⟨n, x, hx⟩ := key
    obtain ⟨ok, entries, v2⟩ := x
    refine ⟨n + 1, some (GetRecordTypeFromDecl.lookup reg Context rd v).1,
      GetRecordTypeFromDecl.attach (Context.getRecordDecl rd).isUnion
        (GetRecordTypeFromDecl.lookup reg Context rd v).1 ok entries v2, ?_⟩
    simp only [GetType, GetType.body, hsw]
    exact (GetRecordTypeFromDecl_eq_some _ _ _ _ _ _).mpr (Or.inl ⟨hk, _,
      (GetRecordTypeFromDecl.complete_eq_some _ _ _ _ _ _).mpr
        (Or.inl ⟨defn, hdef, hund, ok, entries, v2, hx, rfl⟩), rfl⟩)

/-- On well-formed declarations and a registry that keeps defined handles,
`GetType` returns from every state, on every type, within some step budget. -/
theorem GetType_terminates {ρ : Type} {reg : Registry ρ} (hreg : reg.KeepsDefined)
    {Context : ASTContext} (hwf : Context.WellFormed) (T : QualType) (v : IncludeCVisitor ρ) :
    ∃ n r v', GetType reg Context n T v = some (r, v') := by
  obtain ⟨keys, hkeys⟩ := hwf.names
  obtain ⟨rank, bound, hbound, hrank⟩ := hwf.ranks
  exact GetType_terminates_aux hreg Context keys hkeys rank bound hbound hrank
    (v.unsettled keys) (bound + 1) (sizeOf T) T v le_rfl
    (fun rd _ _ => Nat.lt_succ_of_le (hbound rd)) le_rfl

/-! ## The sample registry and the sample declarations are well behaved -/

theorem HostRegistry_keepsDefined : HostRegistry.getorcreatecstruct.KeepsDefined := by
  intro L name tagged h _
  unfold HostRegistry.getorcreatecstruct
  split <;> rfl

/-- Declarations in which every record that has a definition has a tag or a
typedef name are well formed. -/
theorem wellFormed_of_named (Context : ASTContext) (l : List RecordDecl)
    (hl : Context.getRecordDecl = recordsOf l)
    (h : (l.all fun d => d.definition.isNone || decide ((recordNamespace d).2 ≠ "")) = true) :
    Context.WellFormed := by
  have hall : ∀ rd, (Context.getRecordDecl rd).definition = none ∨
      (recordNamespace (Context.getRecordDecl rd)).2 ≠ "" := by
    intro rd
    rw [hl]
    unfold recordsOf
    rw [List.getD_eq_getElem?_getD]
    cases hget : l[rd]? with
    | none => left; rfl
    | some d =>
      have hmem : d ∈ l := List.getElem?_mem hget
      have := List.all_eq_true.mp h d hmem
      simp only [Option.getD_some]
      simp only [Bool.or_eq_true, Option.isNone_iff_eq_none, decide_eq_true_eq] at this
      exact this
  constructor
  · refine ⟨recordNamespace (noRecords 0) :: l.map recordNamespace, ?_⟩
    intro rd _
    rw [hl]
    unfold recordsOf
    rw [List.getD_eq_getElem?_getD]
    cases hget : l[rd]? with
    | none => simp
    | some d =>
      simp only [Option.getD_some, List.mem_cons, List.mem_map]
      exact Or.inr ⟨d, List.getElem?_mem hget, rfl⟩
  · refine ⟨fun _ => 0, 0, fun _ => le_rfl, ?_⟩
    intro rd defn it rd' hname hdef
    rcases hall rd with h1 | h1
    · rw [h1] at hdef
      cases hdef
    · exact absurd hname h1

/-! ## Records -/

theorem GetRecordTypeFromDecl_terminates {ρ : Type} {reg : Registry ρ} (hreg : reg.KeepsDefined)
    {Context : ASTContext} (hwf : Context.WellFormed) (rd : Nat) (v : IncludeCVisitor ρ) :
    ∃ n x, ∀ m, n ≤ m →
      GetRecordTypeFromDecl reg Context (GetType reg Context m) rd v = some x := by
  obtain ⟨n, r, v', h⟩ := GetType_terminates hreg hwf (QualType.Record rd) v
  cases n with
  | zero => simp [GetType] at h
  | succ n =>
    refine ⟨n, (r, v'), fun m hm => ?_⟩
    have h' : GetRecordTypeFromDecl reg Context (GetType reg Context n) rd v = some (r, v') := by
      simpa only [GetType, GetType.body, QualType.getCanonicalType, GetType.switch] using h
    exact GetRecordTypeFromDecl_mono reg Context (GetType_mono reg Context hm) rd v _ h'

theorem recordNamespace_of_tag {d : RecordDecl} (h : d.name ≠ "") :
    recordNamespace d = (true, d.name) := by
  simp [recordNamespace, h]

/-- The lookup writes to no namespace but the record's own, and not even to
that when the record has no name. -/
theorem GetRecordTypeFromDecl.lookup_other {ρ : Type} (reg : Registry ρ)
    (Context : ASTContext) (rd : Nat) (v : IncludeCVisitor ρ) (b : Bool)
    (hb : b ≠ (recordNamespace (Context.getRecordDecl rd)).1 ∨
      (recordNamespace (Context.getRecordDecl rd)).2 = "") :
    (GetRecordTypeFromDecl.lookup reg Context rd v).2.thenamespace b = v.thenamespace b := by
  unfold GetRecordTypeFromDecl.lookup
  simp only
  split
  · rfl
  · unfold GetRecordTypeFromDecl.create
    simp only
    have hreg : ∀ h (w : IncludeCVisitor ρ),
        (GetRecordTypeFromDecl.register rd h w).thenamespace b = w.thenamespace b := by
      intro h w
      unfold GetRecordTypeFromDecl.register
      split
      · rfl
      · cases b <;> rfl
    split
    · rename_i hne
      funext name
      rw [thenamespace_setnamespace]
      rcases hb with hb | hb
      · rw [if_neg (fun hc => hb hc.1), hreg]
        cases b <;> rfl
      · exact absurd hb hne
    · rw [hreg]
      cases b <;> rfl

theorem GetRecordTypeFromDecl.attach_false {ρ : Type} (isUnion : Bool) (tt : Obj)
    (entries : List Entry) (v : IncludeCVisitor ρ) :
    GetRecordTypeFromDecl.attach isUnion tt false entries v = v := by
  simp [GetRecordTypeFromDecl.attach]

/-! ## The traversal of the declarations -/

/-- The four ways through `TraverseFunctionDecl`. -/
theorem TraverseFunctionDecl_cases {ρ : Type} {reg : Registry ρ} {Context : ASTContext}
    {isLinux : Bool} {n : Nat} {f : FunctionDecl} {v : IncludeCVisitor ρ} {b : Bool}
    {v' : IncludeCVisitor ρ} (h : TraverseFunctionDecl reg Context isLinux n f v = some (b, v')) :
    b = true ∧
      ((f.type.getAsFunctionType = none ∧ v' = v) ∨
        (∃ FT, f.type.getAsFunctionType = some FT ∧
          f.storageClass = StorageClass.SC_Static ∧
          v' = SetErrorReport f.name (ImportError "cannot import static functions." v)) ∨
        (∃ FT w, f.type.getAsFunctionType = some FT ∧
          f.storageClass ≠ StorageClass.SC_Static ∧
          GetFuncType (GetType reg Context n) FT v = some (none, w) ∧
          v' = SetErrorReport f.name w) ∨
        (∃ FT typ w, f.type.getAsFunctionType = some FT ∧
          f.storageClass ≠ StorageClass.SC_Static ∧
          GetFuncType (GetType reg Context n) FT v = some (some typ, w) ∧
          v' = KeepFunctionLive f
            (CreateFunction f.name (TraverseFunctionDecl.InternalName isLinux f) typ w))) := by
  unfold TraverseFunctionDecl at h
  split at h
  · rename_i hft
    cases h
    exact ⟨rfl, Or.inl ⟨hft, rfl⟩⟩
  · rename_i FT hft
    split at h
    · rename_i hst
      cases h
      exact ⟨rfl, Or.inr (Or.inl ⟨FT, hft, hst, rfl⟩)⟩
    · rename_i hst
      split at h
      · cases h
      · rename_i w hg
        cases h
        exact ⟨rfl, Or.inr (Or.inr (Or.inl ⟨FT, w, hft, hst, hg, rfl⟩))⟩
      · rename_i typ w hg
        cases h
        exact ⟨rfl, Or.inr (Or.inr (Or.inr ⟨FT, typ, w, hft, hst, hg, rfl⟩))⟩

/-- The three ways through `VisitTypedefDecl`. -/
theorem VisitTypedefDecl_cases {ρ : Type} {reg : Registry ρ} {Context : ASTContext}
    {n : Nat} {TD : TypedefDecl} {v : IncludeCVisitor ρ} {b : Bool} {v' : IncludeCVisitor ρ}
    (h : VisitTypedefDecl reg Context n TD v = some (b, v')) :
    b = true ∧
      (((TD.isCanonicalDecl && TD.atTranslationUnit) = false ∧ v' = v) ∨
        ((TD.isCanonicalDecl && TD.atTranslationUnit) = true ∧
          ∃ typ w, GetType reg Context n TD.underlyingType.getCanonicalType v = some (some typ, w) ∧
            v' = { w with general := w.general.setfield TD.name typ }) ∨
        ((TD.isCanonicalDecl && TD.atTranslationUnit) = true ∧
          ∃ w, GetType reg Context n TD.underlyingType.getCanonicalType v = some (none, w) ∧
            v' = SetErrorReport TD.name w)) := by
  unfold VisitTypedefDecl at h
  split at h
  · rename_i hc
    split at h
    · cases h
    · rename_i typ w hg
      cases h
      exact ⟨rfl, Or.inr (Or.inl ⟨hc, typ, w, hg, rfl⟩)⟩
    · rename_i w hg
      cases h
      exact ⟨rfl, Or.inr (Or.inr ⟨hc, w, hg, rfl⟩)⟩
  · rename_i hc
    cases h
    exact ⟨rfl, Or.inl ⟨by simpa using hc, rfl⟩⟩

/-- The two ways through `TraverseRecordDecl`. -/
theorem TraverseRecordDecl_cases {ρ : Type} {reg : Registry ρ} {Context : ASTContext}
    {n : Nat} {rd : Nat} {v : IncludeCVisitor ρ} {b : Bool} {v' : IncludeCVisitor ρ}
    (h : TraverseRecordDecl reg Context n rd v = some (b, v')) :
    b = true ∧
      (((Context.getRecordDecl rd).atTranslationUnit = false ∧ v' = v) ∨
        ((Context.getRecordDecl rd).atTranslationUnit = true ∧
          ∃ r, GetRecordTypeFromDecl reg Context (GetType reg Context n) rd v = some (r, v'))) := by
  unfold TraverseRecordDecl at h
  split at h
  · rename_i hc
    split at h
    · cases h
    · rename_i r w hg
      cases h
      exact ⟨rfl, Or.inr ⟨hc, r, hg⟩⟩
  · rename_i hc
    cases h
    exact ⟨rfl, Or.inl ⟨by simpa using hc, rfl⟩⟩

/-! ### A larger step budget changes no result of the traversal -/

theorem TraverseFunctionDecl_mono {ρ : Type} (reg : Registry ρ) (Context : ASTContext)
    (isLinux : Bool) {n m : Nat} (hnm : n ≤ m) (f : FunctionDecl) (v : IncludeCVisitor ρ)
    (x : Bool × IncludeCVisitor ρ)
    (h : TraverseFunctionDecl reg Context isLinux n f v = some x) :
    TraverseFunctionDecl reg Context isLinux m f v = some x := by
  unfold TraverseFunctionDecl at h ⊢
  split
  · rename_i hft
    simpa [hft] using h
  · rename_i FT hft
    simp only [hft] at h
    split
    · rename_i hst
      simpa [hst] using h
    · rename_i hst
      simp only [hst, if_false] at h
      cases hg : GetFuncType (GetType reg Context n) FT v with
      | none => rw [hg] at h; cases h
      | some y =>
        rw [GetFuncType_mono (GetType_mono reg Context hnm) FT v y hg]
        rw [hg] at h
        exact h

theorem VisitTypedefDecl_mono {ρ : Type} (reg : Registry ρ) (Context : ASTContext)
    {n m : Nat} (hnm : n ≤ m) (TD : TypedefDecl) (v : IncludeCVisitor ρ)
    (x : Bool × IncludeCVisitor ρ) (h : VisitTypedefDecl reg Context n TD v = some x) :
    VisitTypedefDecl reg Context m TD v = some x := by
  unfold VisitTypedefDecl at h ⊢
  split
  · rename_i hc
    simp only [hc, if_true] at h
    cases hg : GetType reg Context n TD.underlyingType.getCanonicalType v with
    | none => rw [hg] at h; cases h
    | some y =>
      rw [GetType_mono reg Context hnm _ _ _ hg]
      rw [hg] at h
      exact h
  · rename_i hc
    simpa [hc] using h

theorem TraverseRecordDecl_mono {ρ : Type} (reg : Registry ρ) (Context : ASTContext)
    {n m : Nat} (hnm : n ≤ m) (rd : Nat) (v : IncludeCVisitor ρ)
    (x : Bool × IncludeCVisitor ρ) (h : TraverseRecordDecl reg Context n rd v = some x) :
    TraverseRecordDecl reg Context m rd v = some x := by
  unfold TraverseRecordDecl at h ⊢
  split
  · rename_i hc
    simp only [hc, if_true] at h
    cases hg : GetRecordTypeFromDecl reg Context (GetType reg Context n) rd v with
    | none => rw [hg] at h; cases h
    | some y =>
      rw [GetRecordTypeFromDecl_mono reg Context (GetType_mono reg Context hnm) _ _ _ hg]
      rw [hg] at h
      exact h
  · rename_i hc
    simpa [hc] using h

theorem TraverseDecl_mono {ρ : Type} (reg : Registry ρ) (Context : ASTContext)
    (isLinux : Bool) {n m : Nat} (hnm : n ≤ m) (d : Decl) (v : IncludeCVisitor ρ)
    (x : IncludeCVisitor ρ) (h : TraverseDecl reg Context isLinux n d v = some x) :
    TraverseDecl reg Context isLinux m d v = some x := by
  unfold TraverseDecl at h ⊢
  cases d with
  | TypedefDecl TD =>
    simp only [Option.map_eq_some'] at h ⊢
    obtain ⟨a, h1, h2⟩ := h
    exact ⟨a, VisitTypedefDecl_mono reg Context hnm TD v a h1, h2⟩
  | RecordDecl rd =>
    simp only [Option.map_eq_some'] at h ⊢
    obtain ⟨a, h1, h2⟩ := h
    exact ⟨a, TraverseRecordDecl_mono reg Context hnm rd v a h1, h2⟩
  | EnumDecl constants => exact h
  | FunctionDecl f =>
    simp only [Option.map_eq_some'] at h ⊢
    obtain ⟨a, h1, h2⟩ := h
    exact ⟨a, TraverseFunctionDecl_mono reg Context isLinux hnm f v a h1, h2⟩
  | Other => exact h

theorem HandleTopLevelDecl_append {ρ : Type} (reg : Registry ρ) (Context : ASTContext)
    (isLinux : Bool) (n : Nat) (D1 D2 : List Decl) :
    ∀ (v x : IncludeCVisitor ρ),
      HandleTopLevelDecl reg Context isLinux n (D1 ++ D2) v = some x ↔
        ∃ v1, HandleTopLevelDecl reg Context isLinux n D1 v = some v1 ∧
          HandleTopLevelDecl reg Context isLinux n D2 v1 = some x := by
  induction D1 with
  | nil => intro v x; simp [HandleTopLevelDecl]
  | cons d D1 ih =>
    intro v x
    simp only [List.cons_append, HandleTopLevelDecl]
    cases hd : TraverseDecl reg Context isLinux n d v with
    | none => simp
    | some v1 => exact ih v1 x


/-! ### Every traversal returns -/

theorem GetFuncType_returns {ρ : Type} {reg : Registry ρ} (hreg : reg.KeepsDefined)
    {Context : ASTContext} (hwf : Context.WellFormed) (FT : FunctionType)
    (v : IncludeCVisitor ρ) :
    ∃ n x, GetFuncType (GetType reg Context n) FT v = some x :=
  GetFuncType_terminates reg Context (fun _ => True) (fun _ _ _ _ _ _ _ => trivial) FT
    (fun v _ => GetType_terminates hreg hwf _ v)
    (fun PT _ v _ => GetType_terminates hreg hwf PT v) v trivial

theorem TraverseFunctionDecl_terminates {ρ : Type} {reg : Registry ρ} (hreg : reg.KeepsDefined)
    {Context : ASTContext} (hwf : Context.WellFormed) (isLinux : Bool) (f : FunctionDecl)
    (v : IncludeCVisitor ρ) :
    ∃ n x, TraverseFunctionDecl reg Context isLinux n f v = some x := by
  unfold TraverseFunctionDecl
  cases hft : f.type.getAsFunctionType with
  | none => exact ⟨0, _, rfl⟩
  | some FT =>
    by_cases hst : f.storageClass = StorageClass.SC_Static
    · exact ⟨0, (true, SetErrorReport f.name (ImportError "cannot import static functions." v)),
        by simp only [hst, if_true]⟩
    · obtain ⟨n, x, hx⟩ := GetFuncType_returns hreg hwf FT v
      refine ⟨n, ?_⟩
      simp only [hst, if_false, hx]
      obtain ⟨r, w⟩ := x
      cases r with
      | none => exact ⟨_, rfl⟩
      | some typ => exact ⟨_, rfl⟩

theorem VisitTypedefDecl_terminates {ρ : Type} {reg : Registry ρ} (hreg : reg.KeepsDefined)
    {Context : ASTContext} (hwf : Context.WellFormed) (TD : TypedefDecl)
    (v : IncludeCVisitor ρ) :
    ∃ n x, VisitTypedefDecl reg Context n TD v = some x := by
  unfold VisitTypedefDecl
  by_cases hc : (TD.isCanonicalDecl && TD.atTranslationUnit) = true
  · obtain ⟨n, r, w, hx⟩ := GetType_terminates hreg hwf TD.underlyingType.getCanonicalType v
    refine ⟨n, ?_⟩
    simp only [hc, if_true, hx]
    cases r with
    | none => exact ⟨_, rfl⟩
    | some typ => exact ⟨_, rfl⟩
  · exact ⟨0, _, by simp only [hc]; rfl⟩

theorem TraverseRecordDecl_terminates {ρ : Type} {reg : Registry ρ} (hreg : reg.KeepsDefined)
    {Context : ASTContext} (hwf : Context.WellFormed) (rd : Nat) (v : IncludeCVisitor ρ) :
    ∃ n x, TraverseRecordDecl reg Context n rd v = some x := by
  unfold TraverseRecordDecl
  by_cases hc : (Context.getRecordDecl rd).atTranslationUnit = true
  · obtain ⟨n, x, hx⟩ := GetRecordTypeFromDecl_terminates hreg hwf rd v
    refine ⟨n, ?_⟩
    simp only [hc, if_true, hx n (Nat.le_refl n)]
    exact ⟨_, rfl⟩
  · exact ⟨0, _, by simp only [hc]; rfl⟩

theorem TraverseDecl_terminates {ρ : Type} {reg : Registry ρ} (hreg : reg.KeepsDefined)
    {Context : ASTContext} (hwf : Context.WellFormed) (isLinux : Bool) (d : Decl)
    (v : IncludeCVisitor ρ) :
    ∃ n x, TraverseDecl reg Context isLinux n d v = some x := by
  unfold TraverseDecl
  cases d with
  | TypedefDecl TD =>
    obtain ⟨n, x, hx⟩ := VisitTypedefDecl_terminates hreg hwf TD v
    exact ⟨n, x.2, by simp [hx]⟩
  | RecordDecl rd =>
    obtain ⟨n, x, hx⟩ := TraverseRecordDecl_terminates hreg hwf rd v
    exact ⟨n, x.2, by simp [hx]⟩
  | EnumDecl constants => exact ⟨0, _, rfl⟩
  | FunctionDecl f =>
    obtain ⟨n, x, hx⟩ := TraverseFunctionDecl_terminates hreg hwf isLinux f v
    exact ⟨n, x.2, by simp [hx]⟩
  | Other => exact ⟨0, _, rfl⟩

/-- The traversal of a translation unit returns, given steps enough. -/
theorem HandleTopLevelDecl_terminates {ρ : Type} {reg : Registry ρ} (hreg : reg.KeepsDefined)
    {Context : ASTContext} (hwf : Context.WellFormed) (isLinux : Bool) (D : List Decl) :
    ∀ v : IncludeCVisitor ρ, ∃ n x, ∀ m, n ≤ m →
      HandleTopLevelDecl reg Context isLinux m D v = some x := by
  induction D with
  | nil => intro v; exact ⟨0, v, fun _ _ => rfl⟩
  | cons d D ih =>
    intro v
    obtain ⟨n1, v1, h1⟩ := TraverseDecl_terminates hreg hwf isLinux d v
    obtain ⟨n2, x, h2⟩ := ih v1
    refine ⟨max n1 n2, x, fun m hm => ?_⟩
    simp only [HandleTopLevelDecl]
    rw [TraverseDecl_mono reg Context isLinux (le_trans (le_max_left n1 n2) hm) d v v1 h1]
    exact h2 m (le_trans (le_max_right n1 n2) hm)

/-- The import returns, given steps enough. -/
theorem dofile_terminates {ρ : Type} {reg : Registry ρ} (hreg : reg.KeepsDefined)
    {Context : ASTContext} (hwf : Context.WellFormed) (PP : Preprocessor) (isLinux : Bool)
    (decls : List Decl) (macroTable : List (IdentifierInfo × MacroInfo)) (L : LuaState ρ)
    (id : Nat) :
    ∃ n r, ∀ m, n ≤ m → dofile reg Context PP isLinux m decls macroTable L id = some r := by
  obtain ⟨n, x, hx⟩ :=
    HandleTopLevelDecl_terminates hreg hwf isLinux decls (IncludeCVisitor.create L id)
  refine ⟨n,
    { general := x.general
      tagged := x.tagged
      errors := x.error_table
      macros := macroTable.foldl (fun table m => AddMacro PP m.1 m.2 table) Table.empty
      livenessDecl := GetLivenessFunction x
      L := x.L
      next_unused_id := id + 1 }, fun m hm => ?_⟩
  unfold dofile
  rw [hx m hm]

/-- The result of an import, from the state at the end of the traversal. -/
theorem dofile_eq_some {ρ : Type} {reg : Registry ρ} {Context : ASTContext}
    {PP : Preprocessor} {isLinux : Bool} {n : Nat} {decls : List Decl}
    {macroTable : List (IdentifierInfo × MacroInfo)} {L : LuaState ρ} {id : Nat}
    {r : ImportResult ρ}
    (h : dofile reg Context PP isLinux n decls macroTable L id = some r) :
    ∃ v, HandleTopLevelDecl reg Context isLinux n decls (IncludeCVisitor.create L id) = some v ∧
      r.general = v.general ∧ r.tagged = v.tagged ∧ r.errors = v.error_table ∧
      r.livenessDecl = GetLivenessFunction v ∧ r.L = v.L := by
  unfold dofile at h
  split at h
  · cases h
  · rename_i v hv
    cases h
    exact ⟨v, hv, rfl, rfl, rfl, rfl, rfl⟩


/-! ## The statements of the liveness function -/

theorem livenessStmt_injective {f g : FunctionDecl} (h : livenessStmt f = livenessStmt g) :
    f = g := by
  unfold livenessStmt CreateCast GetFunctionReference at h
  injection h with _ _ h
  injection h

theorem Frame.general_isSome {ρ : Type} {v w : IncludeCVisitor ρ} (h : Frame v w)
    (name : String) (hn : (v.general name).isSome = true) : (w.general name).isSome = true := by
  obtain ⟨o, ho⟩ := Option.isSome_iff_exists.mp hn
  have h0 : w.general name = some o := h.kept false name o ho
  rw [h0]
  rfl

theorem VisitEnumConstantDecl_foldl {ρ : Type} (constants : List EnumConstantDecl) :
    ∀ v : IncludeCVisitor ρ,
      (constants.foldl (fun v E => (VisitEnumConstantDecl E v).2) v).outputstmts = v.outputstmts ∧
      ∀ name, (v.general name).isSome = true →
        ((constants.foldl (fun v E => (VisitEnumConstantDecl E v).2) v).general name).isSome
          = true := by
  induction constants with
  | nil => intro v; exact ⟨rfl, fun _ h => h⟩
  | cons E l ih =>
    intro v
    simp only [List.foldl_cons]
    obtain ⟨h1, h2⟩ := ih (VisitEnumConstantDecl E v).2
    refine ⟨h1, fun name hn => h2 name ?_⟩
    simp only [VisitEnumConstantDecl, Table.setfield]
    split
    · rfl
    · exact hn

/-- What the traversal of a function declaration does to the statements and
to `general`: a declaration that is accepted adds its statement and has its
name in `general`, any other adds no statement. -/
theorem TraverseFunctionDecl_step {ρ : Type} {reg : Registry ρ} {Context : ASTContext}
    {isLinux : Bool} {n : Nat} {f : FunctionDecl} {v : IncludeCVisitor ρ} {b : Bool}
    {v' : IncludeCVisitor ρ} (h : TraverseFunctionDecl reg Context isLinux n f v = some (b, v')) :
    (∀ name, (v.general name).isSome = true → (v'.general name).isSome = true) ∧
      ((¬ f.Accepted Context ∧ v'.outputstmts = v.outputstmts) ∨
        (f.Accepted Context ∧ v'.outputstmts = v.outputstmts ++ [livenessStmt f] ∧
          (v'.general f.name).isSome = true)) := by
  obtain ⟨_, h | ⟨FT, hft, hst, rfl⟩ | ⟨FT, w, hft, hst, hg, rfl⟩ | ⟨FT, typ, w, hft, hst, hg, rfl⟩⟩ :=
    TraverseFunctionDecl_cases h
  · obtain ⟨hft, rfl⟩ := h
    refine ⟨fun _ h => h, Or.inl ⟨?_, rfl⟩⟩
    rintro ⟨_, FT, h, _⟩
    rw [hft] at h
    cases h
  · exact ⟨fun _ h => h, Or.inl ⟨fun h => h.1 hst, rfl⟩⟩
  · have hF : Frame v w :=
      GetFuncType_keeps (Frame_invariant reg Context) (GetType_keeps (Frame_invariant reg Context) n)
        FT v _ w hg
    refine ⟨fun name hn => hF.general_isSome name hn, Or.inl ⟨?_, hF.outputstmts⟩⟩
    rintro ⟨_, FT', h, ht⟩
    rw [hft] at h
    cases h
    have := (GetFuncType_decides (GetType_decides reg Context n) FT v _ w hg).mpr ht
    cases this
  · have hF : Frame v w :=
      GetFuncType_keeps (Frame_invariant reg Context) (GetType_keeps (Frame_invariant reg Context) n)
        FT v _ w hg
    have hacc : f.Accepted Context :=
      ⟨hst, FT, hft, (GetFuncType_decides (GetType_decides reg Context n) FT v _ w hg).mp rfl⟩
    have hgen : ∀ name, (w.general name).isSome = true →
        ((CreateFunction f.name (TraverseFunctionDecl.InternalName isLinux f) typ w).general
          name).isSome = true := by
      intro name hn
      unfold CreateFunction
      split
      · simp only [Table.setfield]
        split
        · rfl
        · exact hn
      · exact hn
    have hown : ((CreateFunction f.name (TraverseFunctionDecl.InternalName isLinux f) typ
        w).general f.name).isSome = true := by
      unfold CreateFunction
      split
      · simp [Table.setfield]
      · rename_i hc
        simpa [Table.hasfield, Option.isSome_iff_ne_none] using hc
    have hstm : (CreateFunction f.name (TraverseFunctionDecl.InternalName isLinux f) typ
        w).outputstmts = w.outputstmts := by
      unfold CreateFunction
      split <;> rfl
    refine ⟨fun name hn => hgen name (hF.general_isSome name hn), Or.inr ⟨hacc, ?_, hown⟩⟩
    simp only [KeepFunctionLive, hstm, hF.outputstmts, livenessStmt]

/-- A declaration whose traversal changed `general` at its name into a
function is one that added its statement. -/
theorem TraverseFunctionDecl_registered {ρ : Type} {reg : Registry ρ} {Context : ASTContext}
    {isLinux : Bool} {n : Nat} {f : FunctionDecl} {v : IncludeCVisitor ρ} {b : Bool}
    {v' : IncludeCVisitor ρ} (h : TraverseFunctionDecl reg Context isLinux n f v = some (b, v'))
    (hne : v'.general f.name ≠ v.general f.name)
    (hext : ∃ i t, v'.general f.name = some (Obj.externfunction i t)) :
    f.Accepted Context := by
  obtain ⟨hgen, ⟨hna, _⟩ | ⟨hacc, _⟩⟩ := TraverseFunctionDecl_step h
  · exfalso
    obtain ⟨_, h | ⟨FT, hft, hst, rfl⟩ | ⟨FT, w, hft, hst, hg, rfl⟩ | ⟨FT, typ, w, hft, hst, hg, rfl⟩⟩ :=
      TraverseFunctionDecl_cases h
    · exact hne (by rw [h.2])
    · exact hne rfl
    · have hF : Frame v w :=
        GetFuncType_keeps (Frame_invariant reg Context)
          (GetType_keeps (Frame_invariant reg Context) n) FT v _ w hg
      obtain ⟨i, t, hit⟩ := hext
      have hw : w.general f.name = some (Obj.externfunction i t) := hit
      cases hv : v.general f.name with
      | none =>
        have h1 : w.general f.name = none ∨ ∃ h, w.general f.name = some (Obj.cstruct h) :=
          hF.gained false f.name hv
        rcases h1 with h0 | ⟨hh, h0⟩
        · rw [hw] at h0
          cases h0
        · rw [hw] at h0
          cases h0
      | some o =>
        have h0 : w.general f.name = some o := hF.kept false f.name o hv
        apply hne
        show w.general f.name = v.general f.name
        rw [h0, hv]
    · exact hna ⟨hst, FT, hft,
        (GetFuncType_decides (GetType_decides reg Context n) FT v _ w hg).mp rfl⟩
  · exact hacc

/-- What the traversal of one declaration does to the statements and to
`general`. -/
theorem TraverseDecl_step {ρ : Type} {reg : Registry ρ} {Context : ASTContext}
    {isLinux : Bool} {n : Nat} {d : Decl} {v v' : IncludeCVisitor ρ}
    (h : TraverseDecl reg Context isLinux n d v = some v') :
    (∀ name, (v.general name).isSome = true → (v'.general name).isSome = true) ∧
      (((∀ f, d = Decl.FunctionDecl f → ¬ f.Accepted Context) ∧
          v'.outputstmts = v.outputstmts) ∨
        (∃ f, d = Decl.FunctionDecl f ∧ f.Accepted Context ∧
          v'.outputstmts = v.outputstmts ++ [livenessStmt f] ∧
          (v'.general f.name).isSome = true)) := by
  unfold TraverseDecl at h
  cases d with
  | TypedefDecl TD =>
    simp only [Option.map_eq_some'] at h
    obtain ⟨⟨b, x⟩, h, rfl⟩ := h
    obtain ⟨_, ⟨_, rfl⟩ | ⟨_, typ, w, hg, rfl⟩ | ⟨_, w, hg, rfl⟩⟩ := VisitTypedefDecl_cases h
    · exact ⟨fun _ h => h, Or.inl ⟨(fun f hf => by cases hf), rfl⟩⟩
    · have hF : Frame v w := GetType_keeps (Frame_invariant reg Context) n _ v _ w hg
      refine ⟨fun name hn => ?_, Or.inl ⟨(fun f hf => by cases hf), hF.outputstmts⟩⟩
      have := hF.general_isSome name hn
      simp only [Table.setfield]
      split
      · rfl
      · exact this
    · have hF : Frame v w := GetType_keeps (Frame_invariant reg Context) n _ v _ w hg
      exact ⟨fun name hn => hF.general_isSome name hn,
        Or.inl ⟨(fun f hf => by cases hf), hF.outputstmts⟩⟩
  | RecordDecl rd =>
    simp only [Option.map_eq_some'] at h
    obtain ⟨⟨b, x⟩, h, rfl⟩ := h
    obtain ⟨_, ⟨_, rfl⟩ | ⟨_, r, hg⟩⟩ := TraverseRecordDecl_cases h
    · exact ⟨fun _ h => h, Or.inl ⟨(fun f hf => by cases hf), rfl⟩⟩
    · have hF : Frame v x :=
        GetRecordTypeFromDecl_keeps (Frame_invariant reg Context)
          (GetType_keeps (Frame_invariant reg Context) n) rd v r x hg
      exact ⟨fun name hn => hF.general_isSome name hn,
        Or.inl ⟨(fun f hf => by cases hf), hF.outputstmts⟩⟩
  | EnumDecl constants =>
    cases h
    obtain ⟨h1, h2⟩ := VisitEnumConstantDecl_foldl constants v
    exact ⟨h2, Or.inl ⟨(fun f hf => by cases hf), h1⟩⟩
  | FunctionDecl f =>
    simp only [Option.map_eq_some'] at h
    obtain ⟨⟨b, x⟩, h, rfl⟩ := h
    obtain ⟨h1, ⟨hna, h2⟩ | ⟨hacc, h2, h3⟩⟩ := TraverseFunctionDecl_step h
    · exact ⟨h1, Or.inl ⟨(fun g hg => by cases hg; exact hna), h2⟩⟩
    · exact ⟨h1, Or.inr ⟨f, rfl, hacc, h2, h3⟩⟩
  | Other =>
    cases h
    exact ⟨fun _ h => h, Or.inl ⟨(fun f hf => by cases hf), rfl⟩⟩

/-- What the traversal of a translation unit does to the statements: it adds
one statement for each accepted function declaration, in order, and nothing
else; the names of those declarations are in `general` at the end. -/
theorem HandleTopLevelDecl_stmts {ρ : Type} {reg : Registry ρ} {Context : ASTContext}
    {isLinux : Bool} {n : Nat} (D : List Decl) :
    ∀ {v v' : IncludeCVisitor ρ}, HandleTopLevelDecl reg Context isLinux n D v = some v' →
      (∀ name, (v.general name).isSome = true → (v'.general name).isSome = true) ∧
      (∃ added, v'.outputstmts = v.outputstmts ++ added ∧
        (∀ s ∈ added, ∃ f, Decl.FunctionDecl f ∈ D ∧ f.Accepted Context ∧
          s = livenessStmt f ∧ (v'.general f.name).isSome = true) ∧
        ∀ f, Decl.FunctionDecl f ∈ D → f.Accepted Context → livenessStmt f ∈ added) := by
  induction D with
  | nil =>
    intro v v' h
    cases h
    exact ⟨fun _ h => h, [], by simp, by simp, by simp⟩
  | cons d D ih =>
    intro v v' h
    simp only [HandleTopLevelDecl] at h
    cases hd : TraverseDecl reg Context isLinux n d v with
    | none => rw [hd] at h; cases h
    | some v1 =>
      rw [hd] at h
      obtain ⟨hg2, added, hadd, hall, hmem⟩ := ih h
      obtain ⟨hg1, ⟨hna, hs⟩ | ⟨f, rfl, hacc, hs, hown⟩⟩ := TraverseDecl_step hd
      · refine ⟨fun name hn => hg2 name (hg1 name hn), added, by rw [hadd, hs], ?_, ?_⟩
        · intro s hsm
          obtain ⟨f, hf, ha, he, hi⟩ := hall s hsm
          exact ⟨f, List.mem_cons_of_mem _ hf, ha, he, hi⟩
        · intro f hf ha
          rcases List.mem_cons.mp hf with rfl | hf
          · exact absurd ha (hna f rfl)
          · exact hmem f hf ha
      · refine ⟨fun name hn => hg2 name (hg1 name hn), livenessStmt f :: added,
          by rw [hadd, hs, List.append_assoc]; rfl, ?_, ?_⟩
        · intro s hsm
          rcases List.mem_cons.mp hsm with rfl | hsm
          · exact ⟨f, List.mem_cons_self _ _, hacc, rfl, hg2 _ hown⟩
          · obtain ⟨g, hf, ha, he, hi⟩ := hall s hsm
            exact ⟨g, List.mem_cons_of_mem _ hf, ha, he, hi⟩
        · intro g hf ha
          rcases List.mem_cons.mp hf with hgf | hf
          · cases hgf
            exact List.mem_cons_self _ _
          · exact List.mem_cons_of_mem _ (hmem g hf ha)


/-! ## A type translated a second time -/

theorem Later_refl {ρ : Type} (v : IncludeCVisitor ρ) : Later v v :=
  ⟨fun _ _ _ h => h, fun _ h => h⟩

theorem Later_trans {ρ : Type} {a b c : IncludeCVisitor ρ} (h1 : Later a b) (h2 : Later b c) :
    Later a c :=
  ⟨fun ns name o h => h2.1 ns name o (h1.1 ns name o h), fun h hu => h2.2 h (h1.2 h hu)⟩

theorem Later_of_extends {ρ : Type} {a b : IncludeCVisitor ρ} (hF : Frame a b)
    (hS : Settles a b) : Later a b :=
  ⟨hF.kept, fun h hu => (hS h hu).1⟩

theorem Later.undefined {ρ : Type} {a b : IncludeCVisitor ρ} (h : Later a b) (o : Obj)
    (hu : Obj.undefined a.L o = false) : Obj.undefined b.L o = false := by
  cases o <;> first | rfl | exact h.2 _ hu

theorem Obj.setfields_general {ρ : Type} (tt : Obj) (f : CStruct → CStruct)
    (v : IncludeCVisitor ρ) : (tt.setfields f v).general = v.general := by
  cases tt <;> rfl

theorem Obj.setfields_tagged {ρ : Type} (tt : Obj) (f : CStruct → CStruct)
    (v : IncludeCVisitor ρ) : (tt.setfields f v).tagged = v.tagged := by
  cases tt <;> rfl

theorem Later_setfields {ρ : Type} (tt : Obj) (f : CStruct → CStruct) (v : IncludeCVisitor ρ)
    (hf : ∀ s, (f s).undefined = s.undefined) : Later v (tt.setfields f v) := by
  refine ⟨(Obj.setfields_frame tt f v).kept, fun h hu => ?_⟩
  cases tt with
  | cstruct h' =>
    simp only [Obj.setfields, structs_modify]
    split
    · rename_i heq
      subst heq
      rw [hf]
      exact hu
    · exact hu
  | _ => exact hu

theorem Later_invariant {ρ : Type} {reg : Registry ρ} (hreg : reg.KeepsDefined)
    (Context : ASTContext) : Invariant reg Context (Later (ρ := ρ)) where
  refl := Later_refl
  trans := Later_trans
  importError := fun v _ => Later_refl v
  lookup := fun rd v => Later_of_extends (GetRecordTypeFromDecl.lookup_frame reg Context rd v)
    (GetRecordTypeFromDecl.lookup_settles hreg Context rd v)
  clear := fun v tt hu => Later_of_extends (Obj.setfields_frame tt _ v)
    (Settles_setfields_undefined v v tt _ hu (Settles_refl v))
  attach := fun _ tt v f _ h hf => Later_trans h (Later_setfields tt f v hf)

theorem GetRecordTypeFromDecl.attach_general {ρ : Type} (isUnion : Bool) (tt : Obj) (ok : Bool)
    (entries : List Entry) (v : IncludeCVisitor ρ) :
    (GetRecordTypeFromDecl.attach isUnion tt ok entries v).general = v.general ∧
      (GetRecordTypeFromDecl.attach isUnion tt ok entries v).tagged = v.tagged := by
  unfold GetRecordTypeFromDecl.attach
  cases ok <;> cases isUnion <;>
    simp [Obj.setfields_general, Obj.setfields_tagged]

theorem GetRecordTypeFromDecl.attach_later {ρ : Type} (isUnion : Bool) (tt : Obj) (ok : Bool)
    (entries : List Entry) (v : IncludeCVisitor ρ) :
    Later v (GetRecordTypeFromDecl.attach isUnion tt ok entries v) := by
  unfold GetRecordTypeFromDecl.attach
  cases ok with
  | false => exact Later_refl v
  | true =>
    simp only [if_true]
    refine Later_trans ?_ (Later_setfields _ _ _ (fun s => rfl))
    cases isUnion with
    | false => exact Later_setfields _ _ _ (fun s => rfl)
    | true => exact Later_setfields _ _ _ (fun s => rfl)

/-- The handle of a record without a name, when the namespace has no value
under the empty name, is flagged `undefined` after the lookup. -/
theorem GetRecordTypeFromDecl.lookup_undefined {ρ : Type} {reg : Registry ρ}
    (hcre : reg.CreatesUndefined) (Context : ASTContext) (rd : Nat) (v : IncludeCVisitor ρ)
    (hname : (recordNamespace (Context.getRecordDecl rd)).2 = "")
    (hnone : v.thenamespace (recordNamespace (Context.getRecordDecl rd)).1
      (recordNamespace (Context.getRecordDecl rd)).2 = none) :
    Obj.undefined (GetRecordTypeFromDecl.lookup reg Context rd v).2.L
      (GetRecordTypeFromDecl.lookup reg Context rd v).1 = true := by
  have hl : GetRecordTypeFromDecl.lookup reg Context rd v =
      GetRecordTypeFromDecl.create reg rd (recordNamespace (Context.getRecordDecl rd)).1
        (recordNamespace (Context.getRecordDecl rd)).2 v := by
    unfold GetRecordTypeFromDecl.lookup
    simp only [hnone]
  rw [hl, hname]
  simp only [GetRecordTypeFromDecl.create, ne_eq, not_true_eq_false, if_false, Obj.undefined]
  unfold GetRecordTypeFromDecl.register
  split
  · exact hcre v.L _
  · simp only [RegisterRecordType, structs_modify, if_true]
    exact hcre v.L _

theorem GetFields_loop_repeats {ρ : Type} {reg : Registry ρ} (hreg : reg.KeepsDefined)
    (Context : ASTContext) {g1 g2 : TypeGetter ρ} (hk1 : g1.Keeps Later) (hk2 : g2.Keeps Later)
    (hrep : g1.Repeats g2) :
    ∀ (fields : List FieldDecl) (opaq : Bool) (anonname : Nat) (entries : List Entry)
      (a : IncludeCVisitor ρ) ok es af,
      GetFields.loop g1 fields opaq anonname entries a = some (ok, es, af) →
      ∀ (opaq2 : Bool) (anonname2 : Nat) (entries2 : List Entry) (b : IncludeCVisitor ρ)
        ok2 es2 bf, Later af b →
        GetFields.loop g2 fields opaq2 anonname2 entries2 b = some (ok2, es2, bf) →
        bf.general = b.general ∧ bf.tagged = b.tagged := by
  intro fields
  induction fields with
  | nil =>
    intro opaq anonname entries a ok es af _ opaq2 anonname2 entries2 b ok2 es2 bf _ h2
    simp only [GetFields.loop, Option.some.injEq, Prod.mk.injEq] at h2
    obtain ⟨_, _, rfl⟩ := h2
    exact ⟨rfl, rfl⟩
  | cons it rest ih =>
    intro opaq anonname entries a ok es af h1 opaq2 anonname2 entries2 b ok2 es2 bf hL h2
    simp only [GetFields.loop] at h1 h2
    by_cases hs : it.skipped = true
    · simp only [hs, if_true] at h1 h2
      exact ih _ _ _ _ _ _ _ h1 _ _ _ _ _ _ _ hL h2
    · simp only [hs] at h1 h2
      cases hg1 : g1 it.type a with
      | none => rw [hg1] at h1; cases h1
      | some x1 =>
        obtain ⟨r1, a1⟩ := x1
        cases hg2 : g2 it.type b with
        | none => rw [hg2] at h2; cases h2
        | some x2 =>
          obtain ⟨r2, b1⟩ := x2
          rw [hg1] at h1
          rw [hg2] at h2
          have hrest1 : ∃ o n e, GetFields.loop g1 rest o n e a1 = some (ok, es, af) := by
            cases r1 with
            | none => exact ⟨_, _, _, h1⟩
            | some t => exact ⟨_, _, _, h1⟩
          have hrest2 : ∃ o n e, GetFields.loop g2 rest o n e b1 = some (ok2, es2, bf) := by
            cases r2 with
            | none => exact ⟨_, _, _, h2⟩
            | some t => exact ⟨_, _, _, h2⟩
          obtain ⟨o1, n1, e1, hr1⟩ := hrest1
          obtain ⟨o2, n2, e2, hr2⟩ := hrest2
          have hL1 : Later a1 af :=
            GetFields_loop_keeps (Later_invariant hreg Context) hk1 _ _ _ _ _ _ _ _ hr1
          have hn := hrep _ _ _ _ _ _ _ hg1 (Later_trans hL1 hL) hg2
          have hL2 : Later b b1 := hk2 _ _ _ _ hg2
          have := ih _ _ _ _ _ _ _ hr1 _ _ _ _ _ _ _ (Later_trans hL hL2) hr2
          exact ⟨this.1.trans hn.1, this.2.trans hn.2⟩

theorem GetFuncType_loop_repeats {ρ : Type} {reg : Registry ρ} (hreg : reg.KeepsDefined)
    (Context : ASTContext) {g1 g2 : TypeGetter ρ} (hk1 : g1.Keeps Later) (hk2 : g2.Keeps Later)
    (hrep : g1.Repeats g2) :
    ∀ (params : List QualType) (valid : Bool) (parameters : List Obj)
      (a : IncludeCVisitor ρ) ok ps af,
      GetFuncType.loop g1 params valid parameters a = some (ok, ps, af) →
      ∀ (valid2 : Bool) (parameters2 : List Obj) (b : IncludeCVisitor ρ) ok2 ps2 bf,
        Later af b → GetFuncType.loop g2 params valid2 parameters2 b = some (ok2, ps2, bf) →
        bf.general = b.general ∧ bf.tagged = b.tagged := by
  intro params
  induction params with
  | nil =>
    intro valid parameters a ok ps af _ valid2 parameters2 b ok2 ps2 bf _ h2
    simp only [GetFuncType.loop, Option.some.injEq, Prod.mk.injEq] at h2
    obtain ⟨_, _, rfl⟩ := h2
    exact ⟨rfl, rfl⟩
  | cons PT rest ih =>
    intro valid parameters a ok ps af h1 valid2 parameters2 b ok2 ps2 bf hL h2
    simp only [GetFuncType.loop] at h1 h2
    cases hg1 : g1 PT a with
    | none => rw [hg1] at h1; cases h1
    | some x1 =>
      obtain ⟨r1, a1⟩ := x1
      cases hg2 : g2 PT b with
      | none => rw [hg2] at h2; cases h2
      | some x2 =>
        obtain ⟨r2, b1⟩ := x2
        rw [hg1] at h1
        rw [hg2] at h2
        have hrest1 : ∃ o e, GetFuncType.loop g1 rest o e a1 = some (ok, ps, af) := by
          cases r1 with
          | none => exact ⟨_, _, h1⟩
          | some t => exact ⟨_, _, h1⟩
        have hrest2 : ∃ o e, GetFuncType.loop g2 rest o e b1 = some (ok2, ps2, bf) := by
          cases r2 with
          | none => exact ⟨_, _, h2⟩
          | some t => exact ⟨_, _, h2⟩
        obtain ⟨o1, e1, hr1⟩ := hrest1
        obtain ⟨o2, e2, hr2⟩ := hrest2
        have hL1 : Later a1 af :=
          GetFuncType_loop_keeps (Later_invariant hreg Context) hk1 _ _ _ _ _ _ _ hr1
        have hn := hrep _ _ _ _ _ _ _ hg1 (Later_trans hL1 hL) hg2
        have hL2 : Later b b1 := hk2 _ _ _ _ hg2
        have := ih _ _ _ _ _ _ hr1 _ _ _ _ _ _ (Later_trans hL hL2) hr2
        exact ⟨this.1.trans hn.1, this.2.trans hn.2⟩

theorem GetFuncType_repeats {ρ : Type} {reg : Registry ρ} (hreg : reg.KeepsDefined)
    (Context : ASTContext) {g1 g2 : TypeGetter ρ} (hk1 : g1.Keeps Later) (hk2 : g2.Keeps Later)
    (hrep : g1.Repeats g2) (FT : FunctionType) (v : IncludeCVisitor ρ) (r : Option Obj)
    (w v2 : IncludeCVisitor ρ) (r2 : Option Obj) (w2 : IncludeCVisitor ρ)
    (h1 : GetFuncType g1 FT v = some (r, w)) (hL : Later w v2)
    (h2 : GetFuncType g2 FT v2 = some (r2, w2)) :
    w2.general = v2.general ∧ w2.tagged = v2.tagged := by
  rw [GetFuncType_eq_some] at h1 h2
  obtain ⟨rt1, a1, valid1, ps1, af, hrt1, hl1, hx1⟩ := h1
  obtain ⟨rt2, b1, valid2, ps2, bf, hrt2, hl2, hx2⟩ := h2
  simp only [Prod.mk.injEq] at hx1 hx2
  obtain ⟨_, rfl⟩ := hx1
  obtain ⟨_, rfl⟩ := hx2
  have hL1 : Later a1 w :=
    GetFuncType_loop_keeps (Later_invariant hreg Context) hk1 _ _ _ _ _ _ _ hl1
  rw [GetFuncType.returntype_eq_some] at hrt1 hrt2
  have hb : (b1.general = v2.general ∧ b1.tagged = v2.tagged) ∧ Later v2 b1 := by
    rcases hrt2 with ⟨_, hx⟩ | ⟨hnv, hg2⟩
    · cases hx
      exact ⟨⟨rfl, rfl⟩, Later_refl _⟩
    · rcases hrt1 with ⟨hv, _⟩ | ⟨_, hg1⟩
      · rw [hv] at hnv
        cases hnv
      · exact ⟨hrep _ _ _ _ _ _ _ hg1 (Later_trans hL1 hL) hg2, hk2 _ _ _ _ hg2⟩
  have := GetFuncType_loop_repeats hreg Context hk1 hk2 hrep _ _ _ _ _ _ _ hl1
    _ _ _ _ _ _ (Later_trans hL hb.2) hl2
  exact ⟨this.1.trans hb.1.1, this.2.trans hb.1.2⟩


theorem GetRecordTypeFromDecl.lookup_names {ρ : Type} (reg : Registry ρ)
    (Context : ASTContext) (rd : Nat) (v : IncludeCVisitor ρ)
    (h : (recordNamespace (Context.getRecordDecl rd)).2 = "" ∨
      ∃ o, v.thenamespace (recordNamespace (Context.getRecordDecl rd)).1
        (recordNamespace (Context.getRecordDecl rd)).2 = some o) :
    (GetRecordTypeFromDecl.lookup reg Context rd v).2.general = v.general ∧
      (GetRecordTypeFromDecl.lookup reg Context rd v).2.tagged = v.tagged := by
  rcases h with h | ⟨o, ho⟩
  · exact ⟨GetRecordTypeFromDecl.lookup_other reg Context rd v false (Or.inr h),
      GetRecordTypeFromDecl.lookup_other reg Context rd v true (Or.inr h)⟩
  · rw [GetRecordTypeFromDecl.lookup_of_some reg Context rd v o ho]
    exact ⟨rfl, rfl⟩

theorem GetRecordTypeFromDecl_repeats {ρ : Type} {reg : Registry ρ} (hreg : reg.KeepsDefined)
    (hcre : reg.CreatesUndefined) {Context : ASTContext} {g1 g2 : TypeGetter ρ}
    (hk1 : g1.Keeps Later) (hk2 : g2.Keeps Later) (hrep : g1.Repeats g2) (rd : Nat)
    (v : IncludeCVisitor ρ) (r : Option Obj) (w v2 : IncludeCVisitor ρ) (r2 : Option Obj)
    (w2 : IncludeCVisitor ρ)
    (h1 : GetRecordTypeFromDecl reg Context g1 rd v = some (r, w)) (hL : Later w v2)
    (h2 : GetRecordTypeFromDecl reg Context g2 rd v2 = some (r2, w2)) :
    w2.general = v2.general ∧ w2.tagged = v2.tagged := by
  rw [GetRecordTypeFromDecl_eq_some] at h1 h2
  rcases h2 with ⟨hs, w2', hc2, hx2⟩ | ⟨_, hx2⟩
  swap
  · cases hx2
    exact ⟨rfl, rfl⟩
  rcases h1 with ⟨_, w', hc1, hx1⟩ | ⟨hns, _⟩
  swap
  · rw [hs] at hns
    cases hns
  cases hx1
  cases hx2
  have hLI := Later_invariant hreg Context
  -- the first run, from the lookup on
  have hL1 : Later (GetRecordTypeFromDecl.lookup reg Context rd v).2 w :=
    GetRecordTypeFromDecl.complete_keeps hLI hk1 rd _ _ _ hc1
  -- what the second lookup finds
  have hfound : (recordNamespace (Context.getRecordDecl rd)).2 = "" ∨
      v2.thenamespace (recordNamespace (Context.getRecordDecl rd)).1
        (recordNamespace (Context.getRecordDecl rd)).2 =
          some (GetRecordTypeFromDecl.lookup reg Context rd v).1 := by
    by_cases hname : (recordNamespace (Context.getRecordDecl rd)).2 = ""
    · exact Or.inl hname
    · exact Or.inr (hL.1 _ _ _ (hL1.1 _ _ _
        (GetRecordTypeFromDecl.lookup_registered reg Context rd v hname)))
  have hnames : (GetRecordTypeFromDecl.lookup reg Context rd v2).2.general = v2.general ∧
      (GetRecordTypeFromDecl.lookup reg Context rd v2).2.tagged = v2.tagged :=
    GetRecordTypeFromDecl.lookup_names reg Context rd v2
      (hfound.imp id fun h => ⟨_, h⟩)
  have hL2 : Later v2 (GetRecordTypeFromDecl.lookup reg Context rd v2).2 := hLI.lookup rd v2
  rw [GetRecordTypeFromDecl.complete_eq_some] at hc2
  rcases hc2 with ⟨defn, hdef, hu2, ok2, es2, vf2, hf2, hw2⟩ | ⟨_, hw2⟩
  swap
  · rw [hw2]
    exact hnames
  -- the second run looks into the fields: so did the first
  rw [GetRecordTypeFromDecl.complete_eq_some] at hc1
  rcases hc1 with ⟨defn1, hdef1, hu1, ok1, es1, vf1, hf1, hw1⟩ | ⟨hno, hw1⟩
  · rw [hdef] at hdef1
    cases hdef1
    have hLf : Later vf1 w := by
      rw [hw1]
      exact GetRecordTypeFromDecl.attach_later _ _ _ _ _
    have hLc : Later (GetRecordTypeFromDecl.lookup reg Context rd v2).2
        ((GetRecordTypeFromDecl.lookup reg Context rd v2).1.setfields
          (fun s => { s with undefined := false })
          (GetRecordTypeFromDecl.lookup reg Context rd v2).2) := hLI.clear _ _ hu2
    have := GetFields_loop_repeats hreg Context hk1 hk2 hrep _ _ _ _ _ _ _ _ hf1
      _ _ _ _ _ _ _ (Later_trans hLf (Later_trans hL (Later_trans hL2 hLc))) hf2
    rw [hw2]
    obtain ⟨ha1, ha2⟩ := GetRecordTypeFromDecl.attach_general
      (Context.getRecordDecl rd).isUnion (GetRecordTypeFromDecl.lookup reg Context rd v2).1
      ok2 es2 vf2
    rw [ha1, ha2, this.1, this.2, Obj.setfields_general, Obj.setfields_tagged]
    exact hnames
  · exfalso
    rcases hno with hno | hno
    · rw [hdef] at hno
      cases hno
    · cases hv : v.thenamespace (recordNamespace (Context.getRecordDecl rd)).1
          (recordNamespace (Context.getRecordDecl rd)).2 with
      | some o =>
        -- found by the first lookup, found by the second
        have hl := GetRecordTypeFromDecl.lookup_of_some reg Context rd v o hv
        rw [hl] at hno hw1 hL1
        have hv2 := hL.1 _ _ _ (hL1.1 _ _ _ hv)
        have hl2 := GetRecordTypeFromDecl.lookup_of_some reg Context rd v2 o hv2
        rw [hl2] at hu2
        have := hL.undefined o (hL1.undefined o hno)
        rw [this] at hu2
        cases hu2
      | none =>
        rcases hfound with hname | hf
        · have := GetRecordTypeFromDecl.lookup_undefined hcre Context rd v hname hv
          rw [this] at hno
          cases hno
        · have hl2 := GetRecordTypeFromDecl.lookup_of_some reg Context rd v2 _ hf
          rw [hl2] at hu2
          have := hL.undefined _ (hL1.undefined _ hno)
          rw [this] at hu2
          cases hu2

theorem GetType.body_repeats {ρ : Type} {reg : Registry ρ} (hreg : reg.KeepsDefined)
    (hcre : reg.CreatesUndefined) {Context : ASTContext} {g1 g2 : TypeGetter ρ}
    (hk1 : g1.Keeps Later) (hk2 : g2.Keeps Later) (hrep : g1.Repeats g2) :
    TypeGetter.Repeats (GetType.body reg Context g1) (GetType.body reg Context g2) := by
  intro T v r w v2 r2 w2 h1 hL h2
  unfold GetType.body at h1 h2
  cases hsw : GetType.switch Context T.getCanonicalType with
  | record rd =>
    simp only [hsw] at h1 h2
    exact GetRecordTypeFromDecl_repeats hreg hcre hk1 hk2 hrep rd v r w v2 r2 w2 h1 hL h2
  | initType name =>
    simp only [hsw] at h2
    cases h2
    exact ⟨rfl, rfl⟩
  | element ETy make =>
    simp only [hsw] at h1 h2
    rw [GetType.wrap_eq_some] at h1 h2
    obtain ⟨t1, v1', hg1, hx1⟩ := h1
    obtain ⟨t2, v2', hg2, hx2⟩ := h2
    cases hx1
    cases hx2
    exact hrep _ _ _ _ _ _ _ hg1 hL hg2
  | funcType FT =>
    simp only [hsw] at h1 h2
    exact GetFuncType_repeats hreg Context hk1 hk2 hrep FT v r w v2 r2 w2 h1 hL h2
  | notUnderstood =>
    simp only [hsw, GetType.notUnderstood] at h2
    cases h2
    exact ⟨rfl, rfl⟩

/-- A type that `GetType` has translated is translated again, from any later
state and on any step budget, without a change to `general` or `tagged`. -/
theorem GetType_repeats {ρ : Type} {reg : Registry ρ} (hreg : reg.KeepsDefined)
    (hcre : reg.CreatesUndefined) (Context : ASTContext) :
    ∀ n1 n2, TypeGetter.Repeats (GetType reg Context n1) (GetType reg Context n2) := by
  intro n1
  induction n1 with
  | zero =>
    intro n2 T v r w v2 r2 w2 h1
    cases h1
  | succ n1 ih =>
    intro n2
    cases n2 with
    | zero =>
      intro T v r w v2 r2 w2 _ _ h2
      cases h2
    | succ n2 =>
      exact GetType.body_repeats hreg hcre
        (GetType_keeps (Later_invariant hreg Context) n1)
        (GetType_keeps (Later_invariant hreg Context) n2) (ih n2)


/-! ## A function declared twice -/

theorem CreateFunction_of_hasfield {ρ : Type} (name internalname : String) (typ : Obj)
    (v : IncludeCVisitor ρ) (h : v.general.hasfield name = true) :
    CreateFunction name internalname typ v = v := by
  simp [CreateFunction, h]

theorem CreateFunction_hasfield {ρ : Type} (name internalname : String) (typ : Obj)
    (v : IncludeCVisitor ρ) :
    (CreateFunction name internalname typ v).general.hasfield name = true := by
  unfold CreateFunction
  split
  · simp [Table.hasfield, Table.setfield]
  · rename_i hc
    simpa using hc

theorem CreateFunction_later {ρ : Type} (name internalname : String) (typ : Obj)
    (v : IncludeCVisitor ρ) : Later v (CreateFunction name internalname typ v) := by
  unfold CreateFunction
  split
  · rename_i hc
    have hnone : v.general name = none := by
      simpa [Table.hasfield] using hc
    refine ⟨fun ns name1 o ho => ?_, fun _ h => h⟩
    cases ns with
    | true => exact ho
    | false =>
      show (v.general.setfield name _) name1 = some o
      have ho1 : v.general name1 = some o := ho
      simp only [Table.setfield]
      split
      · rename_i heq
        rw [heq, hnone] at ho1
        cases ho1
      · exact ho1
  · exact Later_refl v

theorem foldl_max_le {α : Type} (f : α → Nat) (l : List α) (a : Nat) :
    a ≤ l.foldl (fun m p => max m (f p + 1)) a ∧
      ∀ p ∈ l, f p < l.foldl (fun m p => max m (f p + 1)) a := by
  induction l generalizing a with
  | nil => exact ⟨Nat.le_refl a, fun p hp => by cases hp⟩
  | cons q l ih =>
    simp only [List.foldl_cons]
    obtain ⟨h1, h2⟩ := ih (max a (f q + 1))
    refine ⟨le_trans (le_max_left _ _) h1, fun p hp => ?_⟩
    rcases List.mem_cons.mp hp with rfl | hp
    · exact lt_of_lt_of_le (lt_of_lt_of_le (Nat.lt_succ_self _) (le_max_right a _)) h1
    · exact h2 p hp

theorem HostRegistry.unused_le (L : LuaState HostRegistry) :
    ∀ p ∈ L.tables, p.1 < HostRegistry.unused L :=
  (foldl_max_le (fun p : Nat × CStruct => p.1) L.tables _).2

theorem HostRegistry.structs_unused (L : LuaState HostRegistry) :
    L.structs (HostRegistry.unused L) = CStruct.created := by
  unfold LuaState.structs
  have h : L.tables.lookup (HostRegistry.unused L) = none := by
    rw [List.lookup_eq_none_iff]
    intro p hp
    have := HostRegistry.unused_le L p hp
    simp only [bne_iff_ne, ne_eq]
    omega
  rw [h]

theorem HostRegistry_createsUndefined : HostRegistry.getorcreatecstruct.CreatesUndefined := by
  intro L tagged
  have h : (HostRegistry.getorcreatecstruct L "" tagged).1 = HostRegistry.unused L ∧
      (HostRegistry.getorcreatecstruct L "" tagged).2.tables = L.tables := by
    unfold HostRegistry.getorcreatecstruct
    simp
  have hs : (HostRegistry.getorcreatecstruct L "" tagged).2.structs (HostRegistry.unused L) =
      L.structs (HostRegistry.unused L) := by
    unfold LuaState.structs
    rw [h.2]
  rw [h.1, hs, HostRegistry.structs_unused]
  rfl


/-! ## What the traversal of the declarations keeps -/

theorem VisitEnumConstantDecl_foldl_state {ρ : Type} (constants : List EnumConstantDecl) :
    ∀ v : IncludeCVisitor ρ,
      (constants.foldl (fun v E => (VisitEnumConstantDecl E v).2) v).tagged = v.tagged ∧
      (constants.foldl (fun v E => (VisitEnumConstantDecl E v).2) v).L = v.L := by
  induction constants with
  | nil => intro v; exact ⟨rfl, rfl⟩
  | cons E l ih =>
    intro v
    simp only [List.foldl_cons]
    exact ih (VisitEnumConstantDecl E v).2

theorem CreateFunction_state {ρ : Type} (name internalname : String) (typ : Obj)
    (v : IncludeCVisitor ρ) :
    (CreateFunction name internalname typ v).tagged = v.tagged ∧
      (CreateFunction name internalname typ v).L = v.L := by
  unfold CreateFunction
  split <;> exact ⟨rfl, rfl⟩

/-- A relation that every step of a translation keeps, and that looks at
`tagged` and the Lua state only, holds across the traversal of one
declaration. -/
theorem TraverseDecl_keeps {ρ : Type} {reg : Registry ρ} {Context : ASTContext}
    {R : IncludeCVisitor ρ → IncludeCVisitor ρ → Prop} (hR : Invariant reg Context R)
    (hout : ∀ a b b1, R a b → b1.tagged = b.tagged → b1.L = b.L → R a b1)
    {isLinux : Bool} {n : Nat} {d : Decl} {v v' : IncludeCVisitor ρ}
    (h : TraverseDecl reg Context isLinux n d v = some v') : R v v' := by
  unfold TraverseDecl at h
  cases d with
  | TypedefDecl TD =>
    simp only [Option.map_eq_some'] at h
    obtain ⟨⟨b, x⟩, h, rfl⟩ := h
    obtain ⟨_, ⟨_, rfl⟩ | ⟨_, typ, w, hg, rfl⟩ | ⟨_, w, hg, rfl⟩⟩ := VisitTypedefDecl_cases h
    · exact hR.refl _
    · exact hout _ _ _ (GetType_keeps hR n _ v _ w hg) rfl rfl
    · exact hout _ _ _ (GetType_keeps hR n _ v _ w hg) rfl rfl
  | RecordDecl rd =>
    simp only [Option.map_eq_some'] at h
    obtain ⟨⟨b, x⟩, h, rfl⟩ := h
    obtain ⟨_, ⟨_, rfl⟩ | ⟨_, r, hg⟩⟩ := TraverseRecordDecl_cases h
    · exact hR.refl _
    · exact GetRecordTypeFromDecl_keeps hR (GetType_keeps hR n) rd v r x hg
  | EnumDecl constants =>
    cases h
    obtain ⟨h1, h2⟩ := VisitEnumConstantDecl_foldl_state constants v
    exact hout _ _ _ (hR.refl v) h1 h2
  | FunctionDecl f =>
    simp only [Option.map_eq_some'] at h
    obtain ⟨⟨b, x⟩, h, rfl⟩ := h
    obtain ⟨_, h | ⟨FT, hft, hst, rfl⟩ | ⟨FT, w, hft, hst, hg, rfl⟩ |
      ⟨FT, typ, w, hft, hst, hg, rfl⟩⟩ := TraverseFunctionDecl_cases h
    · rw [h.2]
      exact hR.refl _
    · exact hout _ _ _ (hR.refl v) rfl rfl
    · exact hout _ _ _ (GetFuncType_keeps hR (GetType_keeps hR n) FT v _ w hg) rfl rfl
    · obtain ⟨h1, h2⟩ := CreateFunction_state f.name
        (TraverseFunctionDecl.InternalName isLinux f) typ w
      exact hout _ _ _ (GetFuncType_keeps hR (GetType_keeps hR n) FT v _ w hg) h1 h2
  | Other =>
    cases h
    exact hR.refl _

/-- Such a relation holds across the traversal of a translation unit. -/
theorem HandleTopLevelDecl_keeps {ρ : Type} {reg : Registry ρ} {Context : ASTContext}
    {R : IncludeCVisitor ρ → IncludeCVisitor ρ → Prop} (hR : Invariant reg Context R)
    (hout : ∀ a b b1, R a b → b1.tagged = b.tagged → b1.L = b.L → R a b1)
    {isLinux : Bool} {n : Nat} (D : List Decl) :
    ∀ {v v' : IncludeCVisitor ρ}, HandleTopLevelDecl reg Context isLinux n D v = some v' →
      R v v' := by
  induction D with
  | nil =>
    intro v v' h
    cases h
    exact hR.refl _
  | cons d D ih =>
    intro v v' h
    simp only [HandleTopLevelDecl] at h
    cases hd : TraverseDecl reg Context isLinux n d v with
    | none => rw [hd] at h; cases h
    | some v1 =>
      rw [hd] at h
      exact hR.trans (TraverseDecl_keeps hR hout hd) (ih h)

theorem TaggedKept_invariant {ρ : Type} (reg : Registry ρ) (Context : ASTContext) :
    Invariant reg Context (TaggedKept (ρ := ρ)) where
  refl := fun _ _ _ h => h
  trans := fun h1 h2 name o h => h2 name o (h1 name o h)
  importError := fun _ _ _ _ h => h
  lookup := fun rd v name o h =>
    (GetRecordTypeFromDecl.lookup_frame reg Context rd v).kept true name o h
  clear := fun v tt _ name o h => by
    rw [Obj.setfields_tagged]
    exact h
  attach := fun _ tt v f _ h _ name o ho => by
    rw [Obj.setfields_tagged]
    exact h name o ho

theorem TaggedKept_outside {ρ : Type} (a b b1 : IncludeCVisitor ρ) (h : TaggedKept a b)
    (ht : b1.tagged = b.tagged) (_ : b1.L = b.L) : TaggedKept a b1 := by
  intro name o ho
  rw [ht]
  exact h name o ho

/-- A record that has a tag is under its tag in `tagged` once it has been
resolved. -/
theorem GetRecordTypeFromDecl_tagged {ρ : Type} {reg : Registry ρ} {Context : ASTContext}
    {g : TypeGetter ρ} (hg : g.Keeps TaggedKept) {rd : Nat} {v : IncludeCVisitor ρ} {tt : Obj}
    {w : IncludeCVisitor ρ} (hname : (Context.getRecordDecl rd).name ≠ "")
    (h : GetRecordTypeFromDecl reg Context g rd v = some (some tt, w)) :
    w.tagged (Context.getRecordDecl rd).name = some tt := by
  rw [GetRecordTypeFromDecl_eq_some] at h
  rcases h with ⟨_, w', hc, hx⟩ | ⟨_, hx⟩
  · cases hx
    have hns := recordNamespace_of_tag hname
    have h1 := GetRecordTypeFromDecl.lookup_registered reg Context rd v (by rw [hns]; exact hname)
    rw [hns] at h1
    exact GetRecordTypeFromDecl.complete_keeps (TaggedKept_invariant reg Context) hg rd _ _ _ hc
      _ _ h1
  · cases hx

/-- A tagged struct or union declared at the top level is under its tag in
`tagged` at the end of the traversal. -/
theorem HandleTopLevelDecl_top_record {ρ : Type} {reg : Registry ρ} {Context : ASTContext}
    {isLinux : Bool} {n : Nat} {rd : Nat}
    (hat : (Context.getRecordDecl rd).atTranslationUnit = true)
    (hs : ((Context.getRecordDecl rd).isStruct || (Context.getRecordDecl rd).isUnion) = true)
    (hname : (Context.getRecordDecl rd).name ≠ "") (D : List Decl) :
    ∀ {v v' : IncludeCVisitor ρ}, Decl.RecordDecl rd ∈ D →
      HandleTopLevelDecl reg Context isLinux n D v = some v' →
      ∃ o, v'.tagged (Context.getRecordDecl rd).name = some o := by
  induction D with
  | nil => intro v v' hm; cases hm
  | cons d D ih =>
    intro v v' hm h
    simp only [HandleTopLevelDecl] at h
    cases hd : TraverseDecl reg Context isLinux n d v with
    | none => rw [hd] at h; cases h
    | some v1 =>
      rw [hd] at h
      rcases List.mem_cons.mp hm with rfl | hm
      · simp only [TraverseDecl, Option.map_eq_some'] at hd
        obtain ⟨⟨b, x⟩, hd, rfl⟩ := hd
        obtain ⟨_, ⟨hno, _⟩ | ⟨_, r, hg⟩⟩ := TraverseRecordDecl_cases hd
        · rw [hat] at hno
          cases hno
        · have hr : ∃ tt, r = some tt := by
            rw [GetRecordTypeFromDecl_eq_some] at hg
            rcases hg with ⟨_, w', _, hx⟩ | ⟨hns, _⟩
            · cases hx
              exact ⟨_, rfl⟩
            · rw [hs] at hns
              cases hns
          obtain ⟨tt, rfl⟩ := hr
          have h1 := GetRecordTypeFromDecl_tagged
            (GetType_keeps (TaggedKept_invariant reg Context) n) hname hg
          exact ⟨tt, HandleTopLevelDecl_keeps (TaggedKept_invariant reg Context)
            TaggedKept_outside D h _ _ h1⟩
      · exact ih hm h

/-- A loop of `GetFuncType` that ends valid was valid at the start, and every
parameter type was translated, in order, onto the list. -/
theorem GetFuncType_loop_valid {ρ : Type} (g : TypeGetter ρ) :
    ∀ (params : List QualType) (valid : Bool) (parameters : List Obj)
      (v : IncludeCVisitor ρ) ps v',
      GetFuncType.loop g params valid parameters v = some (true, ps, v') →
      valid = true ∧ ∃ ps1, TranslatedInOrder g params v ps1 v' ∧ ps = parameters ++ ps1 := by
  intro params
  induction params with
  | nil =>
    intro valid parameters v ps v' h
    simp only [GetFuncType.loop, Option.some.injEq, Prod.mk.injEq] at h
    obtain ⟨h1, h2, h3⟩ := h
    exact ⟨h1, [], ⟨rfl, h3.symm⟩, by simp [h2]⟩
  | cons PT rest ih =>
    intro valid parameters v ps v' h
    simp only [GetFuncType.loop] at h
    cases hgt : g PT v with
    | none => simp [hgt] at h
    | some y =>
      rw [hgt] at h
      rcases y with ⟨_ | pt, v1⟩
      · obtain ⟨hf, _⟩ := ih _ _ _ _ _ h
        cases hf
      · obtain ⟨hv, ps1, hch, hps⟩ := ih _ _ _ _ _ h
        subst hv
        simp only [if_true] at hps
        refine ⟨rfl, pt :: ps1, ⟨pt, v1, ps1, hgt, hch, rfl⟩, ?_⟩
        rw [hps, List.append_assoc]
        rfl

theorem TranslatedInOrder_length {ρ : Type} (g : TypeGetter ρ) :
    ∀ (params : List QualType) (v : IncludeCVisitor ρ) ps v',
      TranslatedInOrder g params v ps v' → ps.length = params.length := by
  intro params
  induction params with
  | nil =>
    intro v ps v' h
    rw [h.1]
    rfl
  | cons PT rest ih =>
    intro v ps v' h
    obtain ⟨pt, v1, ps1, _, hch, rfl⟩ := h
    simp [ih _ _ _ hch]

/-- The descriptor that `GetFuncType` returns. -/
theorem GetFuncType_result_some {ρ : Type} (g : TypeGetter ρ) (FT : FunctionType)
    (v : IncludeCVisitor ρ) (typ : Obj) (v' : IncludeCVisitor ρ)
    (h : GetFuncType g FT v = some (some typ, v')) :
    ∃ ret v1 ps,
      (FT.returnType.isVoidType = true → ret = Obj.typefield "unit" ∧ v1 = v) ∧
      (FT.returnType.isVoidType = false → g FT.returnType v = some (some ret, v1)) ∧
      TranslatedInOrder g FT.paramTypes v1 ps v' ∧
      typ = Obj.functype ps ret FT.isVariadic := by
  rw [GetFuncType_eq_some] at h
  obtain ⟨rt, v1, valid, ps, v2, hrt, hl, hx⟩ := h
  simp only [Prod.mk.injEq] at hx
  obtain ⟨hres, rfl⟩ := hx
  cases valid with
  | false => simp [GetFuncType.result] at hres
  | true =>
    cases rt with
    | none => simp [GetFuncType.result] at hres
    | some ret =>
      simp only [GetFuncType.result, Option.some.injEq] at hres
      obtain ⟨_, ps1, hch, hps⟩ := GetFuncType_loop_valid g _ _ _ _ _ _ hl
      simp only [List.nil_append] at hps
      subst hps
      rw [GetFuncType.returntype_eq_some] at hrt
      refine ⟨ret, v1, ps, ?_, ?_, hch, hres⟩
      · intro hv
        rcases hrt with ⟨_, hx⟩ | ⟨hnv, _⟩
        · cases hx
          exact ⟨rfl, rfl⟩
        · rw [hv] at hnv
          cases hnv
      · intro hv
        rcases hrt with ⟨hv', _⟩ | ⟨_, hg⟩
        · rw [hv] at hv'
          cases hv'
        · exact hg

/-! ## What a translation adds to `general` -/

/-- The lookup of a record's handle changes `general` only under the typedef
name of a record that has no tag. -/
theorem GetRecordTypeFromDecl.lookup_general {ρ : Type} (reg : Registry ρ)
    (Context : ASTContext) (rd : Nat) (v : IncludeCVisitor ρ) (name : String)
    (hname : recordNamespace (Context.getRecordDecl rd) ≠ (false, name)) :
    (GetRecordTypeFromDecl.lookup reg Context rd v).2.general name = v.general name := by
  cases hns : (recordNamespace (Context.getRecordDecl rd)).1 with
  | true =>
    have := GetRecordTypeFromDecl.lookup_other reg Context rd v false
      (Or.inl (by rw [hns]; decide))
    exact congrFun this name
  | false =>
    have hne : name ≠ (recordNamespace (Context.getRecordDecl rd)).2 := by
      intro h
      apply hname
      rw [h, ← hns]
    rcases (GetRecordTypeFromDecl.lookup_frame reg Context rd v) with ⟨_, _, _, _, hkept, _⟩
    cases hv : v.thenamespace (recordNamespace (Context.getRecordDecl rd)).1
        (recordNamespace (Context.getRecordDecl rd)).2 with
    | some o =>
      rw [GetRecordTypeFromDecl.lookup_of_some reg Context rd v o hv]
    | none =>
      have hl : GetRecordTypeFromDecl.lookup reg Context rd v =
          GetRecordTypeFromDecl.create reg rd (recordNamespace (Context.getRecordDecl rd)).1
            (recordNamespace (Context.getRecordDecl rd)).2 v := by
        unfold GetRecordTypeFromDecl.lookup
        simp only [hv]
      rw [hl]
      have hreg : ∀ (h : Nat) (x : IncludeCVisitor ρ),
          (GetRecordTypeFromDecl.register rd h x).general = x.general := by
        intro h x
        unfold GetRecordTypeFromDecl.register
        split <;> rfl
      simp only [GetRecordTypeFromDecl.create]
      split
      · have := thenamespace_setnamespace
          (GetRecordTypeFromDecl.register rd
            (reg v.L (recordNamespace (Context.getRecordDecl rd)).2
              (recordNamespace (Context.getRecordDecl rd)).1).1
            { v with L := (reg v.L (recordNamespace (Context.getRecordDecl rd)).2
              (recordNamespace (Context.getRecordDecl rd)).1).2 })
          (recordNamespace (Context.getRecordDecl rd)).1 false
          (recordNamespace (Context.getRecordDecl rd)).2 name
          (Obj.cstruct (reg v.L (recordNamespace (Context.getRecordDecl rd)).2
              (recordNamespace (Context.getRecordDecl rd)).1).1)
        simp only [hne, and_false, if_false] at this
        exact this.trans (congrFun (hreg _ _) name)
      · exact congrFun (hreg _ _) name

/-- A translation leaves `general` alone under a name that is not the
typedef name of a record without a tag. -/
theorem GeneralAt_invariant {ρ : Type} (reg : Registry ρ) (Context : ASTContext)
    (name : String)
    (hname : ∀ rd, recordNamespace (Context.getRecordDecl rd) ≠ (false, name)) :
    Invariant reg Context
      (fun (a b : IncludeCVisitor ρ) => b.general name = a.general name) where
  refl := fun _ => rfl
  trans := fun h1 h2 => h2.trans h1
  importError := fun _ _ => rfl
  lookup := fun rd v => GetRecordTypeFromDecl.lookup_general reg Context rd v name (hname rd)
  clear := fun v tt _ => by rw [Obj.setfields_general]
  attach := fun _ tt v f _ h _ => by
    rw [Obj.setfields_general]
    exact h

/-! ## Relations kept by the steps on a handle taken together -/

theorem GetFields_loop_steps {ρ : Type} {reg : Registry ρ} {Context : ASTContext}
    {R : IncludeCVisitor ρ → IncludeCVisitor ρ → Prop} (hR : StepInvariant reg Context R)
    {g : TypeGetter ρ} (hg : g.Keeps R) :
    ∀ (fields : List FieldDecl) (opaq : Bool) (anonname : Nat) (entries : List Entry)
      (v : IncludeCVisitor ρ) ok es v',
      GetFields.loop g fields opaq anonname entries v = some (ok, es, v') → R v v' := by
  intro fields
  induction fields with
  | nil =>
    intro opaq anonname entries v ok es v' h
    simp only [GetFields.loop, Option.some.injEq, Prod.mk.injEq] at h
    rw [← h.2.2]
    exact hR.refl v
  | cons it rest ih =>
    intro opaq anonname entries v ok es v' h
    simp only [GetFields.loop] at h
    split at h
    · exact ih _ _ _ _ _ _ _ h
    · cases hgt : g it.type v with
      | none => simp [hgt] at h
      | some y =>
        rw [hgt] at h
        rcases y with ⟨_ | fobj, v1⟩
        · exact hR.trans (hg _ _ _ _ hgt) (ih _ _ _ _ _ _ _ h)
        · exact hR.trans (hg _ _ _ _ hgt) (ih _ _ _ _ _ _ _ h)

theorem GetFuncType_loop_steps {ρ : Type} {reg : Registry ρ} {Context : ASTContext}
    {R : IncludeCVisitor ρ → IncludeCVisitor ρ → Prop} (hR : StepInvariant reg Context R)
    {g : TypeGetter ρ} (hg : g.Keeps R) :
    ∀ (params : List QualType) (valid : Bool) (parameters : List Obj)
      (v : IncludeCVisitor ρ) ok ps v',
      GetFuncType.loop g params valid parameters v = some (ok, ps, v') → R v v' := by
  intro params
  induction params with
  | nil =>
    intro valid parameters v ok ps v' h
    simp only [GetFuncType.loop, Option.some.injEq, Prod.mk.injEq] at h
    rw [← h.2.2]
    exact hR.refl v
  | cons PT rest ih =>
    intro valid parameters v ok ps v' h
    simp only [GetFuncType.loop] at h
    cases hgt : g PT v with
    | none => simp [hgt] at h
    | some y =>
      rw [hgt] at h
      rcases y with ⟨_ | pt, v1⟩
      · exact hR.trans (hg _ _ _ _ hgt) (ih _ _ _ _ _ _ h)
      · exact hR.trans (hg _ _ _ _ hgt) (ih _ _ _ _ _ _ h)

theorem GetFuncType_steps {ρ : Type} {reg : Registry ρ} {Context : ASTContext}
    {R : IncludeCVisitor ρ → IncludeCVisitor ρ → Prop} (hR : StepInvariant reg Context R)
    {g : TypeGetter ρ} (hg : g.Keeps R) (f : FunctionType) (v : IncludeCVisitor ρ)
    (r : Option Obj) (v' : IncludeCVisitor ρ) (h : GetFuncType g f v = some (r, v')) :
    R v v' := by
  rw [GetFuncType_eq_some] at h
  obtain ⟨returntype, v1, valid, parameters, v2, h1, h2, h3⟩ := h
  have h12 := GetFuncType_loop_steps hR hg _ _ _ _ _ _ _ h2
  rw [GetFuncType.returntype_eq_some] at h1
  cases h3
  rcases h1 with ⟨_, h1⟩ | ⟨_, h1⟩
  · cases h1
    exact h12
  · exact hR.trans (hg _ _ _ _ h1) h12

theorem GetRecordTypeFromDecl.complete_steps {ρ : Type} {reg : Registry ρ}
    {Context : ASTContext} {R : IncludeCVisitor ρ → IncludeCVisitor ρ → Prop}
    (hR : StepInvariant reg Context R) {g : TypeGetter ρ} (hg : g.Keeps R) (rd : Nat) (tt : Obj)
    (v v' : IncludeCVisitor ρ)
    (h : GetRecordTypeFromDecl.complete Context g rd tt v = some v') : R v v' := by
  rw [GetRecordTypeFromDecl.complete_eq_some] at h
  rcases h with ⟨defn, _, hu, ok, entries, v2, hf, hv⟩ | ⟨_, hv⟩
  · rw [hv]
    exact hR.completed v tt _ ok entries v2 hu (GetFields_loop_steps hR hg _ _ _ _ _ _ _ _ hf)
  · rw [hv]
    exact hR.refl v

theorem GetRecordTypeFromDecl_steps {ρ : Type} {reg : Registry ρ} {Context : ASTContext}
    {R : IncludeCVisitor ρ → IncludeCVisitor ρ → Prop} (hR : StepInvariant reg Context R)
    {g : TypeGetter ρ} (hg : g.Keeps R) (rd : Nat) (v : IncludeCVisitor ρ)
    (r : Option Obj) (v' : IncludeCVisitor ρ)
    (h : GetRecordTypeFromDecl reg Context g rd v = some (r, v')) : R v v' := by
  rw [GetRecordTypeFromDecl_eq_some] at h
  rcases h with ⟨_, v1, hc, hx⟩ | ⟨_, hx⟩
  · cases hx
    exact hR.trans (hR.lookup rd v) (GetRecordTypeFromDecl.complete_steps hR hg _ _ _ _ hc)
  · cases hx
    exact hR.importError _ _

theorem GetType.body_steps {ρ : Type} {reg : Registry ρ} {Context : ASTContext}
    {R : IncludeCVisitor ρ → IncludeCVisitor ρ → Prop} (hR : StepInvariant reg Context R)
    {g : TypeGetter ρ} (hg : g.Keeps R) : TypeGetter.Keeps (GetType.body reg Context g) R := by
  intro T v r v' h
  unfold GetType.body at h
  cases hs : GetType.switch Context T.getCanonicalType with
  | record rd =>
    rw [hs] at h
    exact GetRecordTypeFromDecl_steps hR hg rd v r v' h
  | initType name =>
    rw [hs] at h
    cases h
    exact hR.refl v
  | element ETy make =>
    rw [hs] at h
    simp only [GetType.wrap_eq_some] at h
    obtain ⟨t, v1, h1, h2⟩ := h
    cases h2
    exact hg _ _ _ _ h1
  | funcType FT =>
    rw [hs] at h
    exact GetFuncType_steps hR hg FT v r v' h
  | notUnderstood =>
    rw [hs] at h
    simp only [GetType.notUnderstood, Option.some.injEq, Prod.mk.injEq] at h
    rw [← h.2]
    exact hR.importError _ _

/-- A relation that the steps keep holds between the state before and the
state after `GetType`. -/
theorem GetType_steps {ρ : Type} {reg : Registry ρ} {Context : ASTContext}
    {R : IncludeCVisitor ρ → IncludeCVisitor ρ → Prop} (hR : StepInvariant reg Context R)
    (n : Nat) : TypeGetter.Keeps (GetType reg Context n) R := by
  induction n with
  | zero => intro T v r v' h; simp [GetType] at h
  | succ n ih => exact GetType.body_steps hR ih

/-- Such a relation, when it looks at `tagged` and the Lua state only, holds
across the traversal of one declaration. -/
theorem TraverseDecl_steps {ρ : Type} {reg : Registry ρ} {Context : ASTContext}
    {R : IncludeCVisitor ρ → IncludeCVisitor ρ → Prop} (hR : StepInvariant reg Context R)
    (hout : ∀ a b b1, R a b → b1.tagged = b.tagged → b1.L = b.L → R a b1)
    {isLinux : Bool} {n : Nat} {d : Decl} {v v' : IncludeCVisitor ρ}
    (h : TraverseDecl reg Context isLinux n d v = some v') : R v v' := by
  unfold TraverseDecl at h
  cases d with
  | TypedefDecl TD =>
    simp only [Option.map_eq_some'] at h
    obtain ⟨⟨b, x⟩, h, rfl⟩ := h
    obtain ⟨_, ⟨_, rfl⟩ | ⟨_, typ, w, hg, rfl⟩ | ⟨_, w, hg, rfl⟩⟩ := VisitTypedefDecl_cases h
    · exact hR.refl _
    · exact hout _ _ _ (GetType_steps hR n _ v _ w hg) rfl rfl
    · exact hout _ _ _ (GetType_steps hR n _ v _ w hg) rfl rfl
  | RecordDecl rd =>
    simp only [Option.map_eq_some'] at h
    obtain ⟨⟨b, x⟩, h, rfl⟩ := h
    obtain ⟨_, ⟨_, rfl⟩ | ⟨_, r, hg⟩⟩ := TraverseRecordDecl_cases h
    · exact hR.refl _
    · exact GetRecordTypeFromDecl_steps hR (GetType_steps hR n) rd v r x hg
  | EnumDecl constants =>
    cases h
    obtain ⟨h1, h2⟩ := VisitEnumConstantDecl_foldl_state constants v
    exact hout _ _ _ (hR.refl v) h1 h2
  | FunctionDecl f =>
    simp only [Option.map_eq_some'] at h
    obtain ⟨⟨b, x⟩, h, rfl⟩ := h
    obtain ⟨_, h | ⟨FT, hft, hst, rfl⟩ | ⟨FT, w, hft, hst, hg, rfl⟩ |
      ⟨FT, typ, w, hft, hst, hg, rfl⟩⟩ := TraverseFunctionDecl_cases h
    · rw [h.2]
      exact hR.refl _
    · exact hout _ _ _ (hR.refl v) rfl rfl
    · exact hout _ _ _ (GetFuncType_steps hR (GetType_steps hR n) FT v _ w hg) rfl rfl
    · obtain ⟨h1, h2⟩ := CreateFunction_state f.name
        (TraverseFunctionDecl.InternalName isLinux f) typ w
      exact hout _ _ _ (GetFuncType_steps hR (GetType_steps hR n) FT v _ w hg) h1 h2
  | Other =>
    cases h
    exact hR.refl _

theorem HandleTopLevelDecl_steps {ρ : Type} {reg : Registry ρ} {Context : ASTContext}
    {R : IncludeCVisitor ρ → IncludeCVisitor ρ → Prop} (hR : StepInvariant reg Context R)
    (hout : ∀ a b b1, R a b → b1.tagged = b.tagged → b1.L = b.L → R a b1)
    {isLinux : Bool} {n : Nat} (D : List Decl) :
    ∀ {v v' : IncludeCVisitor ρ}, HandleTopLevelDecl reg Context isLinux n D v = some v' →
      R v v' := by
  induction D with
  | nil =>
    intro v v' h
    cases h
    exact hR.refl _
  | cons d D ih =>
    intro v v' h
    simp only [HandleTopLevelDecl] at h
    cases hd : TraverseDecl reg Context isLinux n d v with
    | none => rw [hd] at h; cases h
    | some v1 =>
      rw [hd] at h
      exact hR.trans (TraverseDecl_steps hR hout hd) (ih h)

/-! ## The calls of `complete` -/

theorem CompletedOnce_of_eq {ρ : Type} {a b : IncludeCVisitor ρ} (h : b.L = a.L) :
    CompletedOnce a b := by
  refine ⟨Settles_of_eq h, fun x => Or.inl ?_⟩
  rw [h]

theorem CompletedOnce_trans {ρ : Type} {a b c : IncludeCVisitor ρ} (h1 : CompletedOnce a b)
    (h2 : CompletedOnce b c) : CompletedOnce a c := by
  refine ⟨Settles_trans h1.1 h2.1, fun h => ?_⟩
  rcases h1.2 h with hab | ⟨hab, hua, hub, hat⟩
  · rcases h2.2 h with hbc | ⟨hbc, hub, huc, hat⟩
    · exact Or.inl (hbc.trans hab)
    · refine Or.inr ⟨by rw [hbc, hab], ?_, huc, hat⟩
      cases hua : (a.L.structs h).undefined with
      | true => rfl
      | false =>
        rw [(h1.1 h hua).1] at hub
        cases hub
  · obtain ⟨huc, hec, hcc⟩ := h2.1 h hub
    exact Or.inr ⟨by rw [hcc, hab], hua, huc, by rw [hec]; exact hat⟩

/-- The lookup of a record's handle leaves every count of calls of
`complete` as it is. -/
theorem GetRecordTypeFromDecl.lookup_complete {ρ : Type} {reg : Registry ρ}
    (hnc : reg.NeverCompletes) (Context : ASTContext) (rd : Nat) (v : IncludeCVisitor ρ)
    (h : Nat) :
    ((GetRecordTypeFromDecl.lookup reg Context rd v).2.L.structs h).complete =
      (v.L.structs h).complete := by
  cases hv : v.thenamespace (recordNamespace (Context.getRecordDecl rd)).1
      (recordNamespace (Context.getRecordDecl rd)).2 with
  | some o => rw [GetRecordTypeFromDecl.lookup_of_some reg Context rd v o hv]
  | none =>
    have hl : GetRecordTypeFromDecl.lookup reg Context rd v =
        GetRecordTypeFromDecl.create reg rd (recordNamespace (Context.getRecordDecl rd)).1
          (recordNamespace (Context.getRecordDecl rd)).2 v := by
      unfold GetRecordTypeFromDecl.lookup
      simp only [hv]
    rw [hl]
    have hreg : ∀ (h' : Nat) (x : IncludeCVisitor ρ),
        ((GetRecordTypeFromDecl.register rd h' x).L.structs h).complete =
          (x.L.structs h).complete := by
      intro h' x
      unfold GetRecordTypeFromDecl.register
      split
      · rfl
      · simp only [RegisterRecordType, structs_modify]
        split
        · rename_i heq
          rw [heq]
        · rfl
    simp only [GetRecordTypeFromDecl.create]
    split
    · rw [setnamespace_L, hreg]
      exact hnc _ _ _ _
    · rw [hreg]
      exact hnc _ _ _ _

theorem CompletedOnce_stepInvariant {ρ : Type} {reg : Registry ρ} (hreg : reg.KeepsDefined)
    (hnc : reg.NeverCompletes) (Context : ASTContext) :
    StepInvariant reg Context (CompletedOnce (ρ := ρ)) where
  refl := fun _ => CompletedOnce_of_eq rfl
  trans := CompletedOnce_trans
  importError := fun _ _ => CompletedOnce_of_eq rfl
  lookup := fun rd v =>
    ⟨GetRecordTypeFromDecl.lookup_settles hreg Context rd v,
      fun h => Or.inl (GetRecordTypeFromDecl.lookup_complete hnc Context rd v h)⟩
  completed := by
    intro v tt isUnion ok entries vf hu hR
    cases tt with
    | cstruct h0 =>
      have hu0 : (v.L.structs h0).undefined = true := hu
      -- the handle between the clearing of the flag and the attachment
      have hcl := hR.1 h0 (by simp [Obj.setfields, structs_modify])
      simp only [Obj.setfields, structs_modify, if_true] at hcl
      obtain ⟨hfu, hfe, hfc⟩ := hcl
      have hother : ∀ h, h ≠ h0 →
          ((Obj.setfields (Obj.cstruct h0) (fun s => { s with undefined := false }) v).L.structs
            h) = v.L.structs h := by
        intro h hne
        simp [Obj.setfields, structs_modify, hne]
      constructor
      · -- settled handles
        intro h hs
        have hne : h ≠ h0 := by
          intro he
          rw [he, hu0] at hs
          cases hs
        have h1 := hR.1 h (by rw [hother h hne]; exact hs)
        rw [hother h hne] at h1
        have h2 : ((GetRecordTypeFromDecl.attach isUnion (Obj.cstruct h0) ok entries vf).L.structs
            h) = vf.L.structs h := by
          unfold GetRecordTypeFromDecl.attach
          cases ok <;> cases isUnion <;> simp [Obj.setfields, structs_modify, hne]
        rw [h2]
        exact h1
      · intro h
        by_cases hne : h = h0
        · subst hne
          cases ok with
          | false =>
            left
            rw [GetRecordTypeFromDecl.attach_false]
            exact hfc
          | true =>
            right
            refine ⟨?_, hu0, ?_, ?_⟩
            · unfold GetRecordTypeFromDecl.attach
              cases isUnion <;> simp [Obj.setfields, structs_modify, hfc]
            · unfold GetRecordTypeFromDecl.attach
              cases isUnion <;> simp [Obj.setfields, structs_modify, hfu]
            · unfold GetRecordTypeFromDecl.attach
              cases isUnion with
              | false =>
                exact ⟨entries, Or.inl (by simp [Obj.setfields, structs_modify])⟩
              | true =>
                exact ⟨entries, Or.inr ⟨(vf.L.structs h).entries,
                  by simp [Obj.setfields, structs_modify]⟩⟩
        · have h2 : ((GetRecordTypeFromDecl.attach isUnion (Obj.cstruct h0) ok entries
              vf).L.structs h) = vf.L.structs h := by
            unfold GetRecordTypeFromDecl.attach
            cases ok <;> cases isUnion <;> simp [Obj.setfields, structs_modify, hne]
          rw [h2]
          have := hR.2 h
          rw [hother h hne] at this
          exact this
    | _ => cases hu

theorem CompletedOnce_outside {ρ : Type} (a b b1 : IncludeCVisitor ρ) (h : CompletedOnce a b)
    (_ : b1.tagged = b.tagged) (hL : b1.L = b.L) : CompletedOnce a b1 :=
  CompletedOnce_trans h (CompletedOnce_of_eq hL)

theorem HostRegistry_neverCompletes : HostRegistry.getorcreatecstruct.NeverCompletes := by
  intro L name tagged h
  unfold HostRegistry.getorcreatecstruct
  split <;> rfl

theorem ResolvedBy_completedOnce {ρ : Type} {reg : Registry ρ} (hreg : reg.KeepsDefined)
    (hnc : reg.NeverCompletes) (Context : ASTContext) {v b : IncludeCVisitor ρ}
    (h : ResolvedBy reg Context v b) : CompletedOnce v b := by
  induction h with
  | done v => exact CompletedOnce_of_eq rfl
  | call fuel rd r hc _ ih =>
    exact CompletedOnce_trans
      (GetRecordTypeFromDecl_steps (CompletedOnce_stepInvariant hreg hnc Context)
        (GetType_steps (CompletedOnce_stepInvariant hreg hnc Context) fuel) rd _ r _ hc) ih

/-- A record with an unsupported field: `complete` is not called on its
handle. -/
theorem GetRecordTypeFromDecl_rejected {ρ : Type} {reg : Registry ρ} (hreg : reg.KeepsDefined)
    (hnc : reg.NeverCompletes) {Context : ASTContext} {n rd : Nat} {v : IncludeCVisitor ρ}
    {r : Option Obj} {w : IncludeCVisitor ρ} {defn : List FieldDecl} {h : Nat}
    (hg : GetRecordTypeFromDecl reg Context (GetType reg Context n) rd v = some (r, w))
    (hdef : (Context.getRecordDecl rd).definition = some defn)
    (hbad : ∃ it ∈ defn, it.Unsupported Context)
    (hh : (GetRecordTypeFromDecl.lookup reg Context rd v).1 = Obj.cstruct h) :
    (w.L.structs h).complete = (v.L.structs h).complete := by
  rw [GetRecordTypeFromDecl_eq_some] at hg
  rcases hg with ⟨_, w', hc, hx⟩ | ⟨_, hx⟩
  · cases hx
    rw [← GetRecordTypeFromDecl.lookup_complete hnc Context rd v h]
    rw [GetRecordTypeFromDecl.complete_eq_some] at hc
    rcases hc with ⟨defn', hd', hu, ok, entries, v2, hf, hv⟩ | ⟨_, hv⟩
    · rw [hdef] at hd'
      cases hd'
      have hok : ok = false := by
        cases hok : ok with
        | false => rfl
        | true =>
          exfalso
          have := (GetFields_loop_decides (GetType_decides reg Context n) _ _ _ _ _ _ _ _ hf).mp hok
          obtain ⟨it, hit, hun⟩ := hbad
          exact this.2 it hit hun
      rw [hok, GetRecordTypeFromDecl.attach_false] at hv
      subst hv
      have hS := GetFields_loop_keeps (Settles_invariant hreg Context)
        (GetType_keeps (Settles_invariant hreg Context) n) _ _ _ _ _ _ _ _ hf
      rw [hh] at hS hu
      have hcl := hS h (by simp [Obj.setfields, structs_modify])
      simp only [Obj.setfields, structs_modify, if_true] at hcl
      exact hcl.2.2
    · rw [hv]
  · cases hx
    rfl

/-! ## The message of a function that is not imported -/

/-- When the last parameter type makes the getter fail with the message
`msg`, the loop of `GetFuncType` ends invalid with that message, whatever
happened before. -/
theorem GetFuncType_loop_last {ρ : Type} (g : TypeGetter ρ) (PT : QualType) (msg : String)
    (hPT : ∀ x, g PT x = some (none, ImportError msg x)) :
    ∀ (before : List QualType) (valid : Bool) (parameters : List Obj) (v : IncludeCVisitor ρ)
      ok ps w,
      GetFuncType.loop g (before ++ [PT]) valid parameters v = some (ok, ps, w) →
      ok = false ∧ w.error_message = msg := by
  intro before
  induction before with
  | nil =>
    intro valid parameters v ok ps w h
    simp only [List.nil_append, GetFuncType.loop, hPT, Option.some.injEq, Prod.mk.injEq] at h
    obtain ⟨h1, _, h3⟩ := h
    exact ⟨h1.symm, by rw [← h3]; rfl⟩
  | cons QT rest ih =>
    intro valid parameters v ok ps w h
    simp only [List.cons_append, GetFuncType.loop] at h
    cases hgt : g QT v with
    | none => simp [hgt] at h
    | some y =>
      rw [hgt] at h
      rcases y with ⟨_ | pt, v1⟩
      · exact ih _ _ _ _ _ _ h
      · exact ih _ _ _ _ _ _ h

/-- The statements the traversal of a translation unit adds. -/
theorem HandleTopLevelDecl_statementsOf {ρ : Type} {reg : Registry ρ} {Context : ASTContext}
    {isLinux : Bool} {n : Nat} (D : List Decl) :
    ∀ {v v' : IncludeCVisitor ρ}, HandleTopLevelDecl reg Context isLinux n D v = some v' →
      ∃ added, v'.outputstmts = v.outputstmts ++ added ∧ StatementsOf Context D added := by
  induction D with
  | nil =>
    intro v v' h
    cases h
    exact ⟨[], by simp, StatementsOf.nil⟩
  | cons d D ih =>
    intro v v' h
    simp only [HandleTopLevelDecl] at h
    cases hd : TraverseDecl reg Context isLinux n d v with
    | none => rw [hd] at h; cases h
    | some v1 =>
      rw [hd] at h
      obtain ⟨added, hadd, hst⟩ := ih h
      obtain ⟨_, ⟨hna, hs⟩ | ⟨f, rfl, hacc, hs, _⟩⟩ := TraverseDecl_step hd
      · exact ⟨added, by rw [hadd, hs], StatementsOf.other hna hst⟩
      · exact ⟨livenessStmt f :: added, by rw [hadd, hs, List.append_assoc]; rfl,
          StatementsOf.accepted hacc hst⟩

theorem StatementsOf_length_le {Context : ASTContext} {D : List Decl} {s : List Expr}
    (h : StatementsOf Context D s) : s.length ≤ D.length := by
  induction h with
  | nil => exact Nat.le_refl _
  | accepted _ _ ih => simp only [List.length_cons]; omega
  | other _ _ ih => simp only [List.length_cons]; omega

/-! ## The entries of a record -/

/-- When no field is skipped and every field type translates, the loop of
`GetFields` adds one entry for each field, in order, and leaves `opaque` as
it was. -/
theorem GetFields_loop_all {ρ : Type} {Context : ASTContext} {g : TypeGetter ρ}
    (hg : g.Decides Context) :
    ∀ (fields : List FieldDecl) (opaq : Bool) (anonname : Nat) (entries : List Entry)
      (v : IncludeCVisitor ρ) ok es v',
      (∀ it ∈ fields, it.skipped = false ∧ Translates Context it.type) →
      GetFields.loop g fields opaq anonname entries v = some (ok, es, v') →
      ok = !opaq ∧ ∃ es1, TranslatedFields g fields anonname v es1 v' ∧ es = entries ++ es1 := by
  intro fields
  induction fields with
  | nil =>
    intro opaq anonname entries v ok es v' _ h
    simp only [GetFields.loop, Option.some.injEq, Prod.mk.injEq] at h
    obtain ⟨h1, h2, h3⟩ := h
    exact ⟨h1.symm, [], ⟨rfl, h3.symm⟩, by simp [h2]⟩
  | cons it rest ih =>
    intro opaq anonname entries v ok es v' hall h
    have hit := hall it (List.mem_cons_self _ _)
    have hrest : ∀ x ∈ rest, x.skipped = false ∧ Translates Context x.type :=
      fun x hx => hall x (List.mem_cons_of_mem _ hx)
    simp only [GetFields.loop, hit.1] at h
    cases hgt : g it.type v with
    | none => simp [hgt] at h
    | some y =>
      rw [hgt] at h
      rcases y with ⟨_ | t, v1⟩
      · have := (hg _ _ _ _ hgt).mpr hit.2
        cases this
      · obtain ⟨hok, es1, hch, hes⟩ := ih _ _ _ _ _ _ _ hrest h
        refine ⟨hok, _ :: es1, ⟨t, v1, es1, hgt, hch, rfl⟩, ?_⟩
        rw [hes, List.append_assoc]
        rfl

theorem TranslatedFields_length {ρ : Type} (g : TypeGetter ρ) :
    ∀ (fields : List FieldDecl) (anonname : Nat) (v : IncludeCVisitor ρ) es v',
      TranslatedFields g fields anonname v es v' → es.length = fields.length := by
  intro fields
  induction fields with
  | nil =>
    intro anonname v es v' h
    rw [h.1]
    rfl
  | cons it rest ih =>
    intro anonname v es v' h
    obtain ⟨t, v1, es1, _, hch, rfl⟩ := h
    simp [ih _ _ _ _ hch]

/-- The name of the `i`-th entry: the field's, or `_k` with `k` the number
of anonymous structs and unions before it. -/
theorem TranslatedFields_names {ρ : Type} (g : TypeGetter ρ) :
    ∀ (fields : List FieldDecl) (anonname : Nat) (v : IncludeCVisitor ρ) es v',
      TranslatedFields g fields anonname v es v' →
      ∀ i : Nat, (es[i]?).map Entry.field = (fields[i]?).map fun (it : FieldDecl) =>
        if it.isAnonymousStructOrUnion then
          "_" ++ toString (anonname +
            (fields.take i).countP fun (x : FieldDecl) => x.isAnonymousStructOrUnion)
        else it.name := by
  intro fields
  induction fields with
  | nil =>
    intro anonname v es v' h i
    rw [h.1]
    rfl
  | cons it rest ih =>
    intro anonname v es v' h i
    obtain ⟨t, v1, es1, _, hch, rfl⟩ := h
    cases i with
    | zero => simp
    | succ i =>
      have := ih _ _ _ _ hch i
      simp only [List.getElem?_cons_succ, List.take_succ_cons, List.countP_cons]
      rw [this]
      cases hi : rest[i]? with
      | none => rfl
      | some x =>
        simp only [Option.map_some', Option.some.injEq]
        cases it.isAnonymousStructOrUnion <;> simp [Nat.add_assoc, Nat.add_comm 1]

theorem not_mentions_of_builtin (Context : ASTContext) (T : QualType) (rd : Nat)
    (hT : T.isBuiltinType = true) : ¬ Mentions Context T rd := by
  have hc : ∃ k, T.getCanonicalType = QualType.Builtin k := by
    unfold QualType.isBuiltinType at hT
    split at hT
    · exact ⟨_, by assumption⟩
    · cases hT
  obtain ⟨k, hk⟩ := hc
  intro hm
  cases hm with
  | record hsw =>
    rw [hk] at hsw
    cases k <;> simp [GetType.switch] at hsw
  | element hsw _ =>
    rw [hk] at hsw
    cases k <;> simp [GetType.switch] at hsw
  | returnType hsw _ =>
    rw [hk] at hsw
    cases k <;> simp [GetType.switch] at hsw
  | paramType hsw _ _ =>
    rw [hk] at hsw
    cases k <;> simp [GetType.switch] at hsw

/-- Declarations in which every record that has a definition has a tag or a
typedef name, or has fields of builtin types only, are well formed. -/
theorem wellFormed_of_flat (Context : ASTContext) (l : List RecordDecl)
    (hl : Context.getRecordDecl = recordsOf l)
    (h : (l.all fun d => d.definition.isNone || decide ((recordNamespace d).2 ≠ "") ||
      (d.definition.getD []).all fun it => it.type.isBuiltinType) = true) :
    Context.WellFormed := by
  have hall : ∀ rd, (Context.getRecordDecl rd).definition = none ∨
      (recordNamespace (Context.getRecordDecl rd)).2 ≠ "" ∨
      ∀ it ∈ ((Context.getRecordDecl rd).definition.getD []), it.type.isBuiltinType = true := by
    intro rd
    rw [hl]
    unfold recordsOf
    rw [List.getD_eq_getElem?_getD]
    cases hget : l[rd]? with
    | none => left; rfl
    | some d =>
      have hmem : d ∈ l := List.getElem?_mem hget
      have := List.all_eq_true.mp h d hmem
      simp only [Option.getD_some]
      simp only [Bool.or_eq_true, Option.isNone_iff_eq_none, decide_eq_true_eq,
        List.all_eq_true] at this
      rcases this with (h1 | h1) | h1
      · exact Or.inl h1
      · exact Or.inr (Or.inl h1)
      · exact Or.inr (Or.inr h1)
  constructor
  · refine ⟨recordNamespace (noRecords 0) :: l.map recordNamespace, ?_⟩
    intro rd _
    rw [hl]
    unfold recordsOf
    rw [List.getD_eq_getElem?_getD]
    cases hget : l[rd]? with
    | none => simp
    | some d =>
      simp only [Option.getD_some, List.mem_cons, List.mem_map]
      exact Or.inr ⟨d, List.getElem?_mem hget, rfl⟩
  · refine ⟨fun _ => 0, 0, fun _ => le_rfl, ?_⟩
    intro rd defn it rd' hname hdef hit _ hm
    rcases hall rd with h1 | h1 | h1
    · rw [h1] at hdef
      cases hdef
    · exact absurd hname h1
    · rw [hdef] at h1
      exact absurd hm (not_mentions_of_builtin Context it.type rd' (h1 it hit))

/-! ## A record resolved while it is being resolved -/

/-- A named record whose name holds a value that is not flagged `undefined`
resolves to that value, with no change to the state, whatever the getter. -/
theorem GetRecordTypeFromDecl_reentry {ρ : Type} (reg : Registry ρ) (Context : ASTContext)
    (g : TypeGetter ρ) (rd : Nat) (x : IncludeCVisitor ρ) (tt : Obj)
    (hs : ((Context.getRecordDecl rd).isStruct || (Context.getRecordDecl rd).isUnion) = true)
    (hx : x.thenamespace (recordNamespace (Context.getRecordDecl rd)).1
      (recordNamespace (Context.getRecordDecl rd)).2 = some tt)
    (hund : Obj.undefined x.L tt = false) :
    GetRecordTypeFromDecl reg Context g rd x = some (some tt, x) := by
  rw [GetRecordTypeFromDecl_eq_some]
  left
  have hl := GetRecordTypeFromDecl.lookup_of_some reg Context rd x tt hx
  refine ⟨hs, x, ?_, by rw [hl]⟩
  rw [hl, GetRecordTypeFromDecl.complete_eq_some]
  exact Or.inr ⟨Or.inr hund, rfl⟩

/-- A pointer to such a record translates to the pointer to that value. -/
theorem GetType_pointer_reentry {ρ : Type} (reg : Registry ρ) (Context : ASTContext)
    (fuel : Nat) (T E : QualType) (rd : Nat) (x : IncludeCVisitor ρ) (tt : Obj)
    (hT : T.getCanonicalType = QualType.Pointer E)
    (hE : E.getCanonicalType = QualType.Record rd)
    (hs : ((Context.getRecordDecl rd).isStruct || (Context.getRecordDecl rd).isUnion) = true)
    (hx : x.thenamespace (recordNamespace (Context.getRecordDecl rd)).1
      (recordNamespace (Context.getRecordDecl rd)).2 = some tt)
    (hund : Obj.undefined x.L tt = false) :
    GetType reg Context (fuel + 2) T x = some (some (Obj.pointer tt), x) := by
  have h1 : GetType reg Context (fuel + 1) E x = some (some tt, x) := by
    simp only [GetType, GetType.body, hE, GetType.switch]
    exact GetRecordTypeFromDecl_reentry reg Context _ rd x tt hs hx hund
  have h2 : GetType reg Context (fuel + 2) T x =
      GetType.wrap Obj.pointer (GetType reg Context (fuel + 1) E x) := by
    simp only [GetType, GetType.body, hT, GetType.switch]
  rw [h2, h1]
  rfl

/-- The entries that the loop of `GetFields` has at the end include one of
type `t0` for every field of type `T` that is not skipped, when the getter
translates `T` to `t0` in every state of a set that the getter does not
leave. -/
theorem GetFields_loop_entry {ρ : Type} (g : TypeGetter ρ) (P : IncludeCVisitor ρ → Prop)
    (hP : ∀ T x r x', P x → g T x = some (r, x') → P x') (T : QualType) (t0 : Obj)
    (hT : ∀ x y, P x → g T x = some y → y = (some t0, x)) :
    ∀ (fields : List FieldDecl) (opaq : Bool) (anonname : Nat) (entries : List Entry)
      (v : IncludeCVisitor ρ) ok es v', P v →
      GetFields.loop g fields opaq anonname entries v = some (ok, es, v') →
      (∀ e ∈ entries, e ∈ es) ∧
        ∀ it ∈ fields, it.skipped = false → it.type = T → ∃ e ∈ es, e.type = t0 := by
  intro fields
  induction fields with
  | nil =>
    intro opaq anonname entries v ok es v' _ h
    simp only [GetFields.loop, Option.some.injEq, Prod.mk.injEq] at h
    obtain ⟨_, h2, _⟩ := h
    subst h2
    exact ⟨fun e he => he, fun it hit => by cases hit⟩
  | cons it rest ih =>
    intro opaq anonname entries v ok es v' hv h
    simp only [GetFields.loop] at h
    by_cases hsk : it.skipped = true
    · simp only [hsk, if_true] at h
      obtain ⟨h1, h2⟩ := ih _ _ _ _ _ _ _ hv h
      refine ⟨h1, fun x hx hns hty => ?_⟩
      rcases List.mem_cons.mp hx with rfl | hx
      · rw [hsk] at hns
        cases hns
      · exact h2 x hx hns hty
    · simp only [hsk] at h
      cases hgt : g it.type v with
      | none => simp [hgt] at h
      | some y =>
        rw [hgt] at h
        rcases y with ⟨_ | t, v1⟩
        · obtain ⟨h1, h2⟩ := ih _ _ _ _ _ _ _ (hP _ _ _ _ hv hgt) h
          refine ⟨h1, fun x hx hns hty => ?_⟩
          rcases List.mem_cons.mp hx with rfl | hx
          · rw [hty] at hgt
            have := hT _ _ hv hgt
            cases this
          · exact h2 x hx hns hty
        · obtain ⟨h1, h2⟩ := ih _ _ _ _ _ _ _ (hP _ _ _ _ hv hgt) h
          refine ⟨fun e he => h1 e (List.mem_append_left _ he), fun x hx hns hty => ?_⟩
          rcases List.mem_cons.mp hx with rfl | hx
          · rw [hty] at hgt
            have := hT _ _ hv hgt
            simp only [Prod.mk.injEq, Option.some.injEq] at this
            exact ⟨_, h1 _ (List.mem_append_right _ (List.mem_singleton_self _)), this.1⟩
          · exact h2 x hx hns hty

/-! ## The native bindings of the handles -/

/-- A state that differs from another in neither the liveness function nor
the bindings of the handles. -/
theorem Binds_of_same {ρ : Type} {a b : IncludeCVisitor ρ}
    (hl : b.livenessfunction = a.livenessfunction) (ho : b.outputtypes = a.outputtypes)
    (hb : ∀ h, (b.L.structs h).llvm_definingfunction = (a.L.structs h).llvm_definingfunction ∧
      (b.L.structs h).llvm_argumentposition = (a.L.structs h).llvm_argumentposition) :
    Binds a b := by
  refine ⟨hl, ⟨[], by rw [ho, List.append_nil]⟩, fun h _ => hb h, ?_⟩
  rintro ⟨h1, h2, h3⟩
  refine ⟨?_, ?_, ?_⟩
  · intro h hd
    rw [(hb h).1, hl] at hd
    obtain ⟨p, rd, hp, hq⟩ := h1 h hd
    exact ⟨p, rd, by rw [(hb h).2]; exact hp, by rw [ho]; exact hq⟩
  · intro x y p hx hpx hy hpy
    rw [(hb x).1, hl] at hx
    rw [(hb y).1, hl] at hy
    rw [(hb x).2] at hpx
    rw [(hb y).2] at hpy
    exact h2 x y p hx hpx hy hpy
  · intro p hp
    rw [ho] at hp
    obtain ⟨h, hd, hq⟩ := h3 p hp
    exact ⟨h, by rw [(hb h).1, hl]; exact hd, by rw [(hb h).2]; exact hq⟩

theorem Binds_refl {ρ : Type} (v : IncludeCVisitor ρ) : Binds v v :=
  Binds_of_same rfl rfl (fun _ => ⟨rfl, rfl⟩)

theorem Binds_trans {ρ : Type} {a b c : IncludeCVisitor ρ} (h1 : Binds a b) (h2 : Binds b c) :
    Binds a c := by
  obtain ⟨hl1, ⟨ad1, ho1⟩, hk1, hB1⟩ := h1
  obtain ⟨hl2, ⟨ad2, ho2⟩, hk2, hB2⟩ := h2
  refine ⟨hl2.trans hl1, ⟨ad1 ++ ad2, by rw [ho2, ho1, List.append_assoc]⟩, ?_,
    fun h => hB2 (hB1 h)⟩
  intro h hs
  obtain ⟨hd, hp⟩ := hk1 h hs
  obtain ⟨hd2, hp2⟩ := hk2 h (by rw [hd]; exact hs)
  exact ⟨hd2.trans hd, hp2.trans hp⟩

/-- What `register` does: nothing to a handle that has a binding; to one
that has none it gives the liveness function and the next position, and it
adds the pointer to the record type as the parameter type of that
position. -/
theorem GetRecordTypeFromDecl.register_bound {ρ : Type} (rd h : Nat) (v : IncludeCVisitor ρ) :
    ((v.L.structs h).llvm_definingfunction.isSome = true →
      GetRecordTypeFromDecl.register rd h v = v) ∧
    ((v.L.structs h).llvm_definingfunction = none →
      (GetRecordTypeFromDecl.register rd h v).outputtypes =
        v.outputtypes ++ [QualType.Pointer (QualType.Record rd)] ∧
      (GetRecordTypeFromDecl.register rd h v).livenessfunction = v.livenessfunction ∧
      ((GetRecordTypeFromDecl.register rd h v).L.structs h).llvm_definingfunction =
        some v.livenessfunction ∧
      ((GetRecordTypeFromDecl.register rd h v).L.structs h).llvm_argumentposition =
        some v.outputtypes.length ∧
      ∀ h1, h1 ≠ h → (GetRecordTypeFromDecl.register rd h v).L.structs h1 = v.L.structs h1) := by
  constructor
  · intro hs
    simp [GetRecordTypeFromDecl.register, hs]
  · intro hn
    have hs : (v.L.structs h).llvm_definingfunction.isSome = false := by simp [hn]
    refine ⟨?_, ?_, ?_, ?_, ?_⟩
    · simp [GetRecordTypeFromDecl.register, hs, RegisterRecordType]
    · simp [GetRecordTypeFromDecl.register, hs, RegisterRecordType]
    · simp [GetRecordTypeFromDecl.register, hs, RegisterRecordType, structs_modify]
    · simp [GetRecordTypeFromDecl.register, hs, RegisterRecordType, structs_modify]
    · intro h1 hne
      simp [GetRecordTypeFromDecl.register, hs, RegisterRecordType, structs_modify, hne]

theorem GetRecordTypeFromDecl.register_binds {ρ : Type} (rd h : Nat) (v : IncludeCVisitor ρ) :
    Binds v (GetRecordTypeFromDecl.register rd h v) := by
  obtain ⟨hsome, hnone⟩ := GetRecordTypeFromDecl.register_bound rd h v
  cases hd : (v.L.structs h).llvm_definingfunction with
  | some s =>
    rw [hsome (by simp [hd])]
    exact Binds_refl v
  | none =>
    obtain ⟨ho, hl, hdf, hap, hother⟩ := hnone hd
    refine ⟨hl, ⟨_, ho⟩, ?_, ?_⟩
    · intro h1 hs
      have hne : h1 ≠ h := by
        intro he
        rw [he, hd] at hs
        cases hs
      rw [hother h1 hne]
      exact ⟨rfl, rfl⟩
    · rintro ⟨h1, h2, h3⟩
      have hlt : ∀ x p, (v.L.structs x).llvm_definingfunction = some v.livenessfunction →
          (v.L.structs x).llvm_argumentposition = some p → p < v.outputtypes.length := by
        intro x p hx hp
        obtain ⟨q, rd1, hq, hget⟩ := h1 x hx
        rw [hp] at hq
        cases hq
        by_contra hge
        rw [List.getElem?_eq_none (Nat.le_of_not_lt hge)] at hget
        cases hget
      refine ⟨?_, ?_, ?_⟩
      · intro x hx
        rw [hl] at hx
        by_cases hxe : x = h
        · subst hxe
          refine ⟨v.outputtypes.length, rd, hap, ?_⟩
          rw [ho]
          simp
        · rw [hother x hxe] at hx ⊢
          obtain ⟨p, rd1, hp, hget⟩ := h1 x hx
          refine ⟨p, rd1, hp, ?_⟩
          rw [ho, List.getElem?_append_left (hlt x p hx hp)]
          exact hget
      · intro x y p hx hpx hy hpy
        rw [hl] at hx hy
        by_cases hxe : x = h
        · by_cases hye : y = h
          · rw [hxe, hye]
          · exfalso
            rw [hxe, hap] at hpx
            cases hpx
            rw [hother y hye] at hy hpy
            exact absurd (hlt y _ hy hpy) (Nat.lt_irrefl _)
        · by_cases hye : y = h
          · exfalso
            rw [hye, hap] at hpy
            cases hpy
            rw [hother x hxe] at hx hpx
            exact absurd (hlt x _ hx hpx) (Nat.lt_irrefl _)
          · rw [hother x hxe] at hx hpx
            rw [hother y hye] at hy hpy
            exact h2 x y p hx hpx hy hpy
      · intro p hp
        rw [ho, List.length_append, List.length_singleton] at hp
        rw [hl]
        by_cases hpe : p = v.outputtypes.length
        · exact ⟨h, hdf, by rw [hap, hpe]⟩
        · obtain ⟨x, hx, hpx⟩ := h3 p (by omega)
          have hxe : x ≠ h := by
            intro he
            rw [he, hd] at hx
            cases hx
          exact ⟨x, by rw [hother x hxe]; exact hx, by rw [hother x hxe]; exact hpx⟩

theorem Obj.setfields_binds {ρ : Type} (tt : Obj) (f : CStruct → CStruct)
    (v : IncludeCVisitor ρ)
    (hf : ∀ s, (f s).llvm_definingfunction = s.llvm_definingfunction ∧
      (f s).llvm_argumentposition = s.llvm_argumentposition) :
    Binds v (tt.setfields f v) := by
  cases tt with
  | cstruct h0 =>
    refine Binds_of_same rfl rfl (fun h => ?_)
    simp only [Obj.setfields, structs_modify]
    split
    · rename_i he
      rw [he]
      exact hf _
    · exact ⟨rfl, rfl⟩
  | _ => exact Binds_refl v

theorem GetRecordTypeFromDecl.lookup_binds {ρ : Type} {reg : Registry ρ}
    (hkb : reg.KeepsBindings) (Context : ASTContext) (rd : Nat) (v : IncludeCVisitor ρ) :
    Binds v (GetRecordTypeFromDecl.lookup reg Context rd v).2 := by
  cases hv : v.thenamespace (recordNamespace (Context.getRecordDecl rd)).1
      (recordNamespace (Context.getRecordDecl rd)).2 with
  | some o =>
    rw [GetRecordTypeFromDecl.lookup_of_some reg Context rd v o hv]
    exact Binds_refl v
  | none =>
    have hl : GetRecordTypeFromDecl.lookup reg Context rd v =
        GetRecordTypeFromDecl.create reg rd (recordNamespace (Context.getRecordDecl rd)).1
          (recordNamespace (Context.getRecordDecl rd)).2 v := by
      unfold GetRecordTypeFromDecl.lookup
      simp only [hv]
    rw [hl]
    have h1 : Binds v { v with L := (reg v.L (recordNamespace (Context.getRecordDecl rd)).2
        (recordNamespace (Context.getRecordDecl rd)).1).2 } :=
      Binds_of_same rfl rfl (fun h => hkb _ _ _ h)
    have h2 := GetRecordTypeFromDecl.register_binds rd
      (reg v.L (recordNamespace (Context.getRecordDecl rd)).2
        (recordNamespace (Context.getRecordDecl rd)).1).1
      { v with L := (reg v.L (recordNamespace (Context.getRecordDecl rd)).2
        (recordNamespace (Context.getRecordDecl rd)).1).2 }
    have h12 := Binds_trans h1 h2
    simp only [GetRecordTypeFromDecl.create]
    split
    · refine Binds_trans h12 (Binds_of_same ?_ ?_ (fun h => ?_))
      · cases (recordNamespace (Context.getRecordDecl rd)).1 <;> rfl
      · cases (recordNamespace (Context.getRecordDecl rd)).1 <;> rfl
      · rw [setnamespace_L]
        exact ⟨rfl, rfl⟩
    · exact h12

theorem Binds_stepInvariant {ρ : Type} {reg : Registry ρ} (hkb : reg.KeepsBindings)
    (Context : ASTContext) : StepInvariant reg Context (Binds (ρ := ρ)) where
  refl := Binds_refl
  trans := Binds_trans
  importError := fun _ _ => Binds_of_same rfl rfl (fun _ => ⟨rfl, rfl⟩)
  lookup := GetRecordTypeFromDecl.lookup_binds hkb Context
  completed := by
    intro v tt isUnion ok entries vf _ hR
    have hc : Binds v (tt.setfields (fun s => { s with undefined := false }) v) :=
      Obj.setfields_binds tt _ v (fun s => ⟨rfl, rfl⟩)
    refine Binds_trans (Binds_trans hc hR) ?_
    unfold GetRecordTypeFromDecl.attach
    cases ok with
    | false => exact Binds_refl vf
    | true =>
      simp only [if_true]
      refine Binds_trans ?_ (Obj.setfields_binds tt _ _ (fun s => ⟨rfl, rfl⟩))
      cases isUnion with
      | false => exact Obj.setfields_binds tt _ _ (fun s => ⟨rfl, rfl⟩)
      | true => exact Obj.setfields_binds tt _ _ (fun s => ⟨rfl, rfl⟩)

theorem HostRegistry_keepsBindings : HostRegistry.getorcreatecstruct.KeepsBindings := by
  intro L name tagged h
  unfold HostRegistry.getorcreatecstruct
  split <;> exact ⟨rfl, rfl⟩

theorem VisitEnumConstantDecl_foldl_types {ρ : Type} (constants : List EnumConstantDecl) :
    ∀ v : IncludeCVisitor ρ,
      (constants.foldl (fun v E => (VisitEnumConstantDecl E v).2) v).outputtypes =
        v.outputtypes ∧
      (constants.foldl (fun v E => (VisitEnumConstantDecl E v).2) v).livenessfunction =
        v.livenessfunction := by
  induction constants with
  | nil => intro v; exact ⟨rfl, rfl⟩
  | cons E l ih =>
    intro v
    simp only [List.foldl_cons]
    exact ih (VisitEnumConstantDecl E v).2

theorem CreateFunction_types {ρ : Type} (name internalname : String) (typ : Obj)
    (v : IncludeCVisitor ρ) :
    (CreateFunction name internalname typ v).outputtypes = v.outputtypes ∧
      (CreateFunction name internalname typ v).livenessfunction = v.livenessfunction := by
  unfold CreateFunction
  split <;> exact ⟨rfl, rfl⟩

/-- A relation that the steps keep, and that looks at `tagged`, the Lua
state and the liveness function's name and parameter types only, holds across
the traversal of one declaration. -/
theorem TraverseDecl_steps_types {ρ : Type} {reg : Registry ρ} {Context : ASTContext}
    {R : IncludeCVisitor ρ → IncludeCVisitor ρ → Prop} (hR : StepInvariant reg Context R)
    (hout : ∀ a b b1, R a b → b1.tagged = b.tagged → b1.L = b.L →
      b1.outputtypes = b.outputtypes → b1.livenessfunction = b.livenessfunction → R a b1)
    {isLinux : Bool} {n : Nat} {d : Decl} {v v' : IncludeCVisitor ρ}
    (h : TraverseDecl reg Context isLinux n d v = some v') : R v v' := by
  unfold TraverseDecl at h
  cases d with
  | TypedefDecl TD =>
    simp only [Option.map_eq_some'] at h
    obtain ⟨⟨b, x⟩, h, rfl⟩ := h
    obtain ⟨_, ⟨_, rfl⟩ | ⟨_, typ, w, hg, rfl⟩ | ⟨_, w, hg, rfl⟩⟩ := VisitTypedefDecl_cases h
    · exact hR.refl _
    · exact hout _ _ _ (GetType_steps hR n _ v _ w hg) rfl rfl rfl rfl
    · exact hout _ _ _ (GetType_steps hR n _ v _ w hg) rfl rfl rfl rfl
  | RecordDecl rd =>
    simp only [Option.map_eq_some'] at h
    obtain ⟨⟨b, x⟩, h, rfl⟩ := h
    obtain ⟨_, ⟨_, rfl⟩ | ⟨_, r, hg⟩⟩ := TraverseRecordDecl_cases h
    · exact hR.refl _
    · exact GetRecordTypeFromDecl_steps hR (GetType_steps hR n) rd v r x hg
  | EnumDecl constants =>
    cases h
    obtain ⟨h1, h2⟩ := VisitEnumConstantDecl_foldl_state constants v
    obtain ⟨h3, h4⟩ := VisitEnumConstantDecl_foldl_types constants v
    exact hout _ _ _ (hR.refl v) h1 h2 h3 h4
  | FunctionDecl f =>
    simp only [Option.map_eq_some'] at h
    obtain ⟨⟨b, x⟩, h, rfl⟩ := h
    obtain ⟨_, h | ⟨FT, hft, hst, rfl⟩ | ⟨FT, w, hft, hst, hg, rfl⟩ |
      ⟨FT, typ, w, hft, hst, hg, rfl⟩⟩ := TraverseFunctionDecl_cases h
    · rw [h.2]
      exact hR.refl _
    · exact hout _ _ _ (hR.refl v) rfl rfl rfl rfl
    · exact hout _ _ _ (GetFuncType_steps hR (GetType_steps hR n) FT v _ w hg) rfl rfl rfl rfl
    · obtain ⟨h1, h2⟩ := CreateFunction_state f.name
        (TraverseFunctionDecl.InternalName isLinux f) typ w
      obtain ⟨h3, h4⟩ := CreateFunction_types f.name
        (TraverseFunctionDecl.InternalName isLinux f) typ w
      exact hout _ _ _ (GetFuncType_steps hR (GetType_steps hR n) FT v _ w hg) h1 h2 h3 h4
  | Other =>
    cases h
    exact hR.refl _

theorem HandleTopLevelDecl_steps_types {ρ : Type} {reg : Registry ρ} {Context : ASTContext}
    {R : IncludeCVisitor ρ → IncludeCVisitor ρ → Prop} (hR : StepInvariant reg Context R)
    (hout : ∀ a b b1, R a b → b1.tagged = b.tagged → b1.L = b.L →
      b1.outputtypes = b.outputtypes → b1.livenessfunction = b.livenessfunction → R a b1)
    {isLinux : Bool} {n : Nat} (D : List Decl) :
    ∀ {v v' : IncludeCVisitor ρ}, HandleTopLevelDecl reg Context isLinux n D v = some v' →
      R v v' := by
  induction D with
  | nil =>
    intro v v' h
    cases h
    exact hR.refl _
  | cons d D ih =>
    intro v v' h
    simp only [HandleTopLevelDecl] at h
    cases hd : TraverseDecl reg Context isLinux n d v with
    | none => rw [hd] at h; cases h
    | some v1 =>
      rw [hd] at h
      exact hR.trans (TraverseDecl_steps_types hR hout hd) (ih h)

theorem Binds_outside {ρ : Type} (a b b1 : IncludeCVisitor ρ) (h : Binds a b)
    (_ : b1.tagged = b.tagged) (hL : b1.L = b.L) (ho : b1.outputtypes = b.outputtypes)
    (hl : b1.livenessfunction = b.livenessfunction) : Binds a b1 :=
  Binds_trans h (Binds_of_same hl ho (fun h => by rw [hL]; exact ⟨rfl, rfl⟩))

theorem BindsRecords_of_same {ρ : Type} (reg : Registry ρ) (Context : ASTContext)
    {a b : IncludeCVisitor ρ}
    (hl : b.livenessfunction = a.livenessfunction) (ho : b.outputtypes = a.outputtypes)
    (hb : ∀ h, (b.L.structs h).llvm_definingfunction = (a.L.structs h).llvm_definingfunction ∧
      (b.L.structs h).llvm_argumentposition = (a.L.structs h).llvm_argumentposition) :
    BindsRecords reg Context a b := by
  refine ⟨Binds_of_same hl ho hb, fun h hn hs => ?_⟩
  rw [(hb h).1, hn] at hs
  cases hs

theorem BindsRecords_trans {ρ : Type} {reg : Registry ρ} {Context : ASTContext}
    {a b c : IncludeCVisitor ρ} (h1 : BindsRecords reg Context a b)
    (h2 : BindsRecords reg Context b c) : BindsRecords reg Context a c := by
  refine ⟨Binds_trans h1.1 h2.1, fun h hn hs => ?_⟩
  cases hb : (b.L.structs h).llvm_definingfunction with
  | none =>
    obtain ⟨hd, p, rd, hp, hget, u, hau, hub, hrest⟩ := h2.2 h hb hs
    exact ⟨hd, p, rd, hp, hget, u, Binds_trans h1.1 hau, hub, hrest⟩
  | some s =>
    have hsb : (b.L.structs h).llvm_definingfunction.isSome = true := by simp [hb]
    obtain ⟨hd, p, rd, hp, hget, u, hau, hub, hrest⟩ := h1.2 h hn hsb
    obtain ⟨hl, ⟨added, ho⟩, hkeep, _⟩ := h2.1
    obtain ⟨hk1, hk2⟩ := hkeep h hsb
    refine ⟨by rw [hk1, hd, hl], p, rd, by rw [hk2, hp], ?_, u, hau, Binds_trans hub h2.1, hrest⟩
    have hlt : p < b.outputtypes.length := by
      by_contra hge
      rw [List.getElem?_eq_none (Nat.le_of_not_lt hge)] at hget
      cases hget
    rw [ho, List.getElem?_append_left hlt]
    exact hget

theorem GetRecordTypeFromDecl.create_types {ρ : Type} (reg : Registry ρ) (rd : Nat)
    (istagged : Bool) (name : String) (v : IncludeCVisitor ρ) :
    (GetRecordTypeFromDecl.create reg rd istagged name v).1 =
        Obj.cstruct (reg v.L name istagged).1 ∧
      (GetRecordTypeFromDecl.create reg rd istagged name v).2.L =
        (GetRecordTypeFromDecl.register rd (reg v.L name istagged).1
          { v with L := (reg v.L name istagged).2 }).L ∧
      (GetRecordTypeFromDecl.create reg rd istagged name v).2.outputtypes =
        (GetRecordTypeFromDecl.register rd (reg v.L name istagged).1
          { v with L := (reg v.L name istagged).2 }).outputtypes ∧
      (GetRecordTypeFromDecl.create reg rd istagged name v).2.livenessfunction =
        (GetRecordTypeFromDecl.register rd (reg v.L name istagged).1
          { v with L := (reg v.L name istagged).2 }).livenessfunction := by
  unfold GetRecordTypeFromDecl.create
  by_cases hname : name = ""
  · simp [hname]
  · cases istagged <;> simp [hname, IncludeCVisitor.setnamespace]

theorem GetRecordTypeFromDecl.lookup_of_none {ρ : Type} (reg : Registry ρ)
    (Context : ASTContext) (rd : Nat) (v : IncludeCVisitor ρ)
    (h : v.thenamespace (recordNamespace (Context.getRecordDecl rd)).1
      (recordNamespace (Context.getRecordDecl rd)).2 = none) :
    GetRecordTypeFromDecl.lookup reg Context rd v =
      GetRecordTypeFromDecl.create reg rd (recordNamespace (Context.getRecordDecl rd)).1
        (recordNamespace (Context.getRecordDecl rd)).2 v := by
  unfold GetRecordTypeFromDecl.lookup
  simp only [h]

/-- What the lookup of a record does to the bindings: when the namespace
holds no value under the record's name and the handle the registry returns
has no binding, the handle gets the name of the liveness function and the
next position, and the pointer to the record's type is added as the
parameter type of that position; otherwise no parameter type is added and
no binding is written. -/
theorem GetRecordTypeFromDecl.lookup_bound {ρ : Type} (reg : Registry ρ)
    (Context : ASTContext) (rd : Nat) (v : IncludeCVisitor ρ) :
    (v.thenamespace (recordNamespace (Context.getRecordDecl rd)).1
        (recordNamespace (Context.getRecordDecl rd)).2 = none →
      ((reg v.L (recordNamespace (Context.getRecordDecl rd)).2
        (recordNamespace (Context.getRecordDecl rd)).1).2.structs
          (reg v.L (recordNamespace (Context.getRecordDecl rd)).2
            (recordNamespace (Context.getRecordDecl rd)).1).1).llvm_definingfunction = none →
      (GetRecordTypeFromDecl.lookup reg Context rd v).1 =
        Obj.cstruct (reg v.L (recordNamespace (Context.getRecordDecl rd)).2
          (recordNamespace (Context.getRecordDecl rd)).1).1 ∧
      (GetRecordTypeFromDecl.lookup reg Context rd v).2.outputtypes =
        v.outputtypes ++ [QualType.Pointer (QualType.Record rd)] ∧
      ((GetRecordTypeFromDecl.lookup reg Context rd v).2.L.structs
        (reg v.L (recordNamespace (Context.getRecordDecl rd)).2
          (recordNamespace (Context.getRecordDecl rd)).1).1).llvm_definingfunction =
        some v.livenessfunction ∧
      ((GetRecordTypeFromDecl.lookup reg Context rd v).2.L.structs
        (reg v.L (recordNamespace (Context.getRecordDecl rd)).2
          (recordNamespace (Context.getRecordDecl rd)).1).1).llvm_argumentposition =
        some v.outputtypes.length) ∧
    ((v.thenamespace (recordNamespace (Context.getRecordDecl rd)).1
          (recordNamespace (Context.getRecordDecl rd)).2).isSome = true ∨
      ((reg v.L (recordNamespace (Context.getRecordDecl rd)).2
        (recordNamespace (Context.getRecordDecl rd)).1).2.structs
          (reg v.L (recordNamespace (Context.getRecordDecl rd)).2
            (recordNamespace (Context.getRecordDecl rd)).1).1).llvm_definingfunction.isSome =
        true →
      (GetRecordTypeFromDecl.lookup reg Context rd v).2.outputtypes = v.outputtypes ∧
      ((v.thenamespace (recordNamespace (Context.getRecordDecl rd)).1
          (recordNamespace (Context.getRecordDecl rd)).2).isSome = true →
        (GetRecordTypeFromDecl.lookup reg Context rd v).2.L = v.L) ∧
      (v.thenamespace (recordNamespace (Context.getRecordDecl rd)).1
          (recordNamespace (Context.getRecordDecl rd)).2 = none →
        (GetRecordTypeFromDecl.lookup reg Context rd v).2.L =
          (reg v.L (recordNamespace (Context.getRecordDecl rd)).2
            (recordNamespace (Context.getRecordDecl rd)).1).2)) := by
  constructor
  · intro hnone hunb
    rw [GetRecordTypeFromDecl.lookup_of_none reg Context rd v hnone]
    obtain ⟨c1, c2, c3, _⟩ := GetRecordTypeFromDecl.create_types reg rd
      (recordNamespace (Context.getRecordDecl rd)).1
      (recordNamespace (Context.getRecordDecl rd)).2 v
    obtain ⟨ho, _, hdf, hap, _⟩ := (GetRecordTypeFromDecl.register_bound rd
      (reg v.L (recordNamespace (Context.getRecordDecl rd)).2
        (recordNamespace (Context.getRecordDecl rd)).1).1
      { v with L := (reg v.L (recordNamespace (Context.getRecordDecl rd)).2
        (recordNamespace (Context.getRecordDecl rd)).1).2 }).2 hunb
    rw [c2, c3]
    exact ⟨c1, ho, hdf, hap⟩
  · intro hcase
    cases hv : v.thenamespace (recordNamespace (Context.getRecordDecl rd)).1
        (recordNamespace (Context.getRecordDecl rd)).2 with
    | some o =>
      rw [GetRecordTypeFromDecl.lookup_of_some reg Context rd v o hv]
      exact ⟨rfl, (fun _ => rfl), (fun h => by cases h)⟩
    | none =>
      rw [hv] at hcase
      rcases hcase with hcase | hcase
      · cases hcase
      rw [GetRecordTypeFromDecl.lookup_of_none reg Context rd v hv]
      obtain ⟨_, c2, c3, _⟩ := GetRecordTypeFromDecl.create_types reg rd
        (recordNamespace (Context.getRecordDecl rd)).1
        (recordNamespace (Context.getRecordDecl rd)).2 v
      have hr := (GetRecordTypeFromDecl.register_bound rd
        (reg v.L (recordNamespace (Context.getRecordDecl rd)).2
          (recordNamespace (Context.getRecordDecl rd)).1).1
        { v with L := (reg v.L (recordNamespace (Context.getRecordDecl rd)).2
          (recordNamespace (Context.getRecordDecl rd)).1).2 }).1 hcase
      rw [c2, c3, hr]
      exact ⟨rfl, (fun h => by cases h), fun _ => rfl⟩

theorem GetRecordTypeFromDecl.lookup_bindsRecords {ρ : Type} {reg : Registry ρ}
    (hkb : reg.KeepsBindings) (Context : ASTContext) (rd : Nat) (v : IncludeCVisitor ρ) :
    BindsRecords reg Context v (GetRecordTypeFromDecl.lookup reg Context rd v).2 := by
  refine ⟨GetRecordTypeFromDecl.lookup_binds hkb Context rd v, fun h hn hs => ?_⟩
  obtain ⟨hnew, hold⟩ := GetRecordTypeFromDecl.lookup_bound reg Context rd v
  have hlf := (GetRecordTypeFromDecl.lookup_binds hkb Context rd v).1
  cases hv : v.thenamespace (recordNamespace (Context.getRecordDecl rd)).1
      (recordNamespace (Context.getRecordDecl rd)).2 with
  | some o =>
    exfalso
    rw [(hold (Or.inl (by simp [hv]))).2.1 (by simp [hv]), hn] at hs
    cases hs
  | none =>
    cases hr : ((reg v.L (recordNamespace (Context.getRecordDecl rd)).2
        (recordNamespace (Context.getRecordDecl rd)).1).2.structs
          (reg v.L (recordNamespace (Context.getRecordDecl rd)).2
            (recordNamespace (Context.getRecordDecl rd)).1).1).llvm_definingfunction with
    | some s =>
      exfalso
      rw [(hold (Or.inr (by simp [hr]))).2.2 hv, (hkb _ _ _ h).1, hn] at hs
      cases hs
    | none =>
      obtain ⟨h1, h2, h3, h4⟩ := hnew hv hr
      have hh : h = (reg v.L (recordNamespace (Context.getRecordDecl rd)).2
          (recordNamespace (Context.getRecordDecl rd)).1).1 := by
        by_contra hne
        rw [GetRecordTypeFromDecl.lookup_of_none reg Context rd v hv,
          (GetRecordTypeFromDecl.create_types reg rd _ _ v).2.1,
          ((GetRecordTypeFromDecl.register_bound rd _ _).2 hr).2.2.2.2 h hne] at hs
        simp only at hs
        rw [(hkb _ _ _ h).1, hn] at hs
        cases hs
      subst hh
      refine ⟨by rw [h3, hlf], v.outputtypes.length, rd, h4, ?_, v, Binds_refl v, Binds_refl _,
        hv, h1, hn, rfl, h2, h3, h4⟩
      rw [h2]
      simp

theorem BindsRecords_stepInvariant {ρ : Type} {reg : Registry ρ} (hkb : reg.KeepsBindings)
    (Context : ASTContext) : StepInvariant reg Context (BindsRecords reg Context) where
  refl := fun _ => BindsRecords_of_same reg Context rfl rfl (fun _ => ⟨rfl, rfl⟩)
  trans := BindsRecords_trans
  importError := fun _ _ => BindsRecords_of_same reg Context rfl rfl (fun _ => ⟨rfl, rfl⟩)
  lookup := GetRecordTypeFromDecl.lookup_bindsRecords hkb Context
  completed := by
    intro v tt isUnion ok entries vf _ hR
    have hsame : ∀ (f : CStruct → CStruct) (w : IncludeCVisitor ρ),
        (∀ s, (f s).llvm_definingfunction = s.llvm_definingfunction ∧
          (f s).llvm_argumentposition = s.llvm_argumentposition) →
        BindsRecords reg Context w (tt.setfields f w) := by
      intro f w hf
      cases tt with
      | cstruct h0 =>
        refine BindsRecords_of_same reg Context rfl rfl (fun h => ?_)
        simp only [Obj.setfields, structs_modify]
        split
        · rename_i he
          rw [he]
          exact hf _
        · exact ⟨rfl, rfl⟩
      | _ => exact BindsRecords_of_same reg Context rfl rfl (fun _ => ⟨rfl, rfl⟩)
    have hc : BindsRecords reg Context v
        (tt.setfields (fun s => { s with undefined := false }) v) :=
      hsame _ v (fun s => ⟨rfl, rfl⟩)
    refine BindsRecords_trans (BindsRecords_trans hc hR) ?_
    unfold GetRecordTypeFromDecl.attach
    cases ok with
    | false => exact BindsRecords_of_same reg Context rfl rfl (fun _ => ⟨rfl, rfl⟩)
    | true =>
      simp only [if_true]
      refine BindsRecords_trans ?_ (hsame _ _ (fun s => ⟨rfl, rfl⟩))
      cases isUnion with
      | false => exact hsame _ _ (fun s => ⟨rfl, rfl⟩)
      | true => exact hsame _ _ (fun s => ⟨rfl, rfl⟩)

theorem BindsRecords_outside {ρ : Type} {reg : Registry ρ} {Context : ASTContext}
    (a b b1 : IncludeCVisitor ρ) (h : BindsRecords reg Context a b)
    (_ : b1.tagged = b.tagged) (hL : b1.L = b.L) (ho : b1.outputtypes = b.outputtypes)
    (hl : b1.livenessfunction = b.livenessfunction) : BindsRecords reg Context a b1 :=
  BindsRecords_trans h
    (BindsRecords_of_same reg Context hl ho (fun h => by rw [hL]; exact ⟨rfl, rfl⟩))

/-! ## The two namespaces hold different handles -/

/-- C1: for a type whose canonical type is one of the sixteen integer builtin
kinds, `GetType` succeeds, leaves the visitor as it was, and returns the
descriptor named `"u"` (exactly when the target says the type is an unsigned
integer type) followed by `"int"` and the target's bit size of the type,
whatever the target says; the size is one that fits the `int` it is read
into. -/
theorem GetType_integer_builtin {ρ : Type} (getorcreatecstruct : Registry ρ)
    (Context : ASTContext) (fuel : Nat) (T : QualType) (k : BuiltinKind) (v : IncludeCVisitor ρ)
    (hk : k ∈ integerKinds) (hT : T.getCanonicalType = QualType.Builtin k)
    (hsz : Context.getTypeSize (QualType.Builtin k) < 2 ^ 31) :
    GetType getorcreatecstruct Context (fuel + 1) T v =
      some (some (Obj.typefield
        ((if Context.isUnsignedIntegerType (QualType.Builtin k) then "u" else "") ++ "int" ++
          toString (Context.getTypeSize (QualType.Builtin k)))), v) := by
  simp only [integerKinds, List.mem_cons, List.mem_singleton, List.not_mem_nil, or_false] at hk
  rcases hk with h | h | h | h | h | h | h | h | h | h | h | h | h | h | h | h <;> subst h <;>
    simp only [GetType, GetType.body, GetType.switch, hT, integerTypeName, toInt32_of_lt hsz,
      toString_natCast]

/-- C1, on the sample target: `unsigned long` behind a typedef is `uint64`,
and `char` is `int8`. -/
theorem GetType_integer_builtin_witness :
    GetType HostRegistry.getorcreatecstruct (sampleTarget noRecords) 1
        ( QualType.Typedef "size_t" (QualType.Builtin .ULong))
        (IncludeCVisitor.create HostRegistry.freshState 0) =
      some (some (Obj.typefield "uint64"), IncludeCVisitor.create HostRegistry.freshState 0) ∧
    GetType HostRegistry.getorcreatecstruct (sampleTarget noRecords) 1
        (QualType.Builtin .Char_S) (IncludeCVisitor.create HostRegistry.freshState 0) =
      some (some (Obj.typefield "int8"), IncludeCVisitor.create HostRegistry.freshState 0) :=
  ⟨GetType_integer_builtin HostRegistry.getorcreatecstruct (sampleTarget noRecords) 0
      ( QualType.Typedef "size_t" (QualType.Builtin .ULong)) .ULong
      (IncludeCVisitor.create HostRegistry.freshState 0) (by decide) rfl (by decide),
    GetType_integer_builtin HostRegistry.getorcreatecstruct (sampleTarget noRecords) 0
      (QualType.Builtin .Char_S) .Char_S
      (IncludeCVisitor.create HostRegistry.freshState 0) (by decide) rfl (by decide)⟩

/-- C3: for a struct or union whose definition has a bit-field, a field
without a name that is not an anonymous struct or union, or a field whose
type does not translate, on well-formed declarations and a registry that
keeps defined handles, `GetRecordTypeFromDecl` returns `true` with the handle
of its lookup within some step budget and on every larger one. The handle is
under the record's name in its namespace (when the record has a name), the
table of errors is as it was, and the handle's `entries` and its count of
calls of `complete` are what they were when the handle was looked up or
created. -/
theorem GetRecordTypeFromDecl_unsupported_field {ρ : Type} {reg : Registry ρ}
    (hreg : reg.KeepsDefined) {Context : ASTContext} (hwf : Context.WellFormed) (rd : Nat)
    (v : IncludeCVisitor ρ)
    (hkind : ((Context.getRecordDecl rd).isStruct || (Context.getRecordDecl rd).isUnion) = true)
    (defn : List FieldDecl) (hdef : (Context.getRecordDecl rd).definition = some defn)
    (hbad : ∃ it ∈ defn, it.Unsupported Context) :
    ∃ n v', (∀ m, n ≤ m →
        GetRecordTypeFromDecl reg Context (GetType reg Context m) rd v =
          some (some (GetRecordTypeFromDecl.lookup reg Context rd v).1, v')) ∧
      ((recordNamespace (Context.getRecordDecl rd)).2 ≠ "" →
        v'.thenamespace (recordNamespace (Context.getRecordDecl rd)).1
            (recordNamespace (Context.getRecordDecl rd)).2 =
          some (GetRecordTypeFromDecl.lookup reg Context rd v).1) ∧
      v'.error_table = v.error_table ∧
      (∀ h, (GetRecordTypeFromDecl.lookup reg Context rd v).1 = Obj.cstruct h →
        (v'.L.structs h).entries =
          ((GetRecordTypeFromDecl.lookup reg Context rd v).2.L.structs h).entries ∧
        (v'.L.structs h).complete =
          ((GetRecordTypeFromDecl.lookup reg Context rd v).2.L.structs h).complete) := by
  obtain ⟨n, x, hx⟩ := GetRecordTypeFromDecl_terminates hreg hwf rd v
  have h0 := hx n le_rfl
  rw [GetRecordTypeFromDecl_eq_some] at h0
  rcases h0 with ⟨_, v', hc, hxe⟩ | ⟨hk, _⟩
  swap
  · rw [hkind] at hk
    cases hk
  subst hxe
  have hF1 := GetRecordTypeFromDecl.lookup_frame reg Context rd v
  have hF : Frame (GetRecordTypeFromDecl.lookup reg Context rd v).2 v' :=
    GetRecordTypeFromDecl.complete_keeps (Frame_invariant reg Context)
      (GetType_keeps (Frame_invariant reg Context) n) _ _ _ _ hc
  refine ⟨n, v', hx, ?_, ?_, ?_⟩
  · intro hname
    exact hF.kept _ _ _ (GetRecordTypeFromDecl.lookup_registered reg Context rd v hname)
  · exact hF.error_table.trans hF1.error_table
  · intro h hh
    rw [GetRecordTypeFromDecl.complete_eq_some] at hc
    rcases hc with ⟨defn', hd', hu, ok, entries, v2, hf, hv⟩ | ⟨_, hv⟩
    · rw [hdef] at hd'
      cases hd'
      have hok : ok = false := by
        cases hok : ok with
        | false => rfl
        | true =>
          exfalso
          have := (GetFields_loop_decides (GetType_decides reg Context n) _ _ _ _ _ _ _ _ hf).mp hok
          obtain ⟨it, hit, hun⟩ := hbad
          exact this.2 it hit hun
      rw [hok, GetRecordTypeFromDecl.attach_false] at hv
      subst hv
      have hS := GetFields_loop_keeps (Settles_invariant hreg Context)
        (GetType_keeps (Settles_invariant hreg Context) n) _ _ _ _ _ _ _ _ hf
      rw [hh] at hS hu
      have hcl := hS h (by simp [Obj.setfields, structs_modify])
      simp only [Obj.setfields, structs_modify, if_true] at hcl
      exact ⟨hcl.2.1, hcl.2.2⟩
    · rw [hv]
      exact ⟨rfl, rfl⟩

/-- C3, on `struct S { int a : 3; int b; };` in a fresh visitor: the handle
is returned and stored under `tagged["S"]`, it has no entries and was not
completed, and there is no error. -/
theorem GetRecordTypeFromDecl_unsupported_field_witness :
    (∃ n v', (∀ m, n ≤ m →
        GetRecordTypeFromDecl HostRegistry.getorcreatecstruct
            (sampleTarget (recordsOf [structBitField]))
            (GetType HostRegistry.getorcreatecstruct
              (sampleTarget (recordsOf [structBitField])) m) 0
            (IncludeCVisitor.create HostRegistry.freshState 0) =
          some (some (Obj.cstruct 0), v')) ∧
        v'.tagged "S" = some (Obj.cstruct 0) ∧
        v'.error_table = Table.empty ∧
        (v'.L.structs 0).entries = [] ∧ (v'.L.structs 0).complete = 0) ∧
    (HandleTopLevelDecl HostRegistry.getorcreatecstruct
        (sampleTarget (recordsOf [structBitField])) true 2 [Decl.RecordDecl 0]
        (IncludeCVisitor.create HostRegistry.freshState 0)).map
      (fun v => (v.tagged "S", v.error_table "S", (v.L.structs 0).entries.length,
        (v.L.structs 0).complete, (v.L.structs 0).undefined)) =
      some (some (Obj.cstruct 0), none, 0, 0, false) := by
  refine ⟨?_, rfl⟩
  obtain ⟨n, v', h1, h2, h3, h4⟩ := GetRecordTypeFromDecl_unsupported_field
    HostRegistry_keepsDefined
    (wellFormed_of_named (sampleTarget (recordsOf [structBitField])) [structBitField] rfl
      (by decide)) 0
    (IncludeCVisitor.create HostRegistry.freshState 0) (by decide)
    [⟨"a", true, false, QualType.Builtin .Int⟩, ⟨"b", false, false, QualType.Builtin .Int⟩] rfl
    ⟨⟨"a", true, false, QualType.Builtin .Int⟩, List.mem_cons_self _ _, Or.inl rfl⟩
  exact ⟨n, v', h1, h2 (by decide), h3, (h4 0 rfl).1, (h4 0 rfl).2⟩

/-- C4: for a function declaration with static storage class,
`TraverseFunctionDecl` returns `true` on any step budget, leaves `general`
and the statements of the liveness function as they were, and stores the
non-empty message "cannot import static functions." under the function's
name in the table of errors. -/
theorem TraverseFunctionDecl_static {ρ : Type} (getorcreatecstruct : Registry ρ)
    (Context : ASTContext) (isLinux : Bool) (fuel : Nat) (f : FunctionDecl)
    (v : IncludeCVisitor ρ) (hty : f.type.getAsFunctionType ≠ none)
    (hstatic : f.storageClass = StorageClass.SC_Static) :
    ∃ v', TraverseFunctionDecl getorcreatecstruct Context isLinux fuel f v = some (true, v') ∧
      v'.general = v.general ∧
      v'.tagged = v.tagged ∧
      v'.outputstmts = v.outputstmts ∧
      v'.error_table f.name = some "cannot import static functions." ∧
      (∀ name, name ≠ f.name → v'.error_table name = v.error_table name) ∧
      "cannot import static functions." ≠ "" := by
  cases hft : f.type.getAsFunctionType with
  | none => exact absurd hft hty
  | some fntyp =>
    refine ⟨SetErrorReport f.name (ImportError "cannot import static functions." v), ?_,
      rfl, rfl, rfl, ?_, ?_, by decide⟩
    · simp [TraverseFunctionDecl, hft, hstatic]
    · simp [SetErrorReport, ImportError, Table.setfield]
    · intro name hname
      simp [SetErrorReport, ImportError, Table.setfield, hname]

/-- C4, on `static int f(void);` in a fresh visitor: no entry `general["f"]`,
no statement, and the message under `errors["f"]`. -/
theorem TraverseFunctionDecl_static_witness :
    ∃ v', TraverseFunctionDecl HostRegistry.getorcreatecstruct (sampleTarget noRecords) true 0
        staticIntF (IncludeCVisitor.create HostRegistry.freshState 0) = some (true, v') ∧
      v'.general = Table.empty ∧
      v'.tagged = Table.empty ∧
      v'.outputstmts = [] ∧
      v'.error_table "f" = some "cannot import static functions." ∧
      (∀ name, name ≠ "f" → v'.error_table name = none) ∧
      "cannot import static functions." ≠ "" :=
  TraverseFunctionDecl_static HostRegistry.getorcreatecstruct (sampleTarget noRecords) true 0
    staticIntF (IncludeCVisitor.create HostRegistry.freshState 0) (Option.some_ne_none _) rfl

/-- C5: for a function declaration that is accepted (not static, of a type
that translates), its traversal and the traversal of the same declaration
again both return `true`, given steps enough; the second leaves `general`,
`tagged` and the table of errors exactly as the first left them, with a value
under the function's name in `general`, and neither records an error. -/
theorem TraverseFunctionDecl_redeclared {ρ : Type} {reg : Registry ρ} (hreg : reg.KeepsDefined)
    (hcre : reg.CreatesUndefined) {Context : ASTContext} (hwf : Context.WellFormed)
    (isLinux : Bool) (f : FunctionDecl) (v : IncludeCVisitor ρ) (hacc : f.Accepted Context) :
    ∃ n v1 v2,
      (∀ m, n ≤ m →
        TraverseFunctionDecl reg Context isLinux m f v = some (true, v1) ∧
        TraverseFunctionDecl reg Context isLinux m f v1 = some (true, v2)) ∧
      v2.general = v1.general ∧
      v2.error_table = v1.error_table ∧
      v2.tagged = v1.tagged ∧
      (v1.general f.name).isSome = true ∧
      (∀ typ, v1.general f.name = some typ → v2.general f.name = some typ) ∧
      v1.error_table = v.error_table := by
  obtain ⟨hst, FT, hft, htr⟩ := hacc
  obtain ⟨n1, ⟨r1, w1⟩, h1⟩ := GetFuncType_returns hreg hwf FT v
  have hr1 := (GetFuncType_decides (GetType_decides reg Context n1) FT v r1 w1 h1).mpr htr
  obtain ⟨typ1, rfl⟩ := Option.isSome_iff_exists.mp hr1
  obtain ⟨n2, ⟨r2, w2⟩, h2⟩ := GetFuncType_returns hreg hwf FT
    (KeepFunctionLive f (CreateFunction f.name (TraverseFunctionDecl.InternalName isLinux f)
      typ1 w1))
  have hr2 := (GetFuncType_decides (GetType_decides reg Context n2) FT _ r2 w2 h2).mpr htr
  obtain ⟨typ2, rfl⟩ := Option.isSome_iff_exists.mp hr2
  have hLI := Later_invariant hreg Context
  have hL : Later w1 (KeepFunctionLive f
      (CreateFunction f.name (TraverseFunctionDecl.InternalName isLinux f) typ1 w1)) :=
    CreateFunction_later _ _ _ _
  have hnames := GetFuncType_repeats hreg Context (GetType_keeps hLI n1)
    (GetType_keeps hLI n2) (GetType_repeats hreg hcre Context n1 n2) FT v _ w1 _ _ w2 h1 hL h2
  have hF1 : Frame v w1 := GetFuncType_keeps (Frame_invariant reg Context)
    (GetType_keeps (Frame_invariant reg Context) n1) FT v _ w1 h1
  have hF2 : Frame _ w2 := GetFuncType_keeps (Frame_invariant reg Context)
    (GetType_keeps (Frame_invariant reg Context) n2) FT _ _ w2 h2
  have hhas1 : (CreateFunction f.name (TraverseFunctionDecl.InternalName isLinux f) typ1
      w1).general.hasfield f.name = true := CreateFunction_hasfield _ _ _ _
  have hhas2 : w2.general.hasfield f.name = true := by
    rw [hnames.1]
    exact hhas1
  have hskip := CreateFunction_of_hasfield f.name (TraverseFunctionDecl.InternalName isLinux f)
    typ2 w2 hhas2
  have herr1 : (CreateFunction f.name (TraverseFunctionDecl.InternalName isLinux f) typ1
      w1).error_table = w1.error_table := by
    unfold CreateFunction
    split <;> rfl
  have hgen : (KeepFunctionLive f (CreateFunction f.name
      (TraverseFunctionDecl.InternalName isLinux f) typ2 w2)).general =
      (KeepFunctionLive f (CreateFunction f.name
        (TraverseFunctionDecl.InternalName isLinux f) typ1 w1)).general := by
    rw [hskip]
    exact hnames.1
  refine ⟨max n1 n2, _, _, fun m hm => ⟨?_, ?_⟩, hgen, ?_, ?_, hhas1, ?_, ?_⟩
  · have := GetFuncType_mono (GetType_mono reg Context (le_trans (le_max_left n1 n2) hm))
      FT v _ h1
    simp only [TraverseFunctionDecl, hft, hst, if_false, this]
  · have := GetFuncType_mono (GetType_mono reg Context (le_trans (le_max_right n1 n2) hm))
      FT _ _ h2
    simp only [TraverseFunctionDecl, hft, hst, if_false, this]
  · rw [hskip]
    exact hF2.error_table
  · rw [hskip]
    exact hnames.2
  · intro typ ht
    rw [hgen]
    exact ht
  · exact herr1.trans hF1.error_table

/-- C5, on `struct S { int x; }; int use(struct S *p); int use(struct S
*p);` in a fresh visitor: both traversals return, and the function
registered by the first is the value of `general["use"]` after the second,
with no error under the name. -/
theorem TraverseFunctionDecl_redeclared_witness :
    (∃ n v1 v2,
      (∀ m, n ≤ m →
        TraverseFunctionDecl HostRegistry.getorcreatecstruct (sampleTarget (recordsOf [structS]))
          true m externUseS (IncludeCVisitor.create HostRegistry.freshState 0) =
            some (true, v1) ∧
        TraverseFunctionDecl HostRegistry.getorcreatecstruct (sampleTarget (recordsOf [structS]))
          true m externUseS v1 = some (true, v2)) ∧
      v2.general = v1.general ∧
      v2.error_table = v1.error_table ∧
      v1.error_table = Table.empty) ∧
    (HandleTopLevelDecl HostRegistry.getorcreatecstruct (sampleTarget (recordsOf [structS]))
        true 3 [Decl.FunctionDecl externUseS, Decl.FunctionDecl externUseS]
        (IncludeCVisitor.create HostRegistry.freshState 0)).map
      (fun v => (v.general "use", v.error_table "use")) =
      some (some (Obj.externfunction "use"
        (Obj.functype [Obj.pointer (Obj.cstruct 0)] (Obj.typefield "int32") false)), none) := by
  refine ⟨?_, rfl⟩
  obtain ⟨n, v1, v2, h, hg, he, _, _, _, he1⟩ := TraverseFunctionDecl_redeclared
    HostRegistry_keepsDefined HostRegistry_createsUndefined
    (wellFormed_of_named (sampleTarget (recordsOf [structS])) [structS] rfl (by decide)) true
    externUseS (IncludeCVisitor.create HostRegistry.freshState 0)
    ⟨by decide, _, rfl, Or.inr (Translates.initType rfl), fun PT hPT => by
      simp only [FunctionType.paramTypes, List.mem_singleton] at hPT
      subst hPT
      exact Translates.element rfl
        (Translates.record rfl rfl)⟩
  exact ⟨n, v1, v2, h, hg, he, he1⟩


/-- C6: for an object-like macro whose body is one integer literal, with or
without a minus before it, and `i` the 64-bit signed value of the literal:
if `i` survives the conversion to `double` and back, `AddMacro` stores the
number under the macro's name; if it does not, `macros` is left as it was. So
a macro absent from `macros` has an entry afterwards exactly when `i`
survives, which is when the `double` nearest to `i` is `i`. -/
theorem AddMacro_integer_stored_iff_roundtrip (PP : Preprocessor) (II : IdentifierInfo)
    (MI : MacroInfo) (table : Table ℚ) (negate : Bool) (Tok : Token)
    (hdef : II.hasMacroDefinition = true) (hobj : MI.isFunctionLike = false)
    (hbody : AcceptedBody PP MI negate Tok)
    (hint : (PP.numericLiteral (PP.getSpelling Tok)).isFloatingLiteral = false) :
    (castDoubleToInt64 (castInt64ToDouble
          (getSExtValue64 (PP.numericLiteral (PP.getSpelling Tok)).integerValue)) =
        getSExtValue64 (PP.numericLiteral (PP.getSpelling Tok)).integerValue →
      AddMacro PP II MI table = table.setfield II.name
        (if negate then
          -castInt64ToDouble (getSExtValue64 (PP.numericLiteral (PP.getSpelling Tok)).integerValue)
        else
          castInt64ToDouble (getSExtValue64 (PP.numericLiteral (PP.getSpelling Tok)).integerValue))) ∧
    (castDoubleToInt64 (castInt64ToDouble
          (getSExtValue64 (PP.numericLiteral (PP.getSpelling Tok)).integerValue)) ≠
        getSExtValue64 (PP.numericLiteral (PP.getSpelling Tok)).integerValue →
      AddMacro PP II MI table = table) ∧
    (table II.name = none →
      ((AddMacro PP II MI table II.name).isSome ↔
        castDoubleToInt64 (castInt64ToDouble
            (getSExtValue64 (PP.numericLiteral (PP.getSpelling Tok)).integerValue)) =
          getSExtValue64 (PP.numericLiteral (PP.getSpelling Tok)).integerValue)) ∧
    (castDoubleToInt64 (castInt64ToDouble
          (getSExtValue64 (PP.numericLiteral (PP.getSpelling Tok)).integerValue)) =
        getSExtValue64 (PP.numericLiteral (PP.getSpelling Tok)).integerValue ↔
      nearestDouble (getSExtValue64 (PP.numericLiteral (PP.getSpelling Tok)).integerValue) =
        getSExtValue64 (PP.numericLiteral (PP.getSpelling Tok)).integerValue) := by
  have h := AddMacro_eq_of_accepted PP II MI table negate Tok hdef hobj hbody
  generalize hi : getSExtValue64 (PP.numericLiteral (PP.getSpelling Tok)).integerValue = i
  have hv : AddMacro.value (PP.numericLiteral (PP.getSpelling Tok)) =
      if castDoubleToInt64 (castInt64ToDouble i) ≠ i then none
      else some (castInt64ToDouble i) := by
    simp [AddMacro.value, hint, hi]
  rw [hv] at h
  have hr := getSExtValue64_range (PP.numericLiteral (PP.getSpelling Tok)).integerValue
  rw [hi] at hr
  refine ⟨?_, ?_, ?_, roundtrip_iff i hr.1 hr.2⟩
  · intro hrt
    rw [h]
    simp [hrt]
  · intro hrt
    rw [h]
    simp [hrt]
  · intro hnone
    by_cases hrt : castDoubleToInt64 (castInt64ToDouble i) = i
    · rw [h]
      simp [hrt, Table.setfield]
    · rw [h]
      simp [hrt, hnone]

/-- C6, on the sample front end: `#define N 100` and `#define N -100` are
stored, `#define BIG 123456789012345678` leaves `macros` as it was. -/
theorem AddMacro_integer_stored_iff_roundtrip_witness :
    AddMacro decimalPP defineN100.1 defineN100.2 Table.empty =
      Table.setfield Table.empty "N" 100 ∧
    AddMacro decimalPP defineNMinus100.1 defineNMinus100.2 Table.empty =
      Table.setfield Table.empty "N" (-100) ∧
    AddMacro decimalPP defineBIG.1 defineBIG.2 Table.empty = Table.empty :=
  ⟨(AddMacro_integer_stored_iff_roundtrip decimalPP defineN100.1 defineN100.2 Table.empty
      false ⟨TokenKind.numeric_constant, "100"⟩ rfl rfl
      ⟨Or.inl ⟨rfl, rfl⟩, rfl, by decide⟩ rfl).1 (by decide),
    (AddMacro_integer_stored_iff_roundtrip decimalPP defineNMinus100.1 defineNMinus100.2
      Table.empty true ⟨TokenKind.numeric_constant, "100"⟩ rfl rfl
      ⟨Or.inr ⟨rfl, ⟨TokenKind.minus, "-"⟩, rfl, rfl⟩, rfl, by decide⟩ rfl).1 (by decide),
    (AddMacro_integer_stored_iff_roundtrip decimalPP defineBIG.1 defineBIG.2 Table.empty
      false ⟨TokenKind.numeric_constant, "123456789012345678"⟩ rfl rfl
      ⟨Or.inl ⟨rfl, rfl⟩, rfl, by decide⟩ rfl).2.1 (by decide)⟩

/-- C7: the macro `#define ALLBITS 18446744073709551615`, an integer literal
of value `2^64 - 1` that reads without error, is stored as `-1`, not as its
value; and `#define N 100`, `#define N -100` are stored as `100` and `-100`. -/
theorem AddMacro_wraps_large_literal :
    (decimalPP.numericLiteral "18446744073709551615").hadError = false ∧
    (decimalPP.numericLiteral "18446744073709551615").integerValue = 18446744073709551615 ∧
    AddMacro decimalPP defineALLBITS.1 defineALLBITS.2 Table.empty "ALLBITS" = some (-1) ∧
    AddMacro decimalPP defineN100.1 defineN100.2 Table.empty "N" = some 100 ∧
    AddMacro decimalPP defineNMinus100.1 defineNMinus100.2 Table.empty "N" = some (-100) := by
  refine ⟨by decide, by decide, by decide, by decide, by decide⟩

/-- C8: `AddMacro` either leaves `macros` as it was, or the macro has a
definition, is not function-like, its replacement list is one numeric
constant or a minus and one numeric constant, the literal reads without
error, and `macros` gets one entry under the macro's name. The table of
errors that an import returns does not depend on the macros at all. -/
theorem AddMacro_only_numeric_bodies {ρ : Type} (PP : Preprocessor) (II : IdentifierInfo)
    (MI : MacroInfo) (table : Table ℚ) :
    (AddMacro PP II MI table = table ∨
      (II.hasMacroDefinition = true ∧ MI.isFunctionLike = false ∧
        ∃ negate Tok V, AcceptedBody PP MI negate Tok ∧
          AddMacro PP II MI table = table.setfield II.name V)) ∧
    (II.hasMacroDefinition = false → AddMacro PP II MI table = table) ∧
    (MI.isFunctionLike = true → AddMacro PP II MI table = table) ∧
    (MI.replacementTokens = [] → AddMacro PP II MI table = table) ∧
    (3 ≤ MI.replacementTokens.length → AddMacro PP II MI table = table) ∧
    (∀ t0 t1, MI.replacementTokens = [t0, t1] → t0.kind ≠ TokenKind.minus →
      AddMacro PP II MI table = table) ∧
    (∀ t0, MI.replacementTokens = [t0] → t0.kind ≠ TokenKind.numeric_constant →
      AddMacro PP II MI table = table) ∧
    (∀ t0 t1, MI.replacementTokens = [t0, t1] → t1.kind ≠ TokenKind.numeric_constant →
      AddMacro PP II MI table = table) ∧
    (∀ t0, MI.replacementTokens = [t0] →
      (PP.numericLiteral (PP.getSpelling t0)).hadError = true →
      AddMacro PP II MI table = table) ∧
    (∀ t0 t1, MI.replacementTokens = [t0, t1] →
      (PP.numericLiteral (PP.getSpelling t1)).hadError = true →
      AddMacro PP II MI table = table) ∧
    (∀ (getorcreatecstruct : Registry ρ) (Context : ASTContext) (isLinux : Bool) (fuel : Nat)
        (decls : List Decl) (macroTable : List (IdentifierInfo × MacroInfo)) (L : LuaState ρ)
        (id : Nat),
      (dofile getorcreatecstruct Context PP isLinux fuel decls macroTable L id).map
          (fun r => r.errors) =
        (dofile getorcreatecstruct Context PP isLinux fuel decls [] L id).map
          (fun r => r.errors)) := by
  refine ⟨AddMacro_cases PP II MI table, ?_, ?_, ?_, ?_, ?_, ?_, ?_, ?_, ?_, ?_⟩
  · intro h; simp [AddMacro, h]
  · intro h; simp [AddMacro, h]
  · intro h; simp [AddMacro, h]
  · intro h
    rcases hts : MI.replacementTokens with _ | ⟨t0, _ | ⟨t1, _ | ⟨t2, rest⟩⟩⟩
    · simp [AddMacro, hts]
    · simp [hts] at h
    · simp [hts] at h
    · simp [AddMacro, hts]
  · intro t0 t1 hts hk; simp [AddMacro, hts, hk]
  · intro t0 hts hk; simp [AddMacro, hts, hk]
  · intro t0 t1 hts hk
    by_cases hm : t0.kind = TokenKind.minus <;> simp [AddMacro, hts, hk, hm]
  · intro t0 hts hk; simp [AddMacro, hts, hk]
  · intro t0 t1 hts hk
    by_cases hm : t0.kind = TokenKind.minus <;> simp [AddMacro, hts, hk, hm]
  · intro getorcreatecstruct Context isLinux fuel decls macroTable L id
    unfold dofile
    cases HandleTopLevelDecl getorcreatecstruct Context isLinux fuel decls
      (IncludeCVisitor.create L id) <;> rfl

/-- C10: an import returns, given steps enough, and at its end: a function
declaration whose traversal registered its name in `general` has its
statement in the body of the liveness function, as has every accepted
function declaration; every statement of the body is the cast to `void` of a
reference to a function declaration of the translation unit that was accepted
and whose name is in `general`; a declaration that was rejected, for being
static or of a type that does not translate, has no statement. -/
theorem dofile_liveness_body {ρ : Type} {reg : Registry ρ} (hreg : reg.KeepsDefined)
    {Context : ASTContext} (hwf : Context.WellFormed) (PP : Preprocessor) (isLinux : Bool)
    (decls : List Decl) (macroTable : List (IdentifierInfo × MacroInfo)) (L : LuaState ρ)
    (id : Nat) :
    ∃ n r, (∀ m, n ≤ m → dofile reg Context PP isLinux m decls macroTable L id = some r) ∧
      (∀ pre f post m v1 b v2, decls = pre ++ Decl.FunctionDecl f :: post →
        HandleTopLevelDecl reg Context isLinux m pre (IncludeCVisitor.create L id) = some v1 →
        TraverseFunctionDecl reg Context isLinux m f v1 = some (b, v2) →
        v2.general f.name ≠ v1.general f.name →
        (∃ i t, v2.general f.name = some (Obj.externfunction i t)) →
        livenessStmt f ∈ r.livenessDecl.body) ∧
      (∀ f, Decl.FunctionDecl f ∈ decls → f.Accepted Context →
        livenessStmt f ∈ r.livenessDecl.body) ∧
      (∀ s ∈ r.livenessDecl.body, ∃ f, Decl.FunctionDecl f ∈ decls ∧ f.Accepted Context ∧
        s = Expr.CStyleCastExpr (QualType.Builtin .Void) CastKind.CK_ToVoid (Expr.DeclRefExpr f) ∧
        (r.general f.name).isSome = true) ∧
      (∀ f, ¬ f.Accepted Context → livenessStmt f ∉ r.livenessDecl.body) := by
  obtain ⟨n, r, hr⟩ := dofile_terminates hreg hwf PP isLinux decls macroTable L id
  obtain ⟨v, hv, hgen, -, -, hliv, -⟩ := dofile_eq_some (hr n (Nat.le_refl n))
  obtain ⟨-, added, hadd, hall, hmem⟩ := HandleTopLevelDecl_stmts decls hv
  have hbody : r.livenessDecl.body = added := by
    rw [hliv]
    simpa [GetLivenessFunction, IncludeCVisitor.create] using hadd
  have hsolely : ∀ s ∈ r.livenessDecl.body, ∃ f, Decl.FunctionDecl f ∈ decls ∧
      f.Accepted Context ∧ s = livenessStmt f ∧ (r.general f.name).isSome = true := by
    intro s hs
    rw [hbody] at hs
    rw [hgen]
    exact hall s hs
  have haccepted : ∀ f, Decl.FunctionDecl f ∈ decls → f.Accepted Context →
      livenessStmt f ∈ r.livenessDecl.body := by
    intro f hf ha
    rw [hbody]
    exact hmem f hf ha
  refine ⟨n, r, hr, ?_, haccepted, hsolely, ?_⟩
  · intro pre f post m v1 b v2 hd _ ht hne hext
    exact haccepted f (by rw [hd]; simp) (TraverseFunctionDecl_registered ht hne hext)
  · intro f hna hf
    obtain ⟨g, _, hacc, he, _⟩ := hsolely _ hf
    cases livenessStmt_injective he
    exact hna hacc

/-- C10, on `int g(void); static int f(void);`: the import returns, the
body of the liveness function is the one statement for `g`, and `f`, which is
rejected, has none. -/
theorem dofile_liveness_body_witness :
    ∃ n r, (∀ m, n ≤ m → dofile HostRegistry.getorcreatecstruct (sampleTarget (recordsOf []))
        decimalPP true m [Decl.FunctionDecl externIntG, Decl.FunctionDecl staticIntF] []
        HostRegistry.freshState 0 = some r) ∧
      livenessStmt externIntG ∈ r.livenessDecl.body ∧
      livenessStmt staticIntF ∉ r.livenessDecl.body ∧
      (dofile HostRegistry.getorcreatecstruct (sampleTarget (recordsOf []))
        decimalPP true 2 [Decl.FunctionDecl externIntG, Decl.FunctionDecl staticIntF] []
        HostRegistry.freshState 0).map (fun r => r.livenessDecl.body) =
        some [Expr.CStyleCastExpr (QualType.Builtin .Void) CastKind.CK_ToVoid
          (Expr.DeclRefExpr externIntG)] := by
  obtain ⟨n, r, h, _, hacc, _, hrej⟩ := dofile_liveness_body HostRegistry_keepsDefined
    (wellFormed_of_named (sampleTarget (recordsOf [])) [] rfl (by decide)) decimalPP true
    [Decl.FunctionDecl externIntG, Decl.FunctionDecl staticIntF] [] HostRegistry.freshState 0
  refine ⟨n, r, h, hacc externIntG (by simp) ⟨by decide, _, rfl, Or.inr ?_, ?_⟩,
    hrej staticIntF (fun h => h.1 rfl), rfl⟩
  · exact Translates.initType rfl
  · intro PT hPT
    cases hPT


/-- C11: on well-formed declarations and a registry that keeps defined
handles, `GetFuncType` returns within some step budget and on every larger
one. Whenever it returns, it returns a descriptor exactly when the return
type is `void` or translates and every parameter type of the prototype
translates (`Translates` being the types on which `GetType` succeeds); the
descriptor is `functype` of the translations of the parameter types, in
order, of `unit` for `void` and the translation of the return type otherwise,
and of the prototype's variadic flag; without a prototype the parameters are
none and the flag is `false`. -/
theorem GetFuncType_descriptor {ρ : Type} {reg : Registry ρ} (hreg : reg.KeepsDefined)
    {Context : ASTContext} (hwf : Context.WellFormed) (FT : FunctionType)
    (v : IncludeCVisitor ρ) :
    (∃ n x, ∀ m, n ≤ m → GetFuncType (GetType reg Context m) FT v = some x) ∧
    (∀ n T w t w1, GetType reg Context n T w = some (t, w1) →
      (t.isSome = true ↔ Translates Context T)) ∧
    ∀ n r v1, GetFuncType (GetType reg Context n) FT v = some (r, v1) →
      (r.isSome = true ↔
        (FT.returnType.isVoidType = true ∨ Translates Context FT.returnType) ∧
          ∀ PT ∈ FT.paramTypes, Translates Context PT) ∧
      (r = none ↔ ¬ ((FT.returnType.isVoidType = true ∨ Translates Context FT.returnType) ∧
          ∀ PT ∈ FT.paramTypes, Translates Context PT)) ∧
      (∀ typ, r = some typ → ∃ ret v0 ps,
        (FT.returnType.isVoidType = true → ret = Obj.typefield "unit" ∧ v0 = v) ∧
        (FT.returnType.isVoidType = false →
          GetType reg Context n FT.returnType v = some (some ret, v0)) ∧
        TranslatedInOrder (GetType reg Context n) FT.paramTypes v0 ps v1 ∧
        ps.length = FT.paramTypes.length ∧
        typ = Obj.functype ps ret FT.isVariadic) ∧
      (FT.proto = none → ∀ typ, r = some typ → ∃ ret, typ = Obj.functype [] ret false) ∧
      (∀ params variadic, FT.proto = some (params, variadic) →
        FT.paramTypes = params ∧ FT.isVariadic = variadic) := by
  refine ⟨?_, fun n T w t w1 h => GetType_decides reg Context n T w t w1 h, ?_⟩
  · obtain ⟨n, x, hx⟩ := GetFuncType_returns hreg hwf FT v
    exact ⟨n, x, fun m hm => GetFuncType_mono (GetType_mono reg Context hm) FT v x hx⟩
  · intro n r v1 h
    have hdec := GetFuncType_decides (GetType_decides reg Context n) FT v r v1 h
    have hsome : ∀ typ, r = some typ → ∃ ret v0 ps,
        (FT.returnType.isVoidType = true → ret = Obj.typefield "unit" ∧ v0 = v) ∧
        (FT.returnType.isVoidType = false →
          GetType reg Context n FT.returnType v = some (some ret, v0)) ∧
        TranslatedInOrder (GetType reg Context n) FT.paramTypes v0 ps v1 ∧
        ps.length = FT.paramTypes.length ∧
        typ = Obj.functype ps ret FT.isVariadic := by
      intro typ ht
      subst ht
      obtain ⟨ret, v0, ps, h1, h2, h3, h4⟩ := GetFuncType_result_some _ FT v typ v1 h
      exact ⟨ret, v0, ps, h1, h2, h3, TranslatedInOrder_length _ _ _ _ _ h3, h4⟩
    refine ⟨hdec, ?_, hsome, ?_, ?_⟩
    · have hdec2 : r.isSome = true ↔
          (FT.returnType.isVoidType = true ∨ Translates Context FT.returnType) ∧
            ∀ PT ∈ FT.paramTypes, Translates Context PT := hdec
      rw [← hdec2]
      cases r <;> simp
    · intro hp typ ht
      obtain ⟨ret, v0, ps, _, _, h3, _, h4⟩ := hsome typ ht
      have hpt : FT.paramTypes = [] := by simp [FunctionType.paramTypes, hp]
      have hvar : FT.isVariadic = false := by simp [FunctionType.isVariadic, hp]
      rw [hpt] at h3
      rw [h3.1, hvar] at h4
      exact ⟨ret, h4⟩
    · intro params variadic hp
      simp [FunctionType.paramTypes, FunctionType.isVariadic, hp]

/-- C11, on the type of `int use(struct S *p, ...)` over `struct S { int x;
};`, and on that of `int g()`, in a fresh visitor. -/
theorem GetFuncType_descriptor_witness :
    (∃ n x, ∀ m, n ≤ m →
      GetFuncType (GetType HostRegistry.getorcreatecstruct
        (sampleTarget (recordsOf [structS])) m)
        ⟨QualType.Builtin .Int, some ([QualType.Pointer (QualType.Record 0)], true)⟩
        (IncludeCVisitor.create HostRegistry.freshState 0) = some x) ∧
    (GetFuncType (GetType HostRegistry.getorcreatecstruct
        (sampleTarget (recordsOf [structS])) 3)
        ⟨QualType.Builtin .Int, some ([QualType.Pointer (QualType.Record 0)], true)⟩
        (IncludeCVisitor.create HostRegistry.freshState 0)).map Prod.fst =
      some (some (Obj.functype [Obj.pointer (Obj.cstruct 0)] (Obj.typefield "int32") true)) ∧
    (GetFuncType (GetType HostRegistry.getorcreatecstruct
        (sampleTarget (recordsOf [structS])) 3)
        ⟨QualType.Builtin .Void, none⟩
        (IncludeCVisitor.create HostRegistry.freshState 0)).map Prod.fst =
      some (some (Obj.functype [] (Obj.typefield "unit") false)) ∧
    (GetFuncType (GetType HostRegistry.getorcreatecstruct
        (sampleTarget (recordsOf [structS])) 3)
        ⟨QualType.Builtin .Int, some ([QualType.Builtin .LongDouble], false)⟩
        (IncludeCVisitor.create HostRegistry.freshState 0)).map Prod.fst = some none :=
  ⟨(GetFuncType_descriptor HostRegistry_keepsDefined
      (wellFormed_of_named (sampleTarget (recordsOf [structS])) [structS] rfl (by decide))
      ⟨QualType.Builtin .Int, some ([QualType.Pointer (QualType.Record 0)], true)⟩
      (IncludeCVisitor.create HostRegistry.freshState 0)).1, rfl, rfl, rfl⟩

/-- C12: for a canonical type that is a builtin other than `void`, `bool`,
the sixteen integer kinds, `float` and `double` (so for half, long double,
nullptr and the 128-bit integers), a complex type, an lvalue or rvalue
reference, a variable-length or incomplete array, a block pointer, a member
pointer or an atomic type, `GetType` returns `false` with no descriptor, on
every step budget, and the import error message is "type not understood: ",
the spelling of the type, a blank and the number of its type class; nothing
else of the state changes. -/
theorem GetType_not_understood {ρ : Type} (reg : Registry ρ) (Context : ASTContext)
    (fuel : Nat) (T : QualType) (v : IncludeCVisitor ρ)
    (hT : (∃ kind, T = QualType.Builtin kind ∧ kind ≠ BuiltinKind.Void ∧
          kind ≠ BuiltinKind.Bool ∧ kind ∉ integerKinds ∧ kind ≠ BuiltinKind.Float ∧
          kind ≠ BuiltinKind.Double) ∨
      (∃ E, T = QualType.Complex E) ∨ (∃ E, T = QualType.LValueReference E) ∨
      (∃ E, T = QualType.RValueReference E) ∨ (∃ E, T = QualType.VariableArray E) ∨
      (∃ E, T = QualType.IncompleteArray E) ∨ (∃ E, T = QualType.BlockPointer E) ∨
      (∃ E, T = QualType.MemberPointer E) ∨ (∃ E, T = QualType.Atomic E)) :
    T.getCanonicalType = T ∧
    GetType reg Context (fuel + 1) T v =
      some (none, { v with error_message := "type not understood: " ++
        Context.getAsString T ++ " " ++ toString (Context.typeClassValue T.getTypeClass) }) := by
  have key : T.getCanonicalType = T ∧
      GetType.switch Context T.getCanonicalType = GetType.Action.notUnderstood := by
    rcases hT with ⟨kind, rfl, h1, h2, h3, h4, h5⟩ | ⟨E, rfl⟩ | ⟨E, rfl⟩ | ⟨E, rfl⟩ | ⟨E, rfl⟩ |
      ⟨E, rfl⟩ | ⟨E, rfl⟩ | ⟨E, rfl⟩ | ⟨E, rfl⟩
    · cases kind <;> first
        | exact ⟨rfl, rfl⟩
        | exact absurd rfl h1
        | exact absurd rfl h2
        | exact absurd rfl h4
        | exact absurd rfl h5
        | exact absurd (by decide) h3
    all_goals exact ⟨rfl, rfl⟩
  obtain ⟨hc, hs⟩ := key
  refine ⟨hc, ?_⟩
  rw [hc] at hs
  simp only [GetType, GetType.body, hc, hs, GetType.notUnderstood, ImportError]

/-- C12, on `long double` in a fresh visitor of the sample target. -/
theorem GetType_not_understood_witness :
    ∃ v', GetType HostRegistry.getorcreatecstruct (sampleTarget noRecords) 1
        (QualType.Builtin .LongDouble) (IncludeCVisitor.create HostRegistry.freshState 0) =
          some (none, v') ∧
      v'.error_message = "type not understood: long double 0" := by
  obtain ⟨_, h1⟩ := GetType_not_understood HostRegistry.getorcreatecstruct
    (sampleTarget noRecords) 0 (QualType.Builtin .LongDouble)
    (IncludeCVisitor.create HostRegistry.freshState 0)
    (Or.inl ⟨_, rfl, by decide, by decide, by decide, by decide, by decide⟩)
  exact ⟨_, h1, by decide⟩

/-- C13, as it holds: for the void type `GetType` returns, on every step
budget and with no change to the state, the field `opaque` of `terra.types`,
whereas `GetFuncType` puts the field `unit` in the return slot of a function
whose return type is void; the two are different fields. -/
theorem GetType_void_descriptor {ρ : Type} (reg : Registry ρ) (Context : ASTContext) (fuel : Nat)
    (T : QualType) (v : IncludeCVisitor ρ) (hT : T.isVoidType = true) :
    GetType reg Context (fuel + 1) T v = some (some (Obj.typefield "opaque"), v) ∧
    (∀ (g : TypeGetter ρ) (FT : FunctionType) (w : IncludeCVisitor ρ) typ w1,
      FT.returnType = T → GetFuncType g FT w = some (some typ, w1) →
      ∃ ps, typ = Obj.functype ps (Obj.typefield "unit") FT.isVariadic) ∧
    Obj.typefield "opaque" ≠ Obj.typefield "unit" := by
  have hc : T.getCanonicalType = QualType.Builtin .Void := by
    unfold QualType.isVoidType at hT
    split at hT
    · assumption
    · cases hT
  refine ⟨?_, ?_, ?_⟩
  · simp only [GetType, GetType.body, hc, GetType.switch]
  · intro g FT w typ w1 hFT h
    obtain ⟨ret, v0, ps, h1, _, _, h4⟩ := GetFuncType_result_some g FT w typ w1 h
    rw [hFT] at h1
    rw [(h1 hT).1] at h4
    exact ⟨ps, h4⟩
  · intro h
    injection h with h
    exact absurd h (by decide)

/-- C13, on `void` and on the type of `void f(void)` in a fresh visitor. -/
theorem GetType_void_descriptor_witness :
    GetType HostRegistry.getorcreatecstruct (sampleTarget noRecords) 1 (QualType.Builtin .Void)
        (IncludeCVisitor.create HostRegistry.freshState 0) =
      some (some (Obj.typefield "opaque"), IncludeCVisitor.create HostRegistry.freshState 0) ∧
    Obj.typefield "opaque" ≠ Obj.typefield "unit" :=
  ⟨(GetType_void_descriptor HostRegistry.getorcreatecstruct (sampleTarget noRecords) 0
      (QualType.Builtin .Void) (IncludeCVisitor.create HostRegistry.freshState 0) rfl).1,
    (GetType_void_descriptor HostRegistry.getorcreatecstruct (sampleTarget noRecords) 0
      (QualType.Builtin .Void) (IncludeCVisitor.create HostRegistry.freshState 0) rfl).2.2⟩

/-- C13, counterexample: in a fresh visitor `GetType` translates `void` to
the field `opaque`, `GetFuncType` gives `void f(void)` the return slot
`unit`, and the first is not the second. -/
theorem GetType_void_is_not_unit :
    (GetType HostRegistry.getorcreatecstruct (sampleTarget noRecords) 1 (QualType.Builtin .Void)
        (IncludeCVisitor.create HostRegistry.freshState 0)).map Prod.fst =
      some (some (Obj.typefield "opaque")) ∧
    (GetFuncType (GetType HostRegistry.getorcreatecstruct (sampleTarget noRecords) 1)
        ⟨QualType.Builtin .Void, some ([], false)⟩
        (IncludeCVisitor.create HostRegistry.freshState 0)).map Prod.fst =
      some (some (Obj.functype [] (Obj.typefield "unit") false)) ∧
    (GetType HostRegistry.getorcreatecstruct (sampleTarget noRecords) 1 (QualType.Builtin .Void)
        (IncludeCVisitor.create HostRegistry.freshState 0)).map Prod.fst ≠
      some (some (Obj.typefield "unit")) := by
  refine ⟨rfl, rfl, ?_⟩
  intro h
  have h2 : some (some (Obj.typefield "opaque")) = some (some (Obj.typefield "unit")) := h
  injection h2 with h2
  injection h2 with h2
  injection h2 with h2
  exact absurd h2 (by decide)

/-- C14, as it holds: for a function type declared without a prototype,
whatever its return type, `GetType` returns `false` with no descriptor and
the message "type not understood: ..." on every step budget, and so it does
for a pointer to such a type; it is `GetFuncType`, which `TraverseFunctionDecl`
calls on the type of a function declaration, that gives a type without a
prototype a descriptor of no parameters that is not variadic. -/
theorem GetType_function_no_proto {ρ : Type} (reg : Registry ρ) (Context : ASTContext)
    (fuel : Nat) (RT : QualType) (v : IncludeCVisitor ρ) :
    GetType reg Context (fuel + 1) (QualType.FunctionNoProto RT) v =
      some (none, { v with error_message := ("type not understood: " ++
        Context.getAsString (QualType.FunctionNoProto RT) ++ " " ++
        toString (Context.typeClassValue TypeClass.FunctionNoProto)) }) ∧
    GetType reg Context (fuel + 2) (QualType.Pointer (QualType.FunctionNoProto RT)) v =
      some (none, { v with error_message := ("type not understood: " ++
        Context.getAsString (QualType.FunctionNoProto RT) ++ " " ++
        toString (Context.typeClassValue TypeClass.FunctionNoProto)) }) ∧
    (QualType.FunctionNoProto RT).getAsFunctionType = some ⟨RT, none⟩ ∧
    ∀ (g : TypeGetter ρ) (w : IncludeCVisitor ρ) typ w1,
      GetFuncType g ⟨RT, none⟩ w = some (some typ, w1) →
      ∃ ret, typ = Obj.functype [] ret false ∧
        (RT.isVoidType = true → ret = Obj.typefield "unit") ∧
        (RT.isVoidType = false → g RT w = some (some ret, w1)) := by
  have h1 : GetType reg Context (fuel + 1) (QualType.FunctionNoProto RT) v =
      some (none, { v with error_message := ("type not understood: " ++
        Context.getAsString (QualType.FunctionNoProto RT) ++ " " ++
        toString (Context.typeClassValue TypeClass.FunctionNoProto)) }) := by
    simp only [GetType, GetType.body, QualType.getCanonicalType, GetType.switch,
      GetType.notUnderstood, ImportError, QualType.getTypeClass]
  refine ⟨h1, ?_, rfl, ?_⟩
  · have h2 : GetType reg Context (fuel + 2) (QualType.Pointer (QualType.FunctionNoProto RT)) v =
        GetType.wrap Obj.pointer
          (GetType reg Context (fuel + 1) (QualType.FunctionNoProto RT) v) := by
      simp only [GetType, GetType.body, QualType.getCanonicalType, GetType.switch]
    rw [h2, h1]
    rfl
  · intro g w typ w1 h
    obtain ⟨ret, v0, ps, hv, hnv, hch, h4⟩ := GetFuncType_result_some g _ w typ w1 h
    have hps : ps = [] ∧ w1 = v0 := hch
    refine ⟨ret, ?_, fun hvoid => (hv hvoid).1, fun hvoid => ?_⟩
    · rw [h4, hps.1]
      rfl
    · rw [hps.2]
      exact hnv hvoid

/-- C14, counterexample: `int` translates and `GetFuncType` gives the type
of `int g()` the descriptor of no parameters, but `GetType` returns no
descriptor for that type, nor for `int (*)()`. -/
theorem GetType_function_no_proto_fails :
    (GetType HostRegistry.getorcreatecstruct (sampleTarget noRecords) 3 (QualType.Builtin .Int)
        (IncludeCVisitor.create HostRegistry.freshState 0)).map Prod.fst =
      some (some (Obj.typefield "int32")) ∧
    (GetFuncType (GetType HostRegistry.getorcreatecstruct (sampleTarget noRecords) 3)
        ⟨QualType.Builtin .Int, none⟩
        (IncludeCVisitor.create HostRegistry.freshState 0)).map Prod.fst =
      some (some (Obj.functype [] (Obj.typefield "int32") false)) ∧
    (GetType HostRegistry.getorcreatecstruct (sampleTarget noRecords) 3
        (QualType.FunctionNoProto (QualType.Builtin .Int))
        (IncludeCVisitor.create HostRegistry.freshState 0)).map
      (fun r => (r.1, r.2.error_message)) = some (none, "type not understood: ? 15") ∧
    (GetType HostRegistry.getorcreatecstruct (sampleTarget noRecords) 3
        (QualType.Pointer (QualType.FunctionNoProto (QualType.Builtin .Int)))
        (IncludeCVisitor.create HostRegistry.freshState 0)).map
      (fun r => (r.1, r.2.error_message)) = some (none, "type not understood: ? 15") := by
  exact ⟨rfl, rfl, rfl, rfl⟩

/-- C15: for a constant-size array of `n` elements `GetType` translates the
element type and, when that succeeds, returns the array descriptor whose
count is `n` read into a 32-bit `int`: the count is `n` when `n < 2^31`, but
for `char a[2147483648]` it is `-2147483648` and for `char a[4294967296]` it
is `0`, not the element count and not always non-negative. -/
theorem GetType_constant_array_count {ρ : Type} (reg : Registry ρ) (Context : ASTContext)
    (fuel : Nat) (E : QualType) (n : Nat) (v : IncludeCVisitor ρ) :
    GetType reg Context (fuel + 1) (QualType.ConstantArray E n) v =
      (GetType reg Context fuel E v).map
        (fun r => (r.1.map (fun at_ => Obj.array at_ (toInt32 n)), r.2)) ∧
    (n < 2 ^ 31 ↔ toInt32 n = (n : Int)) ∧
    (GetType HostRegistry.getorcreatecstruct (sampleTarget noRecords) 2
        (QualType.ConstantArray (QualType.Builtin .Char_S) 2147483648)
        (IncludeCVisitor.create HostRegistry.freshState 0)).map Prod.fst =
      some (some (Obj.array (Obj.typefield "int8") (-2147483648))) ∧
    (GetType HostRegistry.getorcreatecstruct (sampleTarget noRecords) 2
        (QualType.ConstantArray (QualType.Builtin .Char_S) 4294967296)
        (IncludeCVisitor.create HostRegistry.freshState 0)).map Prod.fst =
      some (some (Obj.array (Obj.typefield "int8") 0)) ∧
    (GetType HostRegistry.getorcreatecstruct (sampleTarget noRecords) 2
        (QualType.ConstantArray (QualType.Builtin .Char_S) 16)
        (IncludeCVisitor.create HostRegistry.freshState 0)).map Prod.fst =
      some (some (Obj.array (Obj.typefield "int8") 16)) := by
  refine ⟨?_, ?_, rfl, rfl, rfl⟩
  · simp only [GetType, GetType.body, QualType.getCanonicalType, GetType.switch, GetType.wrap]
  · constructor
    · exact toInt32_of_lt
    · intro h
      unfold toInt32 at h
      have hm : n % 2 ^ 32 < 2 ^ 32 := Nat.mod_lt _ (by norm_num)
      have hle : n % 2 ^ 32 ≤ n := Nat.mod_le _ _
      split at h
      · omega
      · omega

/-- C16: on well-formed declarations and a registry that keeps defined
handles, `VisitTypedefDecl` returns within some step budget and on every
larger one, and it always returns `true`. For a typedef that is not canonical
or not at the top level nothing changes. For one that is both, `GetType` is
called on the canonical underlying type: when it translates, the descriptor
is stored under the typedef's name in `general` and the table of errors is
as it was; when it fails, the import error message is stored under the
typedef's name in the table of errors and `general` is as `GetType` left it,
with no change under the typedef's name unless that is the typedef name of a
record without a tag. -/
theorem VisitTypedefDecl_contract {ρ : Type} {reg : Registry ρ} (hreg : reg.KeepsDefined)
    {Context : ASTContext} (hwf : Context.WellFormed) (TD : TypedefDecl)
    (v : IncludeCVisitor ρ) :
    (∃ n x, ∀ m, n ≤ m → VisitTypedefDecl reg Context m TD v = some x) ∧
    ∀ n b v1, VisitTypedefDecl reg Context n TD v = some (b, v1) →
      b = true ∧
      ((TD.isCanonicalDecl && TD.atTranslationUnit) = false → v1 = v) ∧
      ((TD.isCanonicalDecl && TD.atTranslationUnit) = true →
        ∃ r w, GetType reg Context n TD.underlyingType.getCanonicalType v = some (r, w) ∧
          (∀ typ, r = some typ →
            v1 = { w with general := w.general.setfield TD.name typ } ∧
            v1.general TD.name = some typ ∧
            (∀ name, name ≠ TD.name → v1.general name = w.general name) ∧
            v1.error_table = v.error_table) ∧
          (r = none →
            v1 = { w with error_table := w.error_table.setfield TD.name w.error_message } ∧
            v1.error_table TD.name = some w.error_message ∧
            (∀ name, name ≠ TD.name → v1.error_table name = v.error_table name) ∧
            v1.general = w.general ∧
            ((∀ rd, recordNamespace (Context.getRecordDecl rd) ≠ (false, TD.name)) →
              v1.general TD.name = v.general TD.name))) := by
  constructor
  · obtain ⟨n, x, hx⟩ := VisitTypedefDecl_terminates hreg hwf TD v
    exact ⟨n, x, fun m hm => VisitTypedefDecl_mono reg Context hm TD v x hx⟩
  · intro n b v1 h
    obtain ⟨hb, ⟨hc, rfl⟩ | ⟨hc, typ, w, hg, rfl⟩ | ⟨hc, w, hg, rfl⟩⟩ := VisitTypedefDecl_cases h
    · refine ⟨hb, fun _ => rfl, fun hc' => ?_⟩
      rw [hc] at hc'
      cases hc'
    · have hF : Frame v w := GetType_keeps (Frame_invariant reg Context) n _ v _ w hg
      refine ⟨hb, fun hc' => ?_, fun _ => ⟨some typ, w, hg, ?_, (fun h0 => by cases h0)⟩⟩
      · rw [hc] at hc'
        cases hc'
      · intro typ' ht
        cases ht
        exact ⟨rfl, by simp [Table.setfield], (fun name hn => by simp [Table.setfield, hn]),
          hF.error_table⟩
    · have hF : Frame v w := GetType_keeps (Frame_invariant reg Context) n _ v _ w hg
      refine ⟨hb, fun hc' => ?_, fun _ => ⟨none, w, hg, (fun typ h0 => by cases h0), fun _ => ?_⟩⟩
      · rw [hc] at hc'
        cases hc'
      · refine ⟨rfl, (by simp [SetErrorReport, Table.setfield]), fun name hn => ?_, rfl,
          fun hname => ?_⟩
        · simp only [SetErrorReport, Table.setfield, hn, if_false]
          rw [hF.error_table]
        · exact GetType_keeps (GeneralAt_invariant reg Context TD.name hname) n _ v _ w hg

/-- C16, on `typedef int myint;` and `typedef long double real;` at the top
level, in a fresh visitor. -/
theorem VisitTypedefDecl_contract_witness :
    (∃ n x, ∀ m, n ≤ m →
      VisitTypedefDecl HostRegistry.getorcreatecstruct (sampleTarget noRecords) m
        ⟨"myint", QualType.Builtin .Int, true, true⟩
        (IncludeCVisitor.create HostRegistry.freshState 0) = some x) ∧
    (VisitTypedefDecl HostRegistry.getorcreatecstruct (sampleTarget noRecords) 1
        ⟨"myint", QualType.Builtin .Int, true, true⟩
        (IncludeCVisitor.create HostRegistry.freshState 0)).map
      (fun x => (x.1, x.2.general "myint", x.2.error_table "myint")) =
      some (true, some (Obj.typefield "int32"), none) ∧
    (VisitTypedefDecl HostRegistry.getorcreatecstruct (sampleTarget noRecords) 1
        ⟨"real", QualType.Builtin .LongDouble, true, true⟩
        (IncludeCVisitor.create HostRegistry.freshState 0)).map
      (fun x => (x.1, x.2.general "real", x.2.error_table "real")) =
      some (true, none, some "type not understood: long double 0") ∧
    (VisitTypedefDecl HostRegistry.getorcreatecstruct (sampleTarget noRecords) 1
        ⟨"myint", QualType.Builtin .Int, true, false⟩
        (IncludeCVisitor.create HostRegistry.freshState 0)).map
      (fun x => (x.1, x.2.general "myint", x.2.error_table "myint")) =
      some (true, none, none) :=
  ⟨(VisitTypedefDecl_contract HostRegistry_keepsDefined
      (wellFormed_of_named (sampleTarget (recordsOf [])) [] rfl (by decide))
      ⟨"myint", QualType.Builtin .Int, true, true⟩
      (IncludeCVisitor.create HostRegistry.freshState 0)).1, rfl, rfl, rfl⟩

/-- C17, as it holds: on well-formed declarations and a registry that keeps
defined handles, `GetRecordTypeFromDecl` returns the handle of its lookup for
a struct or union, within some step budget and on every larger one; when the
record has a definition the handle is not flagged `undefined` on return,
whatever its fields and whether or not a field list was attached, and when
it has none the state is that of the lookup, flag included. -/
theorem GetRecordTypeFromDecl_clears_undefined {ρ : Type} {reg : Registry ρ}
    (hreg : reg.KeepsDefined) {Context : ASTContext} (hwf : Context.WellFormed) (rd : Nat)
    (v : IncludeCVisitor ρ)
    (hkind : ((Context.getRecordDecl rd).isStruct || (Context.getRecordDecl rd).isUnion) = true) :
    ∃ n v1, (∀ m, n ≤ m →
        GetRecordTypeFromDecl reg Context (GetType reg Context m) rd v =
          some (some (GetRecordTypeFromDecl.lookup reg Context rd v).1, v1)) ∧
      ((Context.getRecordDecl rd).definition ≠ none →
        Obj.undefined v1.L (GetRecordTypeFromDecl.lookup reg Context rd v).1 = false) ∧
      ((Context.getRecordDecl rd).definition = none →
        v1 = (GetRecordTypeFromDecl.lookup reg Context rd v).2) := by
  obtain ⟨n, x, hx⟩ := GetRecordTypeFromDecl_terminates hreg hwf rd v
  have h0 := hx n le_rfl
  rw [GetRecordTypeFromDecl_eq_some] at h0
  rcases h0 with ⟨_, v1, hc, hxe⟩ | ⟨hk, _⟩
  swap
  · rw [hkind] at hk
    cases hk
  subst hxe
  refine ⟨n, v1, hx, ?_, ?_⟩
  · intro hdef
    rw [GetRecordTypeFromDecl.complete_eq_some] at hc
    rcases hc with ⟨defn, _, hu, ok, entries, v2, hf, hv⟩ | ⟨hno, hv⟩
    · have hL := GetFields_loop_keeps (Later_invariant hreg Context)
        (GetType_keeps (Later_invariant hreg Context) n) _ _ _ _ _ _ _ _ hf
      have h2 := hL.undefined _ (Obj.undefined_setfields_clear _ _)
      rw [hv]
      exact (GetRecordTypeFromDecl.attach_later _ _ _ _ _).undefined _ h2
    · rcases hno with hno | hno
      · exact absurd hno hdef
      · rw [hv]
        exact hno
  · intro hdef
    rw [GetRecordTypeFromDecl.complete_eq_some] at hc
    rcases hc with ⟨defn, hd, _⟩ | ⟨_, hv⟩
    · rw [hdef] at hd
      cases hd
    · exact hv

/-- C17, on `struct S { int a : 3; int b; };` in a fresh visitor: the
handle is returned without the flag `undefined`. -/
theorem GetRecordTypeFromDecl_clears_undefined_witness :
    ∃ n v1, (∀ m, n ≤ m →
        GetRecordTypeFromDecl HostRegistry.getorcreatecstruct
            (sampleTarget (recordsOf [structBitField]))
            (GetType HostRegistry.getorcreatecstruct
              (sampleTarget (recordsOf [structBitField])) m) 0
            (IncludeCVisitor.create HostRegistry.freshState 0) =
          some (some (Obj.cstruct 0), v1)) ∧
      (v1.L.structs 0).undefined = false := by
  obtain ⟨n, v1, h1, h2, _⟩ := GetRecordTypeFromDecl_clears_undefined
    HostRegistry_keepsDefined
    (wellFormed_of_named (sampleTarget (recordsOf [structBitField])) [structBitField] rfl
      (by decide)) 0 (IncludeCVisitor.create HostRegistry.freshState 0) (by decide)
  exact ⟨n, v1, h1, h2 (Option.some_ne_none _)⟩

/-- C17, counterexample: the handle of `struct S { int a : 3; int b; };`
is flagged `undefined` when it is created; after `GetRecordTypeFromDecl` has
resolved the definition, whose bit-field makes `GetFields` reject the field
list, the handle has no entries, `complete` was not called, and the flag is
off. -/
theorem GetRecordTypeFromDecl_bitfield_not_undefined :
    (HostRegistry.freshState.structs 0).undefined = true ∧
    ((GetRecordTypeFromDecl.lookup HostRegistry.getorcreatecstruct
        (sampleTarget (recordsOf [structBitField])) 0
        (IncludeCVisitor.create HostRegistry.freshState 0)).2.L.structs 0).undefined = true ∧
    (GetRecordTypeFromDecl HostRegistry.getorcreatecstruct
        (sampleTarget (recordsOf [structBitField]))
        (GetType HostRegistry.getorcreatecstruct (sampleTarget (recordsOf [structBitField])) 2)
        0 (IncludeCVisitor.create HostRegistry.freshState 0)).map
      (fun x => (x.1, (x.2.L.structs 0).undefined, (x.2.L.structs 0).entries,
        (x.2.L.structs 0).complete)) =
      some (some (Obj.cstruct 0), false, [], 0) := by
  exact ⟨rfl, rfl, rfl⟩

/-- C18: against a registry that leaves defined handles alone and never
calls `complete` itself, over any sequence of calls of
`GetRecordTypeFromDecl`, and over the traversal of any declarations, the count
of calls of `complete` on a handle goes up by one at most; it does not move
for a handle that is not flagged `undefined` at the start; when it goes up,
the handle was flagged at the start, is not flagged at the end, and has the
entries of an attached field list. The one call of `complete` is made by
the attachment, right after the entries are written, and the attachment does
nothing when `GetFields` rejected the field list: the count of the handle of
a record with an unsupported field is the same after the call. -/
theorem complete_at_most_once {ρ : Type} {reg : Registry ρ} (hreg : reg.KeepsDefined)
    (hnc : reg.NeverCompletes) (Context : ASTContext) :
    (∀ v b, ResolvedBy reg Context v b → ∀ h,
      (b.L.structs h).complete ≤ (v.L.structs h).complete + 1 ∧
      ((v.L.structs h).undefined = false →
        (b.L.structs h).complete = (v.L.structs h).complete) ∧
      ((b.L.structs h).complete ≠ (v.L.structs h).complete →
        (b.L.structs h).complete = (v.L.structs h).complete + 1 ∧
        (v.L.structs h).undefined = true ∧ (b.L.structs h).undefined = false ∧
        Attached (b.L.structs h).entries)) ∧
    (∀ isLinux n D v b, HandleTopLevelDecl reg Context isLinux n D v = some b →
      CompletedOnce v b) ∧
    (∀ isUnion h entries (v : IncludeCVisitor ρ),
      GetRecordTypeFromDecl.attach isUnion (Obj.cstruct h) false entries v = v) ∧
    (∀ isUnion h entries (v : IncludeCVisitor ρ),
      ((GetRecordTypeFromDecl.attach isUnion (Obj.cstruct h) true entries v).L.structs
          h).complete = (v.L.structs h).complete + 1 ∧
      ((GetRecordTypeFromDecl.attach isUnion (Obj.cstruct h) true entries v).L.structs
          h).entries =
        if isUnion then (v.L.structs h).entries ++ [EntryItem.list entries]
        else entries.map EntryItem.entry) ∧
    (∀ n rd v r w defn h,
      GetRecordTypeFromDecl reg Context (GetType reg Context n) rd v = some (r, w) →
      (Context.getRecordDecl rd).definition = some defn →
      (∃ it ∈ defn, it.Unsupported Context) →
      (GetRecordTypeFromDecl.lookup reg Context rd v).1 = Obj.cstruct h →
      (w.L.structs h).complete = (v.L.structs h).complete) := by
  refine ⟨?_, ?_, ?_, ?_, ?_⟩
  · intro v b hres h
    have hC := ResolvedBy_completedOnce hreg hnc Context hres
    refine ⟨?_, fun hu => (hC.1 h hu).2.2, fun hne => ?_⟩
    · rcases hC.2 h with h1 | ⟨h1, _⟩ <;> omega
    · rcases hC.2 h with h1 | h1
      · exact absurd h1 hne
      · exact h1
  · intro isLinux n D v b h
    exact HandleTopLevelDecl_steps (CompletedOnce_stepInvariant hreg hnc Context)
      CompletedOnce_outside D h
  · intro isUnion h entries v
    exact GetRecordTypeFromDecl.attach_false _ _ _ _
  · intro isUnion h entries v
    unfold GetRecordTypeFromDecl.attach
    cases isUnion <;> simp [Obj.setfields, structs_modify]
  · intro n rd v r w defn h hg hdef hbad hh
    exact GetRecordTypeFromDecl_rejected hreg hnc hg hdef hbad hh

/-- C18, on `struct S { int x; };` declared twice at the top level, in a
fresh visitor: `complete` is called once on the handle. -/
theorem complete_at_most_once_witness :
    (∀ b, HandleTopLevelDecl HostRegistry.getorcreatecstruct
        (sampleTarget (recordsOf [structS])) true 3 [Decl.RecordDecl 0, Decl.RecordDecl 0]
        (IncludeCVisitor.create HostRegistry.freshState 0) = some b →
      (b.L.structs 0).complete ≤ 1) ∧
    (HandleTopLevelDecl HostRegistry.getorcreatecstruct
        (sampleTarget (recordsOf [structS])) true 3 [Decl.RecordDecl 0, Decl.RecordDecl 0]
        (IncludeCVisitor.create HostRegistry.freshState 0)).map
      (fun b => ((b.L.structs 0).complete, (b.L.structs 0).undefined)) = some (1, false) := by
  refine ⟨fun b hb => ?_, rfl⟩
  have hC := (complete_at_most_once HostRegistry_keepsDefined HostRegistry_neverCompletes
    (sampleTarget (recordsOf [structS]))).2.1 true 3 _ _ b hb
  rcases hC.2 0 with h1 | ⟨h1, _⟩
  · rw [h1]
    exact Nat.zero_le 1
  · rw [h1]
    exact Nat.le_refl 1

/-- C19: for a function declaration that is not static and whose last
parameter type is one that `GetType` does not understand, the message that
`TraverseFunctionDecl` records under the function's name is the message of
that last parameter alone, whatever other types of the declaration failed
before it: `ImportError` replaces the message of every earlier failure. -/
theorem TraverseFunctionDecl_reports_last_failure {ρ : Type} (reg : Registry ρ)
    (Context : ASTContext) (isLinux : Bool) (fuel : Nat) (f : FunctionDecl)
    (v : IncludeCVisitor ρ) (FT : FunctionType) (before : List QualType) (PT : QualType)
    (hft : f.type.getAsFunctionType = some FT)
    (hst : f.storageClass ≠ StorageClass.SC_Static)
    (hparams : FT.paramTypes = before ++ [PT])
    (hPT : GetType.switch Context PT.getCanonicalType = GetType.Action.notUnderstood)
    (b : Bool) (v1 : IncludeCVisitor ρ)
    (h : TraverseFunctionDecl reg Context isLinux (fuel + 1) f v = some (b, v1)) :
    b = true ∧
    v1.error_table f.name = some ("type not understood: " ++
      Context.getAsString PT.getCanonicalType ++ " " ++
      toString (Context.typeClassValue PT.getCanonicalType.getTypeClass)) := by
  have hg : ∀ x, GetType reg Context (fuel + 1) PT x = some (none, ImportError
      ("type not understood: " ++ Context.getAsString PT.getCanonicalType ++ " " ++
        toString (Context.typeClassValue PT.getCanonicalType.getTypeClass)) x) := by
    intro x
    simp only [GetType, GetType.body, hPT, GetType.notUnderstood]
  have hlast : ∀ r w, GetFuncType (GetType reg Context (fuel + 1)) FT v = some (r, w) →
      r = none ∧ w.error_message = "type not understood: " ++
        Context.getAsString PT.getCanonicalType ++ " " ++
        toString (Context.typeClassValue PT.getCanonicalType.getTypeClass) := by
    intro r w hf
    rw [GetFuncType_eq_some] at hf
    obtain ⟨rt, v0, valid, ps, v2, _, hl, hx⟩ := hf
    rw [hparams] at hl
    obtain ⟨hv, hm⟩ := GetFuncType_loop_last _ PT _ hg _ _ _ _ _ _ _ hl
    simp only [Prod.mk.injEq] at hx
    obtain ⟨hr, rfl⟩ := hx
    refine ⟨?_, hm⟩
    rw [hr, hv]
    cases rt <;> rfl
  obtain ⟨hb, h | ⟨FT1, hft1, hst1, _⟩ | ⟨FT1, w, hft1, _, hgf, rfl⟩ |
    ⟨FT1, typ, w, hft1, _, hgf, _⟩⟩ := TraverseFunctionDecl_cases h
  · rw [hft] at h
    cases h.1
  · exact absurd hst1 hst
  · rw [hft] at hft1
    cases hft1
    obtain ⟨_, hm⟩ := hlast _ _ hgf
    refine ⟨hb, ?_⟩
    simp [SetErrorReport, Table.setfield, hm]
  · rw [hft] at hft1
    cases hft1
    obtain ⟨hr, _⟩ := hlast _ _ hgf
    cases hr

/-- C19, on `int f(long double a, struct S *p, __int128 b);` over `struct S
{ int x; };` in a fresh visitor: `long double` fails with its own message,
the parameter after it is still translated (`struct S` is registered), and
the message recorded under `errors["f"]` names `__int128` only. -/
theorem TraverseFunctionDecl_reports_last_failure_witness :
    (GetType HostRegistry.getorcreatecstruct (sampleTarget (recordsOf [structS])) 3
        (QualType.Builtin .LongDouble) (IncludeCVisitor.create HostRegistry.freshState 0)).map
      (fun x => (x.1, x.2.error_message)) = some (none, "type not understood: long double 0") ∧
    (TraverseFunctionDecl HostRegistry.getorcreatecstruct (sampleTarget (recordsOf [structS]))
        true 3 threeParamsF (IncludeCVisitor.create HostRegistry.freshState 0)).map
      (fun x => (x.1, x.2.error_table "f", x.2.general "f", x.2.tagged "S",
        x.2.outputstmts.length)) =
      some (true, some "type not understood: __int128 0", none, some (Obj.cstruct 0), 0) := by
  refine ⟨rfl, ?_⟩
  have h : ∃ x, TraverseFunctionDecl HostRegistry.getorcreatecstruct
      (sampleTarget (recordsOf [structS])) true 3 threeParamsF
      (IncludeCVisitor.create HostRegistry.freshState 0) = some x :=
    Option.isSome_iff_exists.mp rfl
  obtain ⟨⟨b, v1⟩, hx⟩ := h
  obtain ⟨hb, he⟩ := TraverseFunctionDecl_reports_last_failure HostRegistry.getorcreatecstruct
    (sampleTarget (recordsOf [structS])) true 2 threeParamsF
    (IncludeCVisitor.create HostRegistry.freshState 0)
    ⟨QualType.Builtin .Int, some ([QualType.Builtin .LongDouble,
      QualType.Pointer (QualType.Record 0), QualType.Builtin .Int128], false)⟩
    [QualType.Builtin .LongDouble, QualType.Pointer (QualType.Record 0)]
    (QualType.Builtin .Int128) rfl (by decide) rfl rfl b v1 hx
  have hrest : (TraverseFunctionDecl HostRegistry.getorcreatecstruct
      (sampleTarget (recordsOf [structS])) true 3 threeParamsF
      (IncludeCVisitor.create HostRegistry.freshState 0)).map
      (fun x => (x.2.general "f", x.2.tagged "S", x.2.outputstmts.length)) =
      some (none, some (Obj.cstruct 0), 0) := rfl
  rw [hx] at hrest ⊢
  simp only [Option.map_some', Option.some.injEq, Prod.mk.injEq] at hrest ⊢
  exact ⟨hb, he.trans (by decide), hrest⟩

/-- C20, as it holds: an import returns, given steps enough, and the body of
its liveness function holds one statement for each accepted function
declaration of the translation unit, in order and counting a declaration as
often as it occurs, and nothing else; the name of each of them is in
`general`. A declaration that repeats an accepted one adds a statement of
its own: `CreateFunction` skips it, `KeepFunctionLive` does not. -/
theorem dofile_liveness_statements {ρ : Type} {reg : Registry ρ} (hreg : reg.KeepsDefined)
    {Context : ASTContext} (hwf : Context.WellFormed) (PP : Preprocessor) (isLinux : Bool)
    (decls : List Decl) (macroTable : List (IdentifierInfo × MacroInfo)) (L : LuaState ρ)
    (id : Nat) :
    ∃ n r, (∀ m, n ≤ m → dofile reg Context PP isLinux m decls macroTable L id = some r) ∧
      StatementsOf Context decls r.livenessDecl.body ∧
      (∀ f, Decl.FunctionDecl f ∈ decls → f.Accepted Context →
        (r.general f.name).isSome = true) ∧
      (∀ f, f.Accepted Context → decls = [Decl.FunctionDecl f, Decl.FunctionDecl f] →
        r.livenessDecl.body = [livenessStmt f, livenessStmt f]) ∧
      ∀ (v : IncludeCVisitor ρ) m f b v1, f.Accepted Context →
        TraverseFunctionDecl reg Context isLinux m f v = some (b, v1) →
        v1.outputstmts = v.outputstmts ++ [livenessStmt f] := by
  obtain ⟨n, r, hr⟩ := dofile_terminates hreg hwf PP isLinux decls macroTable L id
  obtain ⟨v, hv, hgen, -, -, hliv, -⟩ := dofile_eq_some (hr n (Nat.le_refl n))
  obtain ⟨added, hadd, hst⟩ := HandleTopLevelDecl_statementsOf decls hv
  obtain ⟨-, added2, hadd2, hall, hmem⟩ := HandleTopLevelDecl_stmts decls hv
  have hbody : r.livenessDecl.body = added := by
    rw [hliv]
    simpa [GetLivenessFunction, IncludeCVisitor.create] using hadd
  have hbody2 : added2 = added := by
    have := hadd2.symm.trans hadd
    simpa [IncludeCVisitor.create] using this
  refine ⟨n, r, hr, by rw [hbody]; exact hst, ?_, ?_, ?_⟩
  · intro f hf ha
    obtain ⟨g, _, _, he, hi⟩ := hall _ (hmem f hf ha)
    cases livenessStmt_injective he
    rw [hgen]
    exact hi
  · intro f ha hd
    rw [hbody]
    rw [hd] at hst
    cases hst with
    | accepted _ h2 =>
      cases h2 with
      | accepted _ h3 =>
        cases h3
        rfl
      | other hna _ => exact absurd ha (hna f rfl)
    | other hna _ => exact absurd ha (hna f rfl)
  · intro v m f b v1 ha ht
    obtain ⟨_, ⟨hna, _⟩ | ⟨_, hs, _⟩⟩ := TraverseFunctionDecl_step ht
    · exact absurd ha hna
    · exact hs

/-- C20, on `int g(void); int g(void);`: the import returns and the body
holds two statements. -/
theorem dofile_liveness_statements_witness :
    ∃ n r, (∀ m, n ≤ m → dofile HostRegistry.getorcreatecstruct (sampleTarget (recordsOf []))
        decimalPP true m [Decl.FunctionDecl externIntG, Decl.FunctionDecl externIntG] []
        HostRegistry.freshState 0 = some r) ∧
      r.livenessDecl.body = [livenessStmt externIntG, livenessStmt externIntG] := by
  obtain ⟨n, r, h, _, _, hdup, _⟩ := dofile_liveness_statements HostRegistry_keepsDefined
    (wellFormed_of_named (sampleTarget (recordsOf [])) [] rfl (by decide)) decimalPP true
    [Decl.FunctionDecl externIntG, Decl.FunctionDecl externIntG] [] HostRegistry.freshState 0
  refine ⟨n, r, h, hdup externIntG ⟨by decide, _, rfl, Or.inr ?_, ?_⟩ rfl⟩
  · exact Translates.initType rfl
  · intro PT hPT
    cases hPT

/-- C20, counterexample: the import of `int g(void); int g(void);` leaves
two statements in the liveness function and one function in `general`. -/
theorem dofile_duplicate_two_statements :
    (dofile HostRegistry.getorcreatecstruct (sampleTarget (recordsOf [])) decimalPP true 2
        [Decl.FunctionDecl externIntG, Decl.FunctionDecl externIntG] []
        HostRegistry.freshState 0).map (fun r => r.livenessDecl.body.length) = some 2 ∧
    (dofile HostRegistry.getorcreatecstruct (sampleTarget (recordsOf [])) decimalPP true 2
        [Decl.FunctionDecl externIntG, Decl.FunctionDecl externIntG] []
        HostRegistry.freshState 0).map (fun r => r.general) =
      some (Table.empty.setfield "g"
        (Obj.externfunction "g" (Obj.functype [] (Obj.typefield "int32") false))) ∧
    ∀ name, name ≠ "g" →
      (Table.empty.setfield "g"
        (Obj.externfunction "g" (Obj.functype [] (Obj.typefield "int32") false))) name =
        none := by
  refine ⟨rfl, rfl, fun name hn => ?_⟩
  simp [Table.setfield, Table.empty, hn]

/-- C21: on well-formed declarations (finitely many named records, and no
record without a name that contains itself) and a registry that keeps defined
handles, `GetType` and `GetRecordTypeFromDecl` return on every type and
record, within some step budget and on every larger one, whatever the
records point to. While a named struct or union is being resolved, that is
in every state later than the clearing of its handle's flag, resolving the
record again returns the handle with no change to the state, so without a
look at its fields, and a pointer to the record translates to the pointer to
that handle; so the field list that `GetFields` computes for the record has
an entry of that type for every field that is a pointer to the record
itself. -/
theorem GetType_terminates_on_cycles {ρ : Type} {reg : Registry ρ} (hreg : reg.KeepsDefined)
    {Context : ASTContext} (hwf : Context.WellFormed) :
    (∀ T (v : IncludeCVisitor ρ), ∃ n x, ∀ m, n ≤ m → GetType reg Context m T v = some x) ∧
    (∀ rd (v : IncludeCVisitor ρ), ∃ n x, ∀ m, n ≤ m →
      GetRecordTypeFromDecl reg Context (GetType reg Context m) rd v = some x) ∧
    ∀ rd (v : IncludeCVisitor ρ) h defn,
      ((Context.getRecordDecl rd).isStruct || (Context.getRecordDecl rd).isUnion) = true →
      (recordNamespace (Context.getRecordDecl rd)).2 ≠ "" →
      (Context.getRecordDecl rd).definition = some defn →
      (GetRecordTypeFromDecl.lookup reg Context rd v).1 = Obj.cstruct h →
      (∀ x, Later ((Obj.cstruct h).setfields (fun s => { s with undefined := false })
          (GetRecordTypeFromDecl.lookup reg Context rd v).2) x →
        (∀ g, GetRecordTypeFromDecl reg Context g rd x = some (some (Obj.cstruct h), x)) ∧
        ∀ fuel T E, T.getCanonicalType = QualType.Pointer E →
          E.getCanonicalType = QualType.Record rd →
          GetType reg Context (fuel + 2) T x = some (some (Obj.pointer (Obj.cstruct h)), x)) ∧
      ∀ n ok es vf,
        GetFields (GetType reg Context n) defn
          ((Obj.cstruct h).setfields (fun s => { s with undefined := false })
            (GetRecordTypeFromDecl.lookup reg Context rd v).2) = some (ok, es, vf) →
        Later ((Obj.cstruct h).setfields (fun s => { s with undefined := false })
          (GetRecordTypeFromDecl.lookup reg Context rd v).2) vf ∧
        ∀ it ∈ defn, it.skipped = false →
          (∃ E, it.type.getCanonicalType = QualType.Pointer E ∧
            E.getCanonicalType = QualType.Record rd) →
          ∃ e ∈ es, e.type = Obj.pointer (Obj.cstruct h) := by
  refine ⟨?_, ?_, ?_⟩
  · intro T v
    obtain ⟨n, r, v', h⟩ := GetType_terminates hreg hwf T v
    exact ⟨n, (r, v'), fun m hm => GetType_mono reg Context hm T v _ h⟩
  · intro rd v
    exact GetRecordTypeFromDecl_terminates hreg hwf rd v
  · intro rd v h defn hs hname hdef hh
    have hLI := Later_invariant hreg Context
    have hpre : ∀ x, Later ((Obj.cstruct h).setfields (fun s => { s with undefined := false })
          (GetRecordTypeFromDecl.lookup reg Context rd v).2) x →
        x.thenamespace (recordNamespace (Context.getRecordDecl rd)).1
          (recordNamespace (Context.getRecordDecl rd)).2 = some (Obj.cstruct h) ∧
        Obj.undefined x.L (Obj.cstruct h) = false := by
      intro x hL
      constructor
      · apply hL.1
        apply (Obj.setfields_frame _ _ _).kept
        rw [← hh]
        exact GetRecordTypeFromDecl.lookup_registered reg Context rd v hname
      · exact hL.undefined _ (Obj.undefined_setfields_clear _ _)
    have hre : ∀ x, Later ((Obj.cstruct h).setfields (fun s => { s with undefined := false })
          (GetRecordTypeFromDecl.lookup reg Context rd v).2) x →
        (∀ g, GetRecordTypeFromDecl reg Context g rd x = some (some (Obj.cstruct h), x)) ∧
        ∀ fuel T E, T.getCanonicalType = QualType.Pointer E →
          E.getCanonicalType = QualType.Record rd →
          GetType reg Context (fuel + 2) T x = some (some (Obj.pointer (Obj.cstruct h)), x) := by
      intro x hL
      obtain ⟨h1, h2⟩ := hpre x hL
      exact ⟨fun g => GetRecordTypeFromDecl_reentry reg Context g rd x _ hs h1 h2,
        fun fuel T E hT hE => GetType_pointer_reentry reg Context fuel T E rd x _ hT hE hs h1 h2⟩
    refine ⟨hre, ?_⟩
    intro n ok es vf hf
    refine ⟨GetFields_loop_keeps hLI (GetType_keeps hLI n) _ _ _ _ _ _ _ _ hf, ?_⟩
    intro it hit hsk ⟨E, hT, hE⟩
    have := GetFields_loop_entry (GetType reg Context n)
      (Later ((Obj.cstruct h).setfields (fun s => { s with undefined := false })
          (GetRecordTypeFromDecl.lookup reg Context rd v).2))
      (fun T x r x' hx hg => Later_trans hx (GetType_keeps hLI n T x r x' hg))
      it.type (Obj.pointer (Obj.cstruct h))
      (fun x y hx hg => by
        have h2 := (hre x hx).2 0 it.type E hT hE
        have h3 := GetType_mono reg Context (le_max_left n 2) it.type x y hg
        have h4 := GetType_mono reg Context (le_max_right n 2) it.type x _ h2
        rw [h3] at h4
        exact Option.some.inj h4)
      defn false 0 [] _ ok es vf (Later_refl _) hf
    exact this.2 it hit hsk rfl

/-- C21, on `struct N { struct N *next; int v; };` and on `struct X {
struct Y *y; }; struct Y { struct X *x; };` in a fresh visitor: the types
and records resolve, and the entries point to the handles. -/
theorem GetType_terminates_on_cycles_witness :
    (∃ n x, ∀ m, n ≤ m →
      GetRecordTypeFromDecl HostRegistry.getorcreatecstruct
        (sampleTarget (recordsOf [structN]))
        (GetType HostRegistry.getorcreatecstruct (sampleTarget (recordsOf [structN])) m) 0
        (IncludeCVisitor.create HostRegistry.freshState 0) = some x) ∧
    (GetRecordTypeFromDecl HostRegistry.getorcreatecstruct
        (sampleTarget (recordsOf [structN]))
        (GetType HostRegistry.getorcreatecstruct (sampleTarget (recordsOf [structN])) 3) 0
        (IncludeCVisitor.create HostRegistry.freshState 0)).map
      (fun x => (x.1, (x.2.L.structs 0).entries, (x.2.L.structs 0).complete)) =
      some (some (Obj.cstruct 0),
        [EntryItem.entry ⟨Obj.pointer (Obj.cstruct 0), "next"⟩,
          EntryItem.entry ⟨Obj.typefield "int32", "v"⟩], 1) ∧
    (GetRecordTypeFromDecl HostRegistry.getorcreatecstruct
        (sampleTarget (recordsOf [structX, structY]))
        (GetType HostRegistry.getorcreatecstruct
          (sampleTarget (recordsOf [structX, structY])) 5) 0
        (IncludeCVisitor.create HostRegistry.freshState 0)).map
      (fun x => (x.1, (x.2.L.structs 0).entries, (x.2.L.structs 1).entries)) =
      some (some (Obj.cstruct 0),
        [EntryItem.entry ⟨Obj.pointer (Obj.cstruct 1), "y"⟩],
        [EntryItem.entry ⟨Obj.pointer (Obj.cstruct 0), "x"⟩]) :=
  ⟨(GetType_terminates_on_cycles HostRegistry_keepsDefined
      (wellFormed_of_named (sampleTarget (recordsOf [structN])) [structN] rfl
        (by decide))).2.1 0 (IncludeCVisitor.create HostRegistry.freshState 0), rfl, rfl⟩

/-- C22: for a struct or union whose handle is flagged `undefined` when it is
looked up, and whose definition has only fields that are not bit-fields, are
named or anonymous structs or unions, and are of types that translate, on
well-formed declarations and a registry that keeps defined handles:
`GetRecordTypeFromDecl` returns; `GetFields` understands every field and its
list has one entry for each field, in order, with the translation of the
field's type and the field's name, `_k` for the anonymous member that has `k`
anonymous members before it; the `entries` of the handle of a struct are
this list, and those of the handle of a union are what they were with this
list added as one element, so that list alone when the handle had none. -/
theorem GetRecordTypeFromDecl_entries {ρ : Type} {reg : Registry ρ} (hreg : reg.KeepsDefined)
    {Context : ASTContext} (hwf : Context.WellFormed) (rd : Nat) (v : IncludeCVisitor ρ)
    (defn : List FieldDecl) (h : Nat)
    (hkind : ((Context.getRecordDecl rd).isStruct || (Context.getRecordDecl rd).isUnion) = true)
    (hdef : (Context.getRecordDecl rd).definition = some defn)
    (hfields : ∀ it ∈ defn, it.isBitField = false ∧
      (it.isAnonymousStructOrUnion = true ∨ it.name ≠ "") ∧ Translates Context it.type)
    (hh : (GetRecordTypeFromDecl.lookup reg Context rd v).1 = Obj.cstruct h)
    (hu : ((GetRecordTypeFromDecl.lookup reg Context rd v).2.L.structs h).undefined = true) :
    ∃ n es vf v1,
      (∀ m, n ≤ m → GetRecordTypeFromDecl reg Context (GetType reg Context m) rd v =
        some (some (Obj.cstruct h), v1)) ∧
      GetFields (GetType reg Context n) defn
        ((Obj.cstruct h).setfields (fun s => { s with undefined := false })
          (GetRecordTypeFromDecl.lookup reg Context rd v).2) = some (true, es, vf) ∧
      TranslatedFields (GetType reg Context n) defn 0
        ((Obj.cstruct h).setfields (fun s => { s with undefined := false })
          (GetRecordTypeFromDecl.lookup reg Context rd v).2) es vf ∧
      es.length = defn.length ∧
      (∀ i : Nat, (es[i]?).map Entry.field = (defn[i]?).map fun (it : FieldDecl) =>
        if it.isAnonymousStructOrUnion then
          "_" ++ toString ((defn.take i).countP fun (x : FieldDecl) => x.isAnonymousStructOrUnion)
        else it.name) ∧
      ((Context.getRecordDecl rd).isUnion = false →
        (v1.L.structs h).entries = es.map EntryItem.entry) ∧
      ((Context.getRecordDecl rd).isUnion = true →
        (v1.L.structs h).entries =
          ((GetRecordTypeFromDecl.lookup reg Context rd v).2.L.structs h).entries ++
            [EntryItem.list es]) ∧
      ((Context.getRecordDecl rd).isUnion = true →
        ((GetRecordTypeFromDecl.lookup reg Context rd v).2.L.structs h).entries = [] →
        (v1.L.structs h).entries = [EntryItem.list es]) := by
  obtain ⟨n, x, hx⟩ := GetRecordTypeFromDecl_terminates hreg hwf rd v
  have h0 := hx n le_rfl
  rw [GetRecordTypeFromDecl_eq_some] at h0
  rcases h0 with ⟨_, v1, hc, hxe⟩ | ⟨hk, _⟩
  swap
  · rw [hkind] at hk
    cases hk
  subst hxe
  rw [GetRecordTypeFromDecl.complete_eq_some] at hc
  rcases hc with ⟨defn', hd', hu', ok, es, vf, hf, hv⟩ | ⟨hno, _⟩
  swap
  · exfalso
    rcases hno with hno | hno
    · rw [hdef] at hno
      cases hno
    · rw [hh] at hno
      have hu2 : ((GetRecordTypeFromDecl.lookup reg Context rd v).2.L.structs h).undefined =
          false := hno
      rw [hu] at hu2
      cases hu2
  rw [hdef] at hd'
  cases hd'
  rw [hh] at hf hv hx
  have hskip : ∀ it ∈ defn, it.skipped = false ∧ Translates Context it.type := by
    intro it hit
    obtain ⟨h1, h2, h3⟩ := hfields it hit
    refine ⟨?_, h3⟩
    unfold FieldDecl.skipped
    rw [h1]
    rcases h2 with h2 | h2
    · simp [h2]
    · simp [h2]
  obtain ⟨hok, es1, hch, hes⟩ := GetFields_loop_all (GetType_decides reg Context n)
    defn false 0 [] _ ok es vf hskip hf
  simp only [List.nil_append] at hes
  subst hes
  simp only [Bool.not_false] at hok
  subst hok
  have hS := GetFields_loop_keeps (Settles_invariant hreg Context)
    (GetType_keeps (Settles_invariant hreg Context) n) _ _ _ _ _ _ _ _ hf
  have hcl := hS h (by simp [Obj.setfields, structs_modify])
  simp only [Obj.setfields, structs_modify, if_true] at hcl
  have hunion : (Context.getRecordDecl rd).isUnion = true →
      (v1.L.structs h).entries =
        ((GetRecordTypeFromDecl.lookup reg Context rd v).2.L.structs h).entries ++
          [EntryItem.list es] := by
    intro hun
    rw [hv, hun]
    simp [GetRecordTypeFromDecl.attach, Obj.setfields, structs_modify, hcl.2.1]
  have hnames := TranslatedFields_names _ _ _ _ _ _ hch
  refine ⟨n, es, vf, v1, hx, hf, hch, TranslatedFields_length _ _ _ _ _ _ hch, ?_, ?_, hunion, ?_⟩
  · intro i
    rw [hnames i]
    simp only [Nat.zero_add]
  · intro hun
    rw [hv, hun]
    simp [GetRecordTypeFromDecl.attach, Obj.setfields, structs_modify]
  · intro hun hemp
    rw [hunion hun, hemp]
    rfl

/-- C22, on `struct P { int x; struct { int a; }; long y; union { int b; };
};` and on `union U { int i; float f; };` in a fresh visitor. -/
theorem GetRecordTypeFromDecl_entries_witness :
    (∃ n v1, ∀ m, n ≤ m →
      GetRecordTypeFromDecl HostRegistry.getorcreatecstruct
        (sampleTarget (recordsOf [structP, anonStructA, anonUnionB]))
        (GetType HostRegistry.getorcreatecstruct
          (sampleTarget (recordsOf [structP, anonStructA, anonUnionB])) m) 0
        (IncludeCVisitor.create HostRegistry.freshState 0) = some (some (Obj.cstruct 0), v1)) ∧
    (GetRecordTypeFromDecl HostRegistry.getorcreatecstruct
        (sampleTarget (recordsOf [structP, anonStructA, anonUnionB]))
        (GetType HostRegistry.getorcreatecstruct
          (sampleTarget (recordsOf [structP, anonStructA, anonUnionB])) 3) 0
        (IncludeCVisitor.create HostRegistry.freshState 0)).map
      (fun x => ((x.2.L.structs 0).entries, (x.2.L.structs 2).entries)) =
      some ([EntryItem.entry ⟨Obj.typefield "int32", "x"⟩,
          EntryItem.entry ⟨Obj.cstruct 1, "_0"⟩,
          EntryItem.entry ⟨Obj.typefield "int64", "y"⟩,
          EntryItem.entry ⟨Obj.cstruct 2, "_1"⟩],
        [EntryItem.list [⟨Obj.typefield "int32", "b"⟩]]) ∧
    (GetRecordTypeFromDecl HostRegistry.getorcreatecstruct
        (sampleTarget (recordsOf [unionU]))
        (GetType HostRegistry.getorcreatecstruct (sampleTarget (recordsOf [unionU])) 3) 0
        (IncludeCVisitor.create HostRegistry.freshState 0)).map
      (fun x => (x.2.L.structs 0).entries) =
      some [EntryItem.list [⟨Obj.typefield "int32", "i"⟩, ⟨Obj.typefield "float", "f"⟩]] := by
  refine ⟨?_, rfl, rfl⟩
  obtain ⟨n, _, _, v1, h1, _⟩ := GetRecordTypeFromDecl_entries HostRegistry_keepsDefined
    (wellFormed_of_flat (sampleTarget (recordsOf [structP, anonStructA, anonUnionB]))
      [structP, anonStructA, anonUnionB] rfl (by decide)) 0
    (IncludeCVisitor.create HostRegistry.freshState 0)
    [⟨"x", false, false, QualType.Builtin .Int⟩, ⟨"", false, true, QualType.Record 1⟩,
      ⟨"y", false, false, QualType.Builtin .Long⟩, ⟨"", false, true, QualType.Record 2⟩]
    0 rfl rfl
    (by
      intro it hit
      simp only [List.mem_cons, List.mem_singleton, List.not_mem_nil, or_false] at hit
      rcases hit with rfl | rfl | rfl | rfl
      · exact ⟨rfl, Or.inr (by decide), Translates.initType rfl⟩
      · exact ⟨rfl, Or.inl rfl, Translates.record rfl rfl⟩
      · exact ⟨rfl, Or.inr (by decide), Translates.initType rfl⟩
      · exact ⟨rfl, Or.inl rfl, Translates.record rfl rfl⟩)
    rfl rfl
  exact ⟨n, v1, h1⟩

/-- C23: against a registry that leaves the native bindings of the handles
as they are. `GetRecordTypeFromDecl` leaves a handle that has a binding as it
is, with no new parameter type, and gives one that has none the name of the
liveness function and the next position, at which it adds the pointer to the
type of the record it is resolving: the lookup of the record `rd` (lines 126
to 155), when the namespace holds no value under the record's name and the
registry returns a handle without a binding, returns that handle bound to the
liveness function at the position that was the number of parameter types,
and has added `Pointer (Record rd)` there; in every other case it adds no
parameter type. Across every call of `GetRecordTypeFromDecl` and across the
traversal of any declarations the liveness function keeps its name, its
parameter types are only added to, a handle that has a binding keeps it, the
bindings of the session stay in order, and every handle that gets a binding
gets it from the lookup of a record that returned the handle, at a position
that holds the pointer to that record's type. So at the end of an import
whose liveness function no handle names at the start, that function is
`__makeeverythinginclanglive_` followed by the session's identifier, every
handle bound to it has a position at which its parameter types hold the
pointer to the type of the record whose lookup returned the handle, no two
such handles have the same position, every position below the number of
parameter types is taken, and the handles bound before the import have the
binding they had. -/
theorem session_bindings {ρ : Type} {reg : Registry ρ} (hkb : reg.KeepsBindings)
    (Context : ASTContext) :
    (∀ rd h (v : IncludeCVisitor ρ), (v.L.structs h).llvm_definingfunction.isSome = true →
      GetRecordTypeFromDecl.register rd h v = v) ∧
    (∀ rd h (v : IncludeCVisitor ρ), (v.L.structs h).llvm_definingfunction = none →
      (GetRecordTypeFromDecl.register rd h v).outputtypes =
        v.outputtypes ++ [QualType.Pointer (QualType.Record rd)] ∧
      ((GetRecordTypeFromDecl.register rd h v).L.structs h).llvm_definingfunction =
        some v.livenessfunction ∧
      ((GetRecordTypeFromDecl.register rd h v).L.structs h).llvm_argumentposition =
        some v.outputtypes.length ∧
      ∀ h1, h1 ≠ h → (GetRecordTypeFromDecl.register rd h v).L.structs h1 = v.L.structs h1) ∧
    (∀ rd (v : IncludeCVisitor ρ),
      v.thenamespace (recordNamespace (Context.getRecordDecl rd)).1
        (recordNamespace (Context.getRecordDecl rd)).2 = none →
      ((reg v.L (recordNamespace (Context.getRecordDecl rd)).2
        (recordNamespace (Context.getRecordDecl rd)).1).2.structs
          (reg v.L (recordNamespace (Context.getRecordDecl rd)).2
            (recordNamespace (Context.getRecordDecl rd)).1).1).llvm_definingfunction = none →
      (GetRecordTypeFromDecl.lookup reg Context rd v).1 =
        Obj.cstruct (reg v.L (recordNamespace (Context.getRecordDecl rd)).2
          (recordNamespace (Context.getRecordDecl rd)).1).1 ∧
      (GetRecordTypeFromDecl.lookup reg Context rd v).2.outputtypes =
        v.outputtypes ++ [QualType.Pointer (QualType.Record rd)] ∧
      ((GetRecordTypeFromDecl.lookup reg Context rd v).2.L.structs
        (reg v.L (recordNamespace (Context.getRecordDecl rd)).2
          (recordNamespace (Context.getRecordDecl rd)).1).1).llvm_definingfunction =
        some v.livenessfunction ∧
      ((GetRecordTypeFromDecl.lookup reg Context rd v).2.L.structs
        (reg v.L (recordNamespace (Context.getRecordDecl rd)).2
          (recordNamespace (Context.getRecordDecl rd)).1).1).llvm_argumentposition =
        some v.outputtypes.length) ∧
    (∀ rd (v : IncludeCVisitor ρ),
      (v.thenamespace (recordNamespace (Context.getRecordDecl rd)).1
          (recordNamespace (Context.getRecordDecl rd)).2).isSome = true ∨
        ((reg v.L (recordNamespace (Context.getRecordDecl rd)).2
          (recordNamespace (Context.getRecordDecl rd)).1).2.structs
            (reg v.L (recordNamespace (Context.getRecordDecl rd)).2
              (recordNamespace (Context.getRecordDecl rd)).1).1).llvm_definingfunction.isSome =
          true →
      (GetRecordTypeFromDecl.lookup reg Context rd v).2.outputtypes = v.outputtypes) ∧
    (∀ n rd (v : IncludeCVisitor ρ) r w,
      GetRecordTypeFromDecl reg Context (GetType reg Context n) rd v = some (r, w) →
      BindsRecords reg Context v w) ∧
    (∀ isLinux n D (v w : IncludeCVisitor ρ),
      HandleTopLevelDecl reg Context isLinux n D v = some w → BindsRecords reg Context v w) ∧
    ∀ PP isLinux n decls macroTable (L : LuaState ρ) id r,
      (∀ h, (L.structs h).llvm_definingfunction ≠
        some ("__makeeverythinginclanglive_" ++ toString id)) →
      dofile reg Context PP isLinux n decls macroTable L id = some r →
      r.livenessDecl.name = "__makeeverythinginclanglive_" ++ toString id ∧
      (∀ h, (r.L.structs h).llvm_definingfunction = some r.livenessDecl.name →
        ∃ p rd, (r.L.structs h).llvm_argumentposition = some p ∧
          r.livenessDecl.paramTypes[p]? = some (QualType.Pointer (QualType.Record rd)) ∧
          ∃ w, HandleTopLevelDecl reg Context isLinux n decls (IncludeCVisitor.create L id) =
              some w ∧
            AssignedBy reg Context (IncludeCVisitor.create L id) w h p rd) ∧
      (∀ h1 h2 p, (r.L.structs h1).llvm_definingfunction = some r.livenessDecl.name →
        (r.L.structs h1).llvm_argumentposition = some p →
        (r.L.structs h2).llvm_definingfunction = some r.livenessDecl.name →
        (r.L.structs h2).llvm_argumentposition = some p → h1 = h2) ∧
      (∀ p, p < r.livenessDecl.paramTypes.length →
        ∃ h, (r.L.structs h).llvm_definingfunction = some r.livenessDecl.name ∧
          (r.L.structs h).llvm_argumentposition = some p) ∧
      ∀ h, (L.structs h).llvm_definingfunction.isSome = true →
        (r.L.structs h).llvm_definingfunction = (L.structs h).llvm_definingfunction ∧
        (r.L.structs h).llvm_argumentposition = (L.structs h).llvm_argumentposition := by
  have hSI := BindsRecords_stepInvariant hkb Context
  refine ⟨fun rd h v => (GetRecordTypeFromDecl.register_bound rd h v).1, ?_, ?_, ?_, ?_, ?_, ?_⟩
  · intro rd h v hn
    obtain ⟨h1, _, h3, h4, h5⟩ := (GetRecordTypeFromDecl.register_bound rd h v).2 hn
    exact ⟨h1, h3, h4, h5⟩
  · intro rd v
    exact (GetRecordTypeFromDecl.lookup_bound reg Context rd v).1
  · intro rd v hc
    exact ((GetRecordTypeFromDecl.lookup_bound reg Context rd v).2 hc).1
  · intro n rd v r w hg
    exact GetRecordTypeFromDecl_steps hSI (GetType_steps hSI n) rd v r w hg
  · intro isLinux n D v w h
    exact HandleTopLevelDecl_steps_types hSI BindsRecords_outside D h
  · intro PP isLinux n decls macroTable L id r hfresh hr
    obtain ⟨v, hv, -, -, -, hliv, hL⟩ := dofile_eq_some hr
    obtain ⟨⟨hl, _, hkeep, hB⟩, hrec⟩ :=
      HandleTopLevelDecl_steps_types hSI BindsRecords_outside decls hv
    have hB0 : Bound (IncludeCVisitor.create L id) := by
      refine ⟨fun h hd => absurd hd (hfresh h), fun h1 _ _ hd => absurd hd (hfresh h1),
        fun p hp => ?_⟩
      simp [IncludeCVisitor.create] at hp
    obtain ⟨h1, h2, h3⟩ := hB hB0
    have hname : r.livenessDecl.name = v.livenessfunction := by rw [hliv]; rfl
    have hparams : r.livenessDecl.paramTypes = v.outputtypes := by rw [hliv]; rfl
    rw [hname, hparams, hL]
    refine ⟨hl, ?_, h2, h3, hkeep⟩
    intro h hd
    have hn : ((IncludeCVisitor.create L id).L.structs h).llvm_definingfunction = none := by
      cases hs : ((IncludeCVisitor.create L id).L.structs h).llvm_definingfunction with
      | none => rfl
      | some s =>
        exfalso
        have hk := (hkeep h (by simp [hs])).1
        rw [hd, hl] at hk
        exact hfresh h hk.symm
    obtain ⟨_, p, rd, hp, hget, hby⟩ := hrec h hn (by simp [hd])
    exact ⟨p, rd, hp, hget, v, hv, hby⟩

/-- C23, on `struct X { struct Y *y; }; struct Y { struct X *x; };` in a
first import: the handles of `X` and `Y` get the positions 0 and 1 of
`__makeeverythinginclanglive_0`, whose parameter types are the pointer to
the type of `X` and the pointer to the type of `Y`, in that order. -/
theorem session_bindings_witness :
    (∀ r, dofile HostRegistry.getorcreatecstruct (sampleTarget (recordsOf [structX, structY]))
        decimalPP true 5 [Decl.RecordDecl 0, Decl.RecordDecl 1] [] HostRegistry.freshState 0 =
          some r →
      r.livenessDecl.name = "__makeeverythinginclanglive_0" ∧
      (∀ h, (r.L.structs h).llvm_definingfunction = some r.livenessDecl.name →
        ∃ p rd, (r.L.structs h).llvm_argumentposition = some p ∧
          r.livenessDecl.paramTypes[p]? = some (QualType.Pointer (QualType.Record rd)) ∧
          ∃ w, HandleTopLevelDecl HostRegistry.getorcreatecstruct
              (sampleTarget (recordsOf [structX, structY])) true 5
              [Decl.RecordDecl 0, Decl.RecordDecl 1]
              (IncludeCVisitor.create HostRegistry.freshState 0) = some w ∧
            AssignedBy HostRegistry.getorcreatecstruct
              (sampleTarget (recordsOf [structX, structY]))
              (IncludeCVisitor.create HostRegistry.freshState 0) w h p rd) ∧
      ∀ p, p < r.livenessDecl.paramTypes.length →
        ∃ h, (r.L.structs h).llvm_definingfunction = some r.livenessDecl.name ∧
          (r.L.structs h).llvm_argumentposition = some p) ∧
    (dofile HostRegistry.getorcreatecstruct (sampleTarget (recordsOf [structX, structY]))
        decimalPP true 5 [Decl.RecordDecl 0, Decl.RecordDecl 1] [] HostRegistry.freshState 0).map
      (fun r => (r.livenessDecl.name, r.livenessDecl.paramTypes,
        r.tagged "X", (r.L.structs 0).llvm_definingfunction, (r.L.structs 0).llvm_argumentposition,
        r.tagged "Y", (r.L.structs 1).llvm_definingfunction,
        (r.L.structs 1).llvm_argumentposition)) =
      some ("__makeeverythinginclanglive_0",
        [QualType.Pointer (QualType.Record 0), QualType.Pointer (QualType.Record 1)],
        some (Obj.cstruct 0), some "__makeeverythinginclanglive_0", some 0,
        some (Obj.cstruct 1), some "__makeeverythinginclanglive_0", some 1) := by
  refine ⟨fun r hr => ?_, rfl⟩
  obtain ⟨h1, h2, _, h4, _⟩ := (session_bindings HostRegistry_keepsBindings
    (sampleTarget (recordsOf [structX, structY]))).2.2.2.2.2.2 decimalPP true 5
    [Decl.RecordDecl 0, Decl.RecordDecl 1] [] HostRegistry.freshState 0 r
    (fun h hc => by cases hc) hr
  exact ⟨h1, h2, h4⟩

/-- C24: for `int f(long double a, struct S { __int128 x; } *p);` in a fresh
visitor, the parameter `a` fails with the message of `long double`, the
parameter `p` translates (the handle of `struct S` is registered and
defined, without entries), the function is not imported, and the message
recorded under `errors["f"]` is that of `__int128`, the type of a field of
`struct S`, not that of `long double`. -/
theorem TraverseFunctionDecl_reports_field_failure :
    (GetType HostRegistry.getorcreatecstruct (sampleTarget (recordsOf [structInt128])) 4
        (QualType.Builtin .LongDouble) (IncludeCVisitor.create HostRegistry.freshState 0)).map
      (fun x => (x.1, x.2.error_message)) = some (none, "type not understood: long double 0") ∧
    (GetType HostRegistry.getorcreatecstruct (sampleTarget (recordsOf [structInt128])) 4
        (QualType.Pointer (QualType.Record 0))
        (IncludeCVisitor.create HostRegistry.freshState 0)).map
      (fun x => (x.1, x.2.error_message)) =
      some (some (Obj.pointer (Obj.cstruct 0)), "type not understood: __int128 0") ∧
    (TraverseFunctionDecl HostRegistry.getorcreatecstruct
        (sampleTarget (recordsOf [structInt128])) true 4 mixedParamsF
        (IncludeCVisitor.create HostRegistry.freshState 0)).map
      (fun x => (x.1, x.2.error_table "f", x.2.general "f", x.2.tagged "S",
        (x.2.L.structs 0).undefined, (x.2.L.structs 0).entries, x.2.error_table "S")) =
      some (true, some "type not understood: __int128 0", none, some (Obj.cstruct 0), false, [],
        none) :=
  ⟨rfl, rfl, rfl⟩

/-- C25, as it holds: `GetType` returns the field `uint32` of `terra.types`,
on every step budget and with no change to the state, for every enumeration
type, whatever its name and underlying integer type, and equally for the
Objective-C object, interface and object-pointer types, which share the arm
of the enumeration in the `switch` and so succeed; a builtin integer kind
that is unsigned and of 32 bits gets the same descriptor by the integer
arm. -/
theorem GetType_enum_arm {ρ : Type} (reg : Registry ρ) (Context : ASTContext) (fuel : Nat)
    (v : IncludeCVisitor ρ) (name : String) (integerType : QualType) :
    GetType reg Context (fuel + 1) (QualType.Enum name integerType) v =
      some (some (Obj.typefield "uint32"), v) ∧
    GetType reg Context (fuel + 1) QualType.ObjCObject v =
      some (some (Obj.typefield "uint32"), v) ∧
    GetType reg Context (fuel + 1) QualType.ObjCInterface v =
      some (some (Obj.typefield "uint32"), v) ∧
    GetType reg Context (fuel + 1) QualType.ObjCObjectPointer v =
      some (some (Obj.typefield "uint32"), v) ∧
    (∀ kind ∈ integerKinds, Context.isUnsignedIntegerType (QualType.Builtin kind) = true →
      Context.getTypeSize (QualType.Builtin kind) = 32 →
      GetType reg Context (fuel + 1) (QualType.Builtin kind) v =
        some (some (Obj.typefield "uint32"), v)) := by
  refine ⟨rfl, rfl, rfl, rfl, ?_⟩
  intro kind hk hu hs
  have hname : integerTypeName true (toInt32 32) = "uint32" := by decide
  simp only [integerKinds, List.mem_cons, List.mem_singleton, List.not_mem_nil, or_false] at hk
  rcases hk with rfl | rfl | rfl | rfl | rfl | rfl | rfl | rfl | rfl | rfl | rfl | rfl | rfl |
    rfl | rfl | rfl <;>
    simp only [GetType, GetType.body, QualType.getCanonicalType, GetType.switch, hu, hs, hname]

/-- C25, counterexample: in a fresh visitor of the sample target `GetType`
succeeds on an Objective-C object pointer, with the descriptor `uint32` and
no error message, and returns the same descriptor for `unsigned int`. -/
theorem GetType_objc_succeeds :
    (GetType HostRegistry.getorcreatecstruct (sampleTarget noRecords) 1
        QualType.ObjCObjectPointer (IncludeCVisitor.create HostRegistry.freshState 0)).map
      (fun x => (x.1, x.2.error_message)) = some (some (Obj.typefield "uint32"), "") ∧
    (GetType HostRegistry.getorcreatecstruct (sampleTarget noRecords) 1
        QualType.ObjCObject (IncludeCVisitor.create HostRegistry.freshState 0)).map
      (fun x => (x.1, x.2.error_message)) = some (some (Obj.typefield "uint32"), "") ∧
    (GetType HostRegistry.getorcreatecstruct (sampleTarget noRecords) 1
        QualType.ObjCInterface (IncludeCVisitor.create HostRegistry.freshState 0)).map
      (fun x => (x.1, x.2.error_message)) = some (some (Obj.typefield "uint32"), "") ∧
    (GetType HostRegistry.getorcreatecstruct (sampleTarget noRecords) 1
        (QualType.Enum "E" (QualType.Builtin .Long))
        (IncludeCVisitor.create HostRegistry.freshState 0)).map
      (fun x => (x.1, x.2.error_message)) = some (some (Obj.typefield "uint32"), "") ∧
    (GetType HostRegistry.getorcreatecstruct (sampleTarget noRecords) 1
        (QualType.Builtin .UInt) (IncludeCVisitor.create HostRegistry.freshState 0)).map
      (fun x => (x.1, x.2.error_message)) = some (some (Obj.typefield "uint32"), "") :=
  ⟨rfl, rfl, rfl, rfl, rfl⟩

end TCWrapper
